import Mathlib

/-!
The file `pkg/scheduler/pod_task.go`.

A shallow embedding of the pod task of the scheduler: the task record, the
feasibility probe `AcceptOffer`, the binding step `FillFromDetails`, its undo
`ClearTaskInfo`, and the host-port mapper `defaultHostPortMapping`.

Conventions of the embedding:

* a Go pointer or interface value is an `Option` (`none` is `nil`);
* a method with a pointer receiver, and a function that is handed a pointer to
  the task, is a function from the task before the call to the task after it,
  paired with what the call produced;
* a run-time panic (an explicit `panic(...)` or a nil dereference) is
  `Outcome.fault`;
* a `float64` is a `Float64`: a finite value, held as the rational it denotes, an
  infinity, or NaN, with the comparisons of IEEE 754;
* a Go `int` is an integer within the bounds of 64 bits, and `uint64(x)` wraps;
* the iteration order of a Go `map` is not fixed by the language: it is supplied
  by a `MapIter`, which may pick a different order at every `range` statement.
-/

namespace Scheduler

/-! ## Results of calls -/

/-- What a call produces: a returned value, or a run-time panic. -/
inductive Outcome (α : Type) where
  | ret (a : α)
  | fault (msg : String)
deriving DecidableEq, Repr

/-- The message of the run-time panic raised by a nil dereference. -/
def nilDeref : String := "invalid memory address or nil pointer dereference"

/-! ## The pod (package `api`, read only) -/

/-- One port declaration of a container. `HostPort` and `ContainerPort` are Go
`int`s; `HostPort` carries the bounds of the type (64 bits). -/
structure Port where
  Name : String := ""
  HostPort : Int := 0
  ContainerPort : Int := 0
  hostPort_ge : -9223372036854775808 ≤ HostPort := by decide
  hostPort_lt : HostPort < 9223372036854775808 := by decide
deriving DecidableEq, Repr

/-- The conversion `uint64(x)` of a Go `int`: the value modulo 2^64, so that a
negative `x` wraps (`uint64(-1)` is 18446744073709551615). -/
def toUint64 (x : Int) : Nat := (x % 18446744073709551616).toNat

structure Container where
  Name : String := ""
  Ports : List Port := []
deriving DecidableEq, Repr

structure PodSpec where
  Containers : List Container := []
deriving DecidableEq, Repr

structure Pod where
  Name : String := ""
  Namespace : String := ""
  Spec : PodSpec := {}
deriving DecidableEq, Repr

/-! ## Offers and task descriptors (package `mesos`, protobuf messages)

Every optional protobuf field is a pointer; the generated getters `GetX` are
nil-safe and return the zero value for a missing field. -/

/-- A `float64`: a finite value (the rational it denotes), NaN, or an infinity. -/
inductive Float64 where
  | finite (q : ℚ)
  | nan
  | posInf
  | negInf
deriving DecidableEq

instance (n : Nat) : OfNat Float64 n := ⟨.finite n⟩

/-- The comparison `a < b` of two `float64`s: false whenever one is NaN. -/
def Float64.lt : Float64 → Float64 → Prop
  | .finite a, .finite b => a < b
  | .finite _, .posInf => True
  | .negInf, .finite _ => True
  | .negInf, .posInf => True
  | _, _ => False

instance : LT Float64 := ⟨Float64.lt⟩

instance (a b : Float64) : Decidable (a < b) := by
  show Decidable (Float64.lt a b)
  cases a <;> cases b <;> unfold Float64.lt <;> infer_instance

/-- The comparison `a <= b` of two `float64`s: false whenever one is NaN. -/
def Float64.le : Float64 → Float64 → Prop
  | .finite a, .finite b => a ≤ b
  | .finite _, .posInf => True
  | .negInf, .finite _ => True
  | .negInf, .posInf => True
  | .negInf, .negInf => True
  | .posInf, .posInf => True
  | _, _ => False

instance : LE Float64 := ⟨Float64.le⟩

instance (a b : Float64) : Decidable (a ≤ b) := by
  show Decidable (Float64.le a b)
  cases a <;> cases b <;> unfold Float64.le <;> infer_instance

structure Value_Scalar where
  Value : Option Float64 := none
deriving DecidableEq

structure Value_Range where
  Begin : Option Nat := none
  End : Option Nat := none
deriving DecidableEq, Repr

def Value_Range.GetBegin (r : Value_Range) : Nat := r.Begin.getD 0

def Value_Range.GetEnd (r : Value_Range) : Nat := r.End.getD 0

structure Value_Ranges where
  Range : List Value_Range := []
deriving DecidableEq, Repr

inductive Value_Type where
  | SCALAR
  | RANGES
  | SET
deriving DecidableEq, Repr

structure Resource where
  Name : Option String := none
  Type_ : Option Value_Type := none
  Scalar : Option Value_Scalar := none
  Ranges : Option Value_Ranges := none
deriving DecidableEq

def Resource.GetName (r : Resource) : String := r.Name.getD ""

def Resource.GetScalar (r : Resource) : Option Value_Scalar := r.Scalar

def Resource.GetRanges (r : Resource) : Option Value_Ranges := r.Ranges

/-- The helper `mesos.ScalarResource(name, value)`. -/
def ScalarResource (name : String) (value : Float64) : Resource :=
  { Name := some name, Type_ := some Value_Type.SCALAR, Scalar := some { Value := some value } }

structure OfferID where
  Value : Option String := none
deriving DecidableEq, Repr

def OfferID.GetValue (id : Option OfferID) : String :=
  match id with
  | some i => i.Value.getD ""
  | none => ""

structure SlaveID where
  Value : Option String := none
deriving DecidableEq, Repr

structure TaskID where
  Value : Option String := none
deriving DecidableEq, Repr

structure ExecutorInfo where
  ExecutorId : Option String := none
  Data : Option (List Nat) := none
deriving DecidableEq, Repr

structure Offer where
  Id : Option OfferID := none
  SlaveId : Option SlaveID := none
  Hostname : Option String := none
  Resources : List Resource := []
deriving DecidableEq

def Offer.GetSlaveId (o : Offer) : Option SlaveID := o.SlaveId

/-- The message `mesos.TaskInfo`; `Resources` and `Data` are slices, `none` being
the nil slice. -/
structure TaskInfo where
  Name : Option String := none
  TaskId : Option TaskID := none
  SlaveId : Option SlaveID := none
  Resources : Option (List Resource) := none
  Executor : Option ExecutorInfo := none
  Data : Option (List Nat) := none
deriving DecidableEq

/-- The interface `PerishableOffer`, seen through its method `Details()`, which
returns a pointer to the offer. -/
structure PerishableOffer where
  Details : Option Offer := none
deriving DecidableEq

/-! ## `pod_task.go` -/

def containerCpus : Float64 := .finite (1 / 4)

def containerMem : Float64 := .finite 64

structure hostPortMapping where
  cindex : Nat
  pindex : Nat
  offerPort : Nat
deriving DecidableEq, Repr

/-- The error values a port mapper returns. `other` stands for the error of a
mapper that is not the default one. -/
inductive MapError where
  | PortAllocationError (PodId : String) (Ports : List Nat)
  | DuplicateHostPortError (m1 m2 : hostPortMapping)
  | other (msg : String)
deriving DecidableEq, Repr

abbrev Time := Nat

/-- The fields of `PodTask` other than `mapper`: what a mapper can read of the
task it is handed. -/
structure PodTaskData where
  ID : String := ""
  Pod : Option Pod := none
  TaskInfo : Option TaskInfo := none
  Offer : Option PerishableOffer := none
  launched : Bool := false
  deleted : Bool := false
  podKey : String := ""
  createTime : Time := 0
  launchTime : Time := 0
  bindTime : Time := 0
  ports : Option (List hostPortMapping) := none
deriving DecidableEq

/-- The type `hostPortMappingFunc`. A mapper is handed a pointer to the task and
may write through it: it gives the task as it leaves it, and the pair
`(mapping, err)` it returns, or a panic. The function value in the field `mapper`
is the one field it does not replace here; no statement of the file reads that
field after a call of the mapper. -/
abbrev hostPortMappingFunc :=
  PodTaskData → Option Offer →
    PodTaskData × Outcome (Option (List hostPortMapping) × Option MapError)

structure PodTask extends PodTaskData where
  mapper : Option hostPortMappingFunc := none

/-! ### The map `requiredPorts`

A `map[uint64]hostPortMapping` is the list of its entries, no key twice. -/

abbrev PortMap := List (Nat × hostPortMapping)

/-- The two-valued lookup `entry, inuse := m[k]`. -/
def mapLookup (m : PortMap) (k : Nat) : Option hostPortMapping :=
  (m.find? (fun e => e.1 = k)).map Prod.snd

/-- The one-valued lookup `m[k]`, the zero value for a missing key. -/
def mapGet (m : PortMap) (k : Nat) : hostPortMapping :=
  (mapLookup m k).getD ⟨0, 0, 0⟩

/-- The assignment `m[k] = v`. -/
def mapSet (m : PortMap) (k : Nat) (v : hostPortMapping) : PortMap :=
  if (mapLookup m k).isSome then m.map (fun e => if e.1 = k then (k, v) else e)
  else m ++ [(k, v)]

/-- The statement `delete(m, k)`. -/
def mapDelete (m : PortMap) (k : Nat) : PortMap :=
  m.filter (fun e => e.1 ≠ k)

/-- The order in which `range` walks a map: the `n`-th `range` statement executed
walks the entries of `m` in the order `order n m`. -/
structure MapIter where
  order : Nat → PortMap → PortMap
  perm : ∀ n m, (order n m).Perm m

/-- The iteration that walks every map in the order of insertion. -/
def MapIter.insertion : MapIter := ⟨fun _ m => m, fun _ _ => List.Perm.refl _⟩

/-- The iteration that walks every map against the order of insertion. -/
def MapIter.reversed : MapIter := ⟨fun _ m => m.reverse, fun _ m => List.reverse_perm m⟩

/-! ### `defaultHostPortMapping` -/

/-- Lines 189-202: the ports of container `i`, from port index `pi` on. An early
`return nil, &DuplicateHostPortError{entry, m}` is `Except.error`. -/
def scanPorts (i : Nat) : List Port → Nat → PortMap → Except MapError PortMap
  | [], _, requiredPorts => .ok requiredPorts
  | port :: rest, pi, requiredPorts =>
    if port.HostPort = 0 then scanPorts i rest (pi + 1) requiredPorts
    else
      let m : hostPortMapping := ⟨i, pi, toUint64 port.HostPort⟩
      match mapLookup requiredPorts (toUint64 port.HostPort) with
      | some entry => .error (.DuplicateHostPortError entry m)
      | none => scanPorts i rest (pi + 1) (mapSet requiredPorts (toUint64 port.HostPort) m)

/-- Lines 185-203: the containers of the pod, from container index `i` on. -/
def scanContainers : List Container → Nat → PortMap → Except MapError PortMap
  | [], _, requiredPorts => .ok requiredPorts
  | container :: rest, i, requiredPorts =>
    match scanPorts i container.Ports 0 requiredPorts with
    | .error e => .error e
    | .ok requiredPorts1 => scanContainers rest (i + 1) requiredPorts1

/-- The local state of the loop over the offer: `n` counts the `range`
statements over `requiredPorts` executed so far. -/
structure MatchState where
  n : Nat
  mapping : List hostPortMapping
  requiredPorts : PortMap
deriving DecidableEq, Repr

/-- Lines 209-215: one walk over the keys of `requiredPorts` for the range
`[bp, ep]`; `keys` are the keys still to visit. -/
def matchPorts (bp ep : Nat) :
    List Nat → List hostPortMapping × PortMap → List hostPortMapping × PortMap
  | [], s => s
  | port :: keys, (mapping, requiredPorts) =>
    if bp ≤ port ∧ port ≤ ep then
      matchPorts bp ep keys (mapping ++ [mapGet requiredPorts port], mapDelete requiredPorts port)
    else matchPorts bp ep keys (mapping, requiredPorts)

/-- Lines 206-216: the ranges of one resource named "ports". -/
def scanRanges (it : MapIter) : List Value_Range → MatchState → MatchState
  | [], s => s
  | r :: rest, s =>
    let bp := r.GetBegin
    let ep := r.GetEnd
    let keys := (it.order s.n s.requiredPorts).map Prod.fst
    let res := matchPorts bp ep keys (s.mapping, s.requiredPorts)
    scanRanges it rest ⟨s.n + 1, res.1, res.2⟩

/-- Lines 204-218: the resources of the offer. `(*resource).GetRanges().Range`
reads a field through the pointer `GetRanges()` returns, a nil dereference when
the resource has no ranges value. -/
def scanResources (it : MapIter) : List Resource → MatchState → Outcome MatchState
  | [], s => .ret s
  | resource :: rest, s =>
    if resource.GetName = "ports" then
      match resource.GetRanges with
      | none => .fault nilDeref
      | some ranges => scanResources it rest (scanRanges it ranges.Range s)
    else scanResources it rest s

/-- What `defaultHostPortMapping` returns (lines 179-229). -/
def mapHostPorts (it : MapIter) (t : PodTaskData) (offer : Option Offer) :
    Outcome (Option (List hostPortMapping) × Option MapError) :=
  match t.Pod with
  | none => .fault "task.Pod is nil"
  | some pod =>
    match scanContainers pod.Spec.Containers 0 [] with
    | .error e => .ret (none, some e)
    | .ok requiredPorts =>
      match offer with
      | none => .fault nilDeref
      | some o =>
        match scanResources it o.Resources ⟨0, [], requiredPorts⟩ with
        | .fault msg => .fault msg
        | .ret s =>
          if s.requiredPorts.length > 0 then
            .ret (none, some (.PortAllocationError pod.Name
              ((it.order s.n s.requiredPorts).map Prod.fst)))
          else .ret (some s.mapping, none)

/-- The function `defaultHostPortMapping` (lines 178-230): it reads `t.Pod` and
assigns to no field of the task. -/
def defaultHostPortMapping (it : MapIter) : hostPortMappingFunc := fun t offer =>
  (t, mapHostPorts it t offer)

/-! ### The methods of `PodTask` -/

/-- The call `t.mapper(t, offer)`: the task as the mapper leaves it and what the
mapper returns; calling a nil function value panics. -/
def PodTask.callMapper (t : PodTask) (offer : Option Offer) :
    PodTask × Outcome (Option (List hostPortMapping) × Option MapError) :=
  match t.mapper with
  | none => (t, .fault nilDeref)
  | some f => ({ t with toPodTaskData := (f t.toPodTaskData offer).1 }, (f t.toPodTaskData offer).2)

def PodTask.hasAcceptedOffer (t : PodTask) : Bool :=
  match t.TaskInfo with
  | some taskInfo => taskInfo.TaskId.isSome
  | none => false

def PodTask.GetOfferId (t : PodTask) : Outcome String :=
  match t.Offer with
  | none => .ret ""
  | some offer =>
    match offer.Details with
    | none => .fault nilDeref
    | some details => .ret (OfferID.GetValue details.Id)

/-- Modelled from the spec: the helper `newTaskID` of the package is not in this
file; the bind step "generates a task identifier for the wire-level task
descriptor", here the identifier message holding the given string. -/
def newTaskID (id : String) : Option TaskID := some { Value := some id }

/-- The method `ClearTaskInfo` (lines 79-87). The log statement of line 80 reads
`t.Pod.Name`, and lines 82-85 write through `t.TaskInfo`. -/
def PodTask.ClearTaskInfo (t : PodTask) : PodTask × Outcome Unit :=
  match t.Pod with
  | none => (t, .fault nilDeref)
  | some _ =>
    let t1 : PodTask := { t with Offer := none }
    match t1.TaskInfo with
    | none => (t1, .fault nilDeref)
    | some taskInfo =>
      ({ t1 with
          TaskInfo := some { taskInfo with
            TaskId := none, SlaveId := none, Resources := none, Data := none }
          ports := none }, .ret ())

/-- Lines 55-60 of `FillFromDetails`: the task descriptor as the mapper finds it. -/
def fillTaskInfo (id : String) (details : Offer) (taskInfo : TaskInfo) : TaskInfo :=
  { taskInfo with
    TaskId := newTaskID id
    SlaveId := details.GetSlaveId
    Resources := some [ScalarResource "cpus" containerCpus, ScalarResource "mem" containerMem] }

/-- Lines 55-60 of `FillFromDetails`, on a task whose `TaskInfo` is the non-nil
`taskInfo`: the task as it is handed to the mapper. -/
def fillTask (t : PodTask) (details : Offer) (taskInfo : TaskInfo) : PodTask :=
  { t with TaskInfo := some (fillTaskInfo t.ID details taskInfo) }

/-- The method `FillFromDetails` (lines 47-75): the task after the call and the
error returned. The helper `rangeResource` of the package is not in this file and
is a parameter. -/
def PodTask.FillFromDetails (rangeResource : String → List Nat → Option Resource)
    (t : PodTask) (details : Option Offer) : PodTask × Outcome (Option MapError) :=
  match details with
  | none => (t, .fault "offer details are nil")
  | some d =>
    match t.Pod with
    | none => (t, .fault nilDeref)
    | some _ =>
      match t.TaskInfo with
      | none => (t, .fault nilDeref)
      | some taskInfo =>
        let t1 : PodTask := fillTask t d taskInfo
        match t1.callMapper (some d) with
        | (t2, .fault msg) => (t2, .fault msg)
        | (t2, .ret (_, some err)) =>
          match t2.ClearTaskInfo with
          | (t3, .fault msg) => (t3, .fault msg)
          | (t3, .ret _) => (t3, .ret (some err))
        | (t2, .ret (mapping, none)) =>
          let ports := (mapping.getD []).map hostPortMapping.offerPort
          let t3 : PodTask := { t2 with ports := mapping }
          match rangeResource "ports" ports with
          | some portsResource =>
            match t3.TaskInfo with
            | none => (t3, .fault nilDeref)
            | some taskInfo3 =>
              ({ t3 with TaskInfo := some { taskInfo3 with
                  Resources := some ((taskInfo3.Resources.getD []) ++ [portsResource]) } },
                .ret none)
          | none => (t3, .ret none)

/-- The expression `*resource.GetScalar().Value`: a field read through the pointer
`GetScalar()` returns, then a dereference of the pointer `Value`. -/
def derefScalarValue (resource : Resource) : Outcome Float64 :=
  match resource.GetScalar with
  | none => .fault nilDeref
  | some scalar =>
    match scalar.Value with
    | none => .fault nilDeref
    | some v => .ret v

/-- Lines 97-105 of `AcceptOffer`: the loop that sets the locals `cpus` and `mem`. -/
def scanScalars : List Resource → Float64 × Float64 → Outcome (Float64 × Float64)
  | [], s => .ret s
  | resource :: rest, (cpus, mem) =>
    match (if resource.GetName = "cpus" then derefScalarValue resource else .ret cpus) with
    | .fault msg => .fault msg
    | .ret cpus1 =>
      match (if resource.GetName = "mem" then derefScalarValue resource else .ret mem) with
      | .fault msg => .fault msg
      | .ret mem1 => scanScalars rest (cpus1, mem1)

/-- The method `AcceptOffer` (lines 89-115): the task after the call and the
boolean returned. -/
def PodTask.AcceptOffer (t : PodTask) (offer : Option Offer) : PodTask × Outcome Bool :=
  match offer with
  | none => (t, .ret false)
  | some o =>
    match scanScalars o.Resources (0, 0) with
    | .fault msg => (t, .fault msg)
    | .ret (cpus, mem) =>
      match t.callMapper (some o) with
      | (t1, .fault msg) => (t1, .fault msg)
      | (t1, .ret (_, some _)) => (t1, .ret false)
      | (t1, .ret (_, none)) =>
        if cpus < containerCpus ∨ mem < containerMem then (t1, .ret false)
        else (t1, .ret true)

/-! ### `newPodTask` and `dup` -/

/-- The context of package `api`, as far as this file uses it: the namespace it
carries. -/
structure Context where
  Namespace : Option String := none
deriving DecidableEq, Repr

def NewDefaultContext : Context := { Namespace := some "default" }

def WithNamespace (parent : Context) (ns : String) : Context :=
  { parent with Namespace := some ns }

/-- Modelled from the spec: the helper `newTaskInfo` of the package is not in this
file; the factory returns a task "in Unbound state", so the descriptor it starts
from carries its name and no field of a binding. -/
def newTaskInfo (name : String) : Option TaskInfo := some { Name := some name }

/-- What `newPodTask` takes from outside the file: the helper `makePodKey` of the
package (its key, or its error), the identifier `uuid.NewUUID().String()`, the
clock `time.Now()`, and the iteration order of the maps of the mapper. -/
structure Env where
  makePodKey : Context → String → Except String String
  uuid : String
  now : Time
  it : MapIter

/-- The function `newPodTask` (lines 125-147): the pair `(task, err)`, an error
being its message. Line 144 writes through the pointer `newTaskInfo` returned. -/
def newPodTask (env : Env) (ctx : Context) (pod : Option Pod)
    (executor : Option ExecutorInfo) : Outcome (Option PodTask × Option String) :=
  match pod with
  | none => .ret (none, some "illegal argument: pod was nil")
  | some p =>
    match executor with
    | none => .ret (none, some "illegal argument: executor was nil")
    | some _ =>
      match env.makePodKey ctx p.Name with
      | .error err => .ret (none, some err)
      | .ok key =>
        let taskId := env.uuid
        let task : PodTask :=
          { ID := taskId
            Pod := pod
            TaskInfo := newTaskInfo "PodTask"
            podKey := key
            mapper := some (defaultHostPortMapping env.it) }
        match task.TaskInfo with
        | none => .fault nilDeref
        | some taskInfo =>
          let task1 : PodTask :=
            { task with TaskInfo := some { taskInfo with Executor := executor } }
          .ret (some { task1 with createTime := env.now }, none)

/-- The method `dup` (lines 120-123): the task after the call and the pair
`(task, err)` returned. It reads `t.Pod.Namespace` and `t.TaskInfo.Executor`
through pointers that may be nil. -/
def PodTask.dup (env : Env) (t : PodTask) :
    PodTask × Outcome (Option PodTask × Option String) :=
  match t.Pod with
  | none => (t, .fault nilDeref)
  | some pod =>
    let ctx := WithNamespace NewDefaultContext pod.Namespace
    match t.TaskInfo with
    | none => (t, .fault nilDeref)
    | some taskInfo => (t, newPodTask env ctx t.Pod taskInfo.Executor)

/-! ## Vocabulary of the statements -/

/-- The pod declares `HostPort` `hp` at port index `pi` of container index `i`. -/
def Declares (pod : Pod) (i pi : Nat) (hp : Int) : Prop :=
  ∃ c p, pod.Spec.Containers[i]? = some c ∧ c.Ports[pi]? = some p ∧ p.HostPort = hp

/-- The pair `a` comes before the pair `b` in declared container-then-port order. -/
def Before (a b : hostPortMapping) : Prop :=
  a.cindex < b.cindex ∨ (a.cindex = b.cindex ∧ a.pindex < b.pindex)

/-- The nonzero host ports of the ports of container `i`, from port index `pi`
on, in declared order, each converted to `uint64`. -/
def portEntries (i : Nat) : List Port → Nat → List hostPortMapping
  | [], _ => []
  | port :: rest, pi =>
    if port.HostPort = 0 then portEntries i rest (pi + 1)
    else ⟨i, pi, toUint64 port.HostPort⟩ :: portEntries i rest (pi + 1)

/-- The nonzero host ports of the containers, from container index `i` on, in
declared order. -/
def containerEntries : List Container → Nat → List hostPortMapping
  | [], _ => []
  | c :: rest, i => portEntries i c.Ports 0 ++ containerEntries rest (i + 1)

/-- The nonzero host-port declarations of the pod, in declared order. -/
def podEntries (pod : Pod) : List hostPortMapping :=
  containerEntries pod.Spec.Containers 0

/-- The value `p` lies in the closed range `[begin, end]` of `r`. -/
def Value_Range.Covers (r : Value_Range) (p : Nat) : Prop :=
  r.GetBegin ≤ p ∧ p ≤ r.GetEnd

instance (r : Value_Range) (p : Nat) : Decidable (r.Covers p) :=
  inferInstanceAs (Decidable (_ ∧ _))

/-- The value `p` lies in some closed range of some resource named "ports" of
the offer. -/
def Offer.CoversPort (o : Offer) (p : Nat) : Prop :=
  ∃ resource ∈ o.Resources, resource.GetName = "ports" ∧
    ∃ ranges, resource.Ranges = some ranges ∧ ∃ r ∈ ranges.Range, r.Covers p

/-- Every resource named "ports" of the offer carries a ranges value. -/
def Offer.PortsHaveRanges (o : Offer) : Prop :=
  ∀ resource ∈ o.Resources, resource.GetName = "ports" → resource.Ranges.isSome = true

instance (o : Offer) : Decidable o.PortsHaveRanges :=
  inferInstanceAs (Decidable (∀ resource ∈ o.Resources, _))

/-- Every resource named "cpus" or "mem" of the offer carries a scalar value. -/
def Offer.ScalarsHaveValues (o : Offer) : Prop :=
  ∀ resource ∈ o.Resources, resource.GetName = "cpus" ∨ resource.GetName = "mem" →
    (resource.Scalar.bind (fun s => s.Value)).isSome = true

instance (o : Offer) : Decidable o.ScalarsHaveValues :=
  inferInstanceAs (Decidable (∀ resource ∈ o.Resources, _))

/-- The scalar value a resource carries, zero when it carries none. -/
def Resource.scalarValue (r : Resource) : Float64 :=
  (r.Scalar.bind (fun s => s.Value)).getD 0

/-- The quantity the offer lists under `name`: the value of the last resource of
that name, zero when the offer lists none. -/
def Offer.quantity (o : Offer) (name : String) : Float64 :=
  match (o.Resources.filter (fun r => r.GetName = name)).getLast? with
  | none => 0
  | some r => r.scalarValue

/-- No two distinct (container index, port index) pairs of the pod declare the
same nonzero host port. -/
def Pod.NoHostPortConflict (pod : Pod) : Prop :=
  ∀ i pi j pj hp, hp ≠ 0 → Declares pod i pi hp → Declares pod j pj hp → i = j ∧ pi = pj

/-- Every nonzero `HostPort` the pod declares, converted to `uint64`, lies in some
range of some resource named "ports" of the offer. -/
def Offer.CoversPod (o : Offer) (pod : Pod) : Prop :=
  ∀ i pi hp, hp ≠ 0 → Declares pod i pi hp → o.CoversPort (toUint64 hp)

/-- The integer `hp` lies in some closed range of some resource named "ports" of
the offer. -/
def Offer.CoversInt (o : Offer) (hp : Int) : Prop :=
  ∃ resource ∈ o.Resources, resource.GetName = "ports" ∧
    ∃ ranges, resource.Ranges = some ranges ∧
      ∃ r ∈ ranges.Range, (r.GetBegin : Int) ≤ hp ∧ hp ≤ (r.GetEnd : Int)

/-- The value of the last resource named `name`, and `d` when there is none. -/
def lastValue (name : String) : List Resource → Float64 → Float64
  | [], d => d
  | r :: rest, d => lastValue name rest (if r.GetName = name then r.scalarValue else d)

/-- The resources without the occurrences of `name` that a later occurrence of
`name` follows. -/
def dropEarlier (name : String) : List Resource → List Resource
  | [] => []
  | r :: rest =>
    if r.GetName = name ∧ rest.any (fun x => decide (x.GetName = name)) = true then
      dropEarlier name rest
    else r :: dropEarlier name rest

/-- The offer with the resources `dropEarlier name` keeps. -/
def Offer.dropEarlier (o : Offer) (name : String) : Offer :=
  { o with Resources := Scheduler.dropEarlier name o.Resources }

/-- The ranges of the resources named "ports", in the order of the offer. -/
def portRanges : List Resource → List Value_Range
  | [] => []
  | resource :: rest =>
    if resource.GetName = "ports" then
      ((resource.Ranges.map (fun rs => rs.Range)).getD []) ++ portRanges rest
    else portRanges rest

/-- Some range of the list covers `p`. -/
def inRanges (rs : List Value_Range) (p : Nat) : Bool :=
  rs.any (fun r => decide (r.Covers p))

/-- The map that holds the entries `es`, each under its host port. -/
def toMap (es : List hostPortMapping) : PortMap :=
  es.map (fun m => (m.offerPort, m))

/-- The entries are inserted one by one; an entry whose port is taken stops the
insertion with the two entries in conflict. -/
def insertAll : List hostPortMapping → PortMap → Except MapError PortMap
  | [], requiredPorts => .ok requiredPorts
  | m :: rest, requiredPorts =>
    match mapLookup requiredPorts m.offerPort with
    | some entry => .error (.DuplicateHostPortError entry m)
    | none => insertAll rest (mapSet requiredPorts m.offerPort m)

/-- Two offers list the same port ranges, in any order, and a resource named
"ports" without a ranges value is in both or in neither. -/
def Offer.SameRanges (o1 o2 : Offer) : Prop :=
  (portRanges o1.Resources).Perm (portRanges o2.Resources) ∧
    (o1.PortsHaveRanges ↔ o2.PortsHaveRanges)

/-- Two outcomes of the mapper that differ by the order of the entries at most:
two assignments with the same entries, or one DuplicateHostPortError, or two
PortAllocationErrors for one pod with the same ports, or one panic. -/
def SameOutcome (r1 r2 : Outcome (Option (List hostPortMapping) × Option MapError)) : Prop :=
  (∃ m1 m2, r1 = .ret (some m1, none) ∧ r2 = .ret (some m2, none) ∧ m1.Perm m2) ∨
  (∃ a b, r1 = .ret (none, some (.DuplicateHostPortError a b)) ∧
    r2 = .ret (none, some (.DuplicateHostPortError a b))) ∨
  (∃ podId ps1 ps2, r1 = .ret (none, some (.PortAllocationError podId ps1)) ∧
    r2 = .ret (none, some (.PortAllocationError podId ps2)) ∧ ps1.Perm ps2) ∨
  (∃ msg, r1 = .fault msg ∧ r2 = .fault msg)

/-! ## Sample pods, offers and tasks -/

/-- The pod "web": one container that asks for host port 8080. -/
def webPod : Pod :=
  { Name := "web", Spec := { Containers := [{ Ports := [{ HostPort := 8080 }] }] } }

/-- A pod without containers. -/
def idlePod : Pod := { Name := "idle" }

/-- A pod whose two containers ask for host port 8080, the second one after a
private port. -/
def clashPod : Pod :=
  { Name := "clash"
    Spec := { Containers := [{ Ports := [{ HostPort := 8080 }] },
                             { Ports := [{ HostPort := 0 }, { HostPort := 8080 }] }] } }

/-- A pod that asks for the host ports 8080, 9000 and 8081. -/
def triplePod : Pod :=
  { Name := "triple"
    Spec := { Containers := [{ Ports := [{ HostPort := 8080 }, { HostPort := 0 },
                                         { HostPort := 9000 }] },
                             { Ports := [{ HostPort := 8081 }] }] } }

/-- A pod whose only port is private (host port zero). -/
def privatePod : Pod :=
  { Name := "private", Spec := { Containers := [{ Ports := [{ ContainerPort := 80 }] }] } }

def portsResource (ranges : List (Nat × Nat)) : Resource :=
  { Name := some "ports", Type_ := some Value_Type.RANGES
    Ranges := some { Range := ranges.map (fun r => ⟨some r.1, some r.2⟩) } }

/-- Offer A: ports 8000 to 8100, one cpu, 128 MB. -/
def offerA : Offer :=
  { SlaveId := some { Value := some "slave-1" }
    Resources := [ScalarResource "cpus" 1, ScalarResource "mem" 128, portsResource [(8000, 8100)]] }

/-- Offer B: ports 9000 to 9100. -/
def offerB : Offer :=
  { Resources := [ScalarResource "cpus" 1, ScalarResource "mem" 128, portsResource [(9000, 9100)]] }

/-- An offer with two "ports" resources whose ranges overlap. -/
def overlapOffer : Offer :=
  { Resources := [portsResource [(8000, 8100), (8050, 9000)], portsResource [(8081, 8081)]] }

/-- An offer whose resource named "ports" has no ranges value. -/
def rangelessOffer : Offer :=
  { Resources := [ScalarResource "cpus" 1, ScalarResource "mem" 128, { Name := some "ports" }] }

/-- The task data of a task for the given pod, as the constructor leaves it. -/
def podData (pod : Pod) : PodTaskData :=
  { ID := "task-1", Pod := some pod, TaskInfo := some { Name := some "PodTask" } }

/-- A task for the given pod with the default mapper, as the constructor leaves
it. -/
def podTask (pod : Pod) : PodTask :=
  { podData pod with mapper := some (defaultHostPortMapping MapIter.insertion) }

/-- Offer C: ports 8000 to 8100, a tenth of a cpu, 128 MB. -/
def offerC : Offer :=
  { Resources := [ScalarResource "cpus" (.finite (1 / 10)), ScalarResource "mem" 128,
      portsResource [(8000, 8100)]] }

/-- An offer that lists "cpus" twice, with the values `c1` then `c2`. -/
def twoCpus (c1 c2 : ℚ) : Offer :=
  { Resources := [ScalarResource "cpus" (.finite c1), ScalarResource "mem" 128,
      ScalarResource "cpus" (.finite c2), portsResource [(8000, 8100)]] }

/-- An offer whose first resource named "cpus" has no scalar value. -/
def valuelessOffer : Offer :=
  { Resources := [{ Name := some "cpus" }, ScalarResource "cpus" 1, ScalarResource "mem" 128,
      portsResource [(8000, 8100)]] }

/-- A mapper that is not the default one: it refuses an offer that lists more
than three resources and maps no port otherwise. -/
def pickyMapper : hostPortMappingFunc := fun t offer =>
  match offer with
  | none => (t, .fault nilDeref)
  | some o =>
    if o.Resources.length > 3 then (t, .ret (none, some (.other "too many resources")))
    else (t, .ret (some [], none))

/-- A task for the given pod with the mapper `pickyMapper`. -/
def pickyTask (pod : Pod) : PodTask :=
  { podData pod with mapper := some pickyMapper }

/-- A task for the given pod with the default mapper and a nil `TaskInfo`. -/
def bareTask (pod : Pod) : PodTask :=
  { ID := "task-1", Pod := some pod, mapper := some (defaultHostPortMapping MapIter.insertion) }

/-- A `rangeResource` helper: no resource for no port, else one range per port. -/
def sampleRangeResource (name : String) (ports : List Nat) : Option Resource :=
  if ports.isEmpty then none
  else some { Name := some name, Type_ := some Value_Type.RANGES
              Ranges := some { Range := ports.map (fun p => ⟨some p, some p⟩) } }

/-- A mapper that is not the default one and reads the task descriptor: when
`refuseBound` it refuses a task whose `TaskId` is set and maps no port otherwise;
when not, it refuses a task whose `TaskId` is nil. -/
def taskIdMapper (refuseBound : Bool) : hostPortMappingFunc := fun t _ =>
  let bound := match t.TaskInfo with
    | some taskInfo => taskInfo.TaskId.isSome
    | none => false
  if bound = refuseBound then (t, .ret (none, some (.other "refused")))
  else (t, .ret (some [], none))

/-- A task for the given pod with the mapper `taskIdMapper refuseBound`. -/
def taskIdTask (pod : Pod) (refuseBound : Bool) : PodTask :=
  { podData pod with mapper := some (taskIdMapper refuseBound) }

/-- An environment: keys are made of the namespace and the name, and need a
namespace. -/
def sampleEnv : Env :=
  { makePodKey := fun ctx name =>
      match ctx.Namespace with
      | some ns => .ok ("/pods/" ++ ns ++ "/" ++ name)
      | none => .error "no namespace"
    uuid := "uuid-2"
    now := 7
    it := MapIter.insertion }

def sampleExecutor : ExecutorInfo := { ExecutorId := some "executor-1" }

/-- A task for the pod "web" that holds offer A, accepted, and is launched and
marked deleted. -/
def boundTask : PodTask :=
  { ID := "task-1"
    Pod := some webPod
    TaskInfo := some
      { Name := some "PodTask"
        TaskId := some { Value := some "task-1" }
        SlaveId := some { Value := some "slave-1" }
        Resources := some [ScalarResource "cpus" containerCpus,
          ScalarResource "mem" containerMem]
        Executor := some sampleExecutor
        Data := some [1, 2, 3] }
    Offer := some { Details := some { offerA with Id := some { Value := some "offer-1" } } }
    launched := true
    deleted := true
    podKey := "/pods/default/web"
    createTime := 1
    launchTime := 2
    bindTime := 3
    mapper := some (defaultHostPortMapping MapIter.insertion)
    ports := some [⟨0, 0, 8080⟩] }

/-- The task `boundTask` with a nil pod. -/
def podlessTask : PodTask := { boundTask with Pod := none }

/-- A mapper that is not the default one and panics on every call. -/
def faultyMapper : hostPortMappingFunc := fun t _ => (t, .fault "unsupported")

/-- A task for the pod "web" with a nil `TaskInfo` that holds offer A and a port
assignment. -/
def descriptorlessTask : PodTask :=
  { bareTask webPod with
    Offer := some { Details := some offerA }
    ports := some [⟨0, 0, 8080⟩] }

/-- The ranges of `overlapOffer`, listed in another order. -/
def swappedOffer : Offer :=
  { Resources := [portsResource [(8081, 8081)], portsResource [(8050, 9000), (8000, 8100)]] }

/-- A task for the given pod whose mapper panics. -/
def faultyTask (pod : Pod) : PodTask :=
  { podData pod with mapper := some faultyMapper }

/-- A pod whose only port has the negative `HostPort` -1. -/
def negativePod : Pod :=
  { Name := "negative", Spec := { Containers := [{ Ports := [{ HostPort := -1 }] }] } }

/-- A pod whose two containers have the `HostPort` -1. -/
def negativeClashPod : Pod :=
  { Name := "negative-clash"
    Spec := { Containers := [{ Ports := [{ HostPort := -1 }] }, { Ports := [{ HostPort := -1 }] }] } }

/-- An offer with one cpu, 128 MB and every port a `uint64` can hold. -/
def fullRangeOffer : Offer :=
  { Resources := [ScalarResource "cpus" 1, ScalarResource "mem" 128,
      portsResource [(0, 18446744073709551615)]] }

/-- An offer whose "cpus" value is NaN, with 128 MB and ports 8000 to 8100. -/
def nanOffer : Offer :=
  { Resources := [ScalarResource "cpus" .nan, ScalarResource "mem" 128,
      portsResource [(8000, 8100)]] }

/-- A mapper that writes to the task: it marks it launched and returns an error. -/
def launchingMapper : hostPortMappingFunc := fun t _ =>
  ({ t with launched := true }, .ret (none, some (.other "refused")))

/-- A mapper that writes to the task: it sets `TaskInfo` to nil, and returns an
error when `refuse`, the assignment of port 8080 otherwise. -/
def strippingMapper (refuse : Bool) : hostPortMappingFunc := fun t _ =>
  ({ t with TaskInfo := none },
    if refuse then .ret (none, some (.other "refused")) else .ret (some [⟨0, 0, 8080⟩], none))

/-- A mapper that writes to the task: it clears `TaskInfo.TaskId` and succeeds
with an empty assignment. -/
def unbindingMapper : hostPortMappingFunc := fun t _ =>
  ({ t with TaskInfo := t.TaskInfo.map (fun taskInfo => { taskInfo with TaskId := none }) },
    .ret (some [], none))

/-- A task for the given pod with the given mapper. -/
def mapperTask (pod : Pod) (f : hostPortMappingFunc) : PodTask :=
  { podData pod with mapper := some f }

/-! ## The map operations -/

theorem mapLookup_toMap (es : List hostPortMapping) (k : Nat) :
    mapLookup (toMap es) k = es.find? (fun m => m.offerPort = k) := by
  induction es with
  | nil => rfl
  | cons m rest ih =>
    unfold mapLookup toMap at *
    by_cases h : m.offerPort = k
    · simp [List.find?, h]
    · simp [List.find?, h]
      simpa using ih

theorem mapLookup_toMap_none {es : List hostPortMapping} {k : Nat}
    (h : k ∉ es.map hostPortMapping.offerPort) : mapLookup (toMap es) k = none := by
  rw [mapLookup_toMap, List.find?_eq_none]
  intro m hm hk
  exact h (List.mem_map.mpr ⟨m, hm, by simpa using hk⟩)

theorem mapSet_toMap {es : List hostPortMapping} {m : hostPortMapping}
    (h : m.offerPort ∉ es.map hostPortMapping.offerPort) :
    mapSet (toMap es) m.offerPort m = toMap (es ++ [m]) := by
  unfold mapSet
  rw [mapLookup_toMap_none h]
  simp [toMap]

theorem mapDelete_toMap (es : List hostPortMapping) (k : Nat) :
    mapDelete (toMap es) k = toMap (es.filter (fun m => m.offerPort ≠ k)) := by
  unfold mapDelete toMap
  rw [List.filter_map]
  rfl

theorem mapGet_toMap {es : List hostPortMapping} {m : hostPortMapping}
    (hnd : (es.map hostPortMapping.offerPort).Nodup) (hm : m ∈ es) :
    mapGet (toMap es) m.offerPort = m := by
  unfold mapGet
  rw [mapLookup_toMap]
  induction es with
  | nil => cases hm
  | cons a rest ih =>
    rw [List.map_cons, List.nodup_cons] at hnd
    rcases List.mem_cons.mp hm with rfl | hm
    · simp [List.find?]
    · have hne : a.offerPort ≠ m.offerPort := by
        intro heq
        exact hnd.1 (List.mem_map.mpr ⟨m, hm, heq.symm⟩)
      simp only [List.find?, hne, decide_False]
      exact ih hnd.2 hm

/-! ## The walk over the pod -/

theorem scanPorts_eq_insertAll (i : Nat) (ports : List Port) (pi : Nat) (req : PortMap) :
    scanPorts i ports pi req = insertAll (portEntries i ports pi) req := by
  induction ports generalizing pi req with
  | nil => rfl
  | cons port rest ih =>
    by_cases h : port.HostPort = 0
    · simp only [scanPorts, portEntries, h, if_true]
      exact ih _ _
    · simp only [scanPorts, portEntries, h, if_false, insertAll]
      cases mapLookup req (toUint64 port.HostPort) with
      | some entry => rfl
      | none => exact ih _ _

theorem insertAll_append (a b : List hostPortMapping) (req : PortMap) :
    insertAll (a ++ b) req =
      match insertAll a req with
      | .error e => .error e
      | .ok req1 => insertAll b req1 := by
  induction a generalizing req with
  | nil => rfl
  | cons m rest ih =>
    simp only [List.cons_append, insertAll]
    cases mapLookup req m.offerPort with
    | some entry => rfl
    | none => exact ih _

theorem scanContainers_eq_insertAll (cs : List Container) (i : Nat) (req : PortMap) :
    scanContainers cs i req = insertAll (containerEntries cs i) req := by
  induction cs generalizing i req with
  | nil => rfl
  | cons c rest ih =>
    simp only [scanContainers, containerEntries, insertAll_append, scanPorts_eq_insertAll]
    cases insertAll (portEntries i c.Ports 0) req with
    | error e => rfl
    | ok req1 => exact ih _ _

/-- Insertion of entries with pairwise distinct ports fills the map. -/
theorem insertAll_ok (ms es0 : List hostPortMapping)
    (hnd : ((es0 ++ ms).map hostPortMapping.offerPort).Nodup) :
    insertAll ms (toMap es0) = .ok (toMap (es0 ++ ms)) := by
  induction ms generalizing es0 with
  | nil => simp [insertAll]
  | cons m rest ih =>
    have hnd1 : (((es0 ++ [m]) ++ rest).map hostPortMapping.offerPort).Nodup := by
      simpa using hnd
    have hm : m.offerPort ∉ es0.map hostPortMapping.offerPort := by
      intro hmem
      rw [List.map_append, List.map_cons] at hnd
      have := (List.nodup_append.mp hnd).2.2
      exact this hmem (List.mem_cons_self _ _)
    simp only [insertAll, mapLookup_toMap_none hm, mapSet_toMap hm]
    rw [ih _ hnd1]
    simp

/-- Insertion stops at the first entry whose port an earlier entry holds, with
that earlier entry and the entry in hand. -/
theorem insertAll_dup (ms es0 : List hostPortMapping)
    (h0 : (es0.map hostPortMapping.offerPort).Nodup)
    (hdup : ¬ ((es0 ++ ms).map hostPortMapping.offerPort).Nodup) :
    ∃ a m2 post m1, ms = a ++ m2 :: post ∧
      ((es0 ++ a).map hostPortMapping.offerPort).Nodup ∧
      m1 ∈ es0 ++ a ∧ m1.offerPort = m2.offerPort ∧
      insertAll ms (toMap es0) = .error (.DuplicateHostPortError m1 m2) := by
  induction ms generalizing es0 with
  | nil => simp at hdup; exact absurd h0 hdup
  | cons m rest ih =>
    by_cases hm : m.offerPort ∈ es0.map hostPortMapping.offerPort
    · obtain ⟨m1, hm1, hp⟩ := List.mem_map.mp hm
      have hfind : (es0.find? (fun e => e.offerPort = m.offerPort)).isSome := by
        rw [List.find?_isSome]
        exact ⟨m1, hm1, by simpa using hp⟩
      obtain ⟨e, he⟩ := Option.isSome_iff_exists.mp hfind
      refine ⟨[], m, rest, e, rfl, by simpa using h0, ?_, ?_, ?_⟩
      · simpa using List.mem_of_find?_eq_some he
      · simpa using List.find?_some he
      · simp only [insertAll, mapLookup_toMap, he]
    · have h1 : ((es0 ++ [m]).map hostPortMapping.offerPort).Nodup := by
        rw [List.map_append, List.nodup_append]
        refine ⟨h0, by simp, ?_⟩
        intro x hx hx1
        simp only [List.map_cons, List.map_nil, List.mem_singleton] at hx1
        exact hm (hx1 ▸ hx)
      have hdup1 : ¬ (((es0 ++ [m]) ++ rest).map hostPortMapping.offerPort).Nodup := by
        simpa using hdup
      obtain ⟨a, m2, post, m1, hms, hnd, hmem, hp, hres⟩ := ih (es0 ++ [m]) h1 hdup1
      refine ⟨m :: a, m2, post, m1, by simp [hms], by simpa using hnd, by simpa using hmem,
        hp, ?_⟩
      simp only [insertAll, mapLookup_toMap_none hm, mapSet_toMap hm]
      exact hres

/-! ## The declarations of the pod as a list -/

theorem toUint64_inj {x y : Int} (hx : -9223372036854775808 ≤ x)
    (hx1 : x < 9223372036854775808) (hy : -9223372036854775808 ≤ y)
    (hy1 : y < 9223372036854775808) (h : toUint64 x = toUint64 y) : x = y := by
  unfold toUint64 at h
  omega

/-- On a `HostPort` that is not negative the conversion keeps the value. -/
theorem toUint64_of_nonneg {x : Int} (hx : 0 ≤ x) (hx1 : x < 9223372036854775808) :
    (toUint64 x : Int) = x := by
  unfold toUint64
  omega

theorem mem_portEntries (i : Nat) (ports : List Port) (pi : Nat) (m : hostPortMapping) :
    m ∈ portEntries i ports pi ↔
      m.cindex = i ∧
        ∃ k p, ports[k]? = some p ∧ m.pindex = pi + k ∧ p.HostPort ≠ 0 ∧
          m.offerPort = toUint64 p.HostPort := by
  induction ports generalizing pi with
  | nil => simp [portEntries]
  | cons port rest ih =>
    have key : (∃ k p, (port :: rest)[k]? = some p ∧ m.pindex = pi + k ∧ p.HostPort ≠ 0 ∧
        m.offerPort = toUint64 p.HostPort) ↔
        (m.pindex = pi ∧ port.HostPort ≠ 0 ∧ m.offerPort = toUint64 port.HostPort) ∨
        (∃ k p, rest[k]? = some p ∧ m.pindex = pi + 1 + k ∧ p.HostPort ≠ 0 ∧
          m.offerPort = toUint64 p.HostPort) := by
      constructor
      · rintro ⟨k, p, hk, hpi, hp⟩
        cases k with
        | zero =>
          simp only [List.getElem?_cons_zero, Option.some.injEq] at hk
          subst hk
          exact Or.inl ⟨by simpa using hpi, hp⟩
        | succ k =>
          simp only [List.getElem?_cons_succ] at hk
          exact Or.inr ⟨k, p, hk, by omega, hp⟩
      · rintro (⟨hpi, hp⟩ | ⟨k, p, hk, hpi, hp⟩)
        · exact ⟨0, port, by simp, by simpa using hpi, hp⟩
        · exact ⟨k + 1, p, by simpa using hk, by omega, hp⟩
    rw [key]
    by_cases h : port.HostPort = 0
    · simp only [portEntries, h, if_true, ih]
      constructor
      · rintro ⟨h1, h3⟩
        exact ⟨h1, Or.inr h3⟩
      · rintro ⟨h1, h3 | h3⟩
        · exact absurd rfl h3.2.1
        · exact ⟨h1, h3⟩
    · simp only [portEntries, h, if_false, List.mem_cons, ih]
      constructor
      · rintro (rfl | ⟨h1, h3⟩)
        · exact ⟨rfl, Or.inl ⟨rfl, h, rfl⟩⟩
        · exact ⟨h1, Or.inr h3⟩
      · rintro ⟨h1, ⟨h3, _, h4⟩ | h3⟩
        · left
          cases m
          simp only at h1 h3 h4
          subst h1 h3 h4
          rfl
        · exact Or.inr ⟨h1, h3⟩

theorem mem_containerEntries (cs : List Container) (i : Nat) (m : hostPortMapping) :
    m ∈ containerEntries cs i ↔
      ∃ j c p, cs[j]? = some c ∧ m.cindex = i + j ∧
        c.Ports[m.pindex]? = some p ∧ p.HostPort ≠ 0 ∧ m.offerPort = toUint64 p.HostPort := by
  induction cs generalizing i with
  | nil => simp [containerEntries]
  | cons c rest ih =>
    simp only [containerEntries, List.mem_append, mem_portEntries, ih]
    constructor
    · rintro (⟨h1, k, p, hk, hpi, hp⟩ | ⟨j, c1, p, hj, hc, hk, hp⟩)
      · refine ⟨0, c, p, by simp, by simpa using h1, ?_, hp⟩
        have : m.pindex = k := by omega
        rw [this]; exact hk
      · exact ⟨j + 1, c1, p, by simpa using hj, by omega, hk, hp⟩
    · rintro ⟨j, c1, p, hj, hc, hk, hp⟩
      cases j with
      | zero =>
        simp only [List.getElem?_cons_zero, Option.some.injEq] at hj
        subst hj
        exact Or.inl ⟨by simpa using hc, m.pindex, p, hk, by omega, hp⟩
      | succ j =>
        simp only [List.getElem?_cons_succ] at hj
        exact Or.inr ⟨j, c1, p, hj, by omega, hk, hp⟩

/-- The entries of the pod are its nonzero declarations, each with its
`HostPort` converted to `uint64`. -/
theorem mem_podEntries (pod : Pod) (m : hostPortMapping) :
    m ∈ podEntries pod ↔
      ∃ hp, Declares pod m.cindex m.pindex hp ∧ hp ≠ 0 ∧ m.offerPort = toUint64 hp := by
  unfold podEntries Declares
  rw [mem_containerEntries]
  constructor
  · rintro ⟨j, c, p, hj, hc, hk, hp0, hp⟩
    have : m.cindex = j := by omega
    exact ⟨p.HostPort, ⟨c, p, this ▸ hj, hk, rfl⟩, hp0, hp⟩
  · rintro ⟨hp, ⟨c, p, hj, hk, hp1⟩, hp0, hm⟩
    subst hp1
    exact ⟨m.cindex, c, p, hj, by omega, hk, hp0, hm⟩

/-- A declared `HostPort` is within the bounds of a Go `int`. -/
theorem declares_bounds {pod : Pod} {i pi : Nat} {hp : Int} (h : Declares pod i pi hp) :
    -9223372036854775808 ≤ hp ∧ hp < 9223372036854775808 := by
  obtain ⟨c, p, _, _, hv⟩ := h
  subst hv
  exact ⟨p.hostPort_ge, p.hostPort_lt⟩

theorem declares_functional {pod : Pod} {i pi : Nat} {hp hp1 : Int}
    (h : Declares pod i pi hp) (h1 : Declares pod i pi hp1) : hp = hp1 := by
  obtain ⟨c, p, hc, hk, hv⟩ := h
  obtain ⟨c1, p1, hc1, hk1, hv1⟩ := h1
  rw [hc] at hc1
  cases hc1
  rw [hk] at hk1
  cases hk1
  rw [← hv, ← hv1]

theorem pairwise_portEntries (i : Nat) (ports : List Port) (pi : Nat) :
    (portEntries i ports pi).Pairwise Before := by
  induction ports generalizing pi with
  | nil => exact List.Pairwise.nil
  | cons port rest ih =>
    by_cases h : port.HostPort = 0
    · simp only [portEntries, h, if_true]
      exact ih _
    · simp only [portEntries, h, if_false, List.pairwise_cons]
      refine ⟨?_, ih _⟩
      intro b hb
      obtain ⟨h1, k, p, _, hpi, _⟩ := (mem_portEntries _ _ _ _).mp hb
      exact Or.inr ⟨h1.symm, by simp only; omega⟩

theorem pairwise_containerEntries (cs : List Container) (i : Nat) :
    (containerEntries cs i).Pairwise Before := by
  induction cs generalizing i with
  | nil => exact List.Pairwise.nil
  | cons c rest ih =>
    simp only [containerEntries, List.pairwise_append]
    refine ⟨pairwise_portEntries _ _ _, ih _, ?_⟩
    intro a ha b hb
    have h1 := ((mem_portEntries _ _ _ _).mp ha).1
    obtain ⟨j, c1, p, _, hc, _⟩ := (mem_containerEntries _ _ _).mp hb
    exact Or.inl (by omega)

theorem before_irrefl (a : hostPortMapping) : ¬ Before a a := by
  unfold Before; omega

theorem before_asymm {a b : hostPortMapping} (h : Before a b) : ¬ Before b a := by
  unfold Before at *; omega

theorem nodup_podEntries (pod : Pod) : (podEntries pod).Nodup := by
  have h := pairwise_containerEntries pod.Spec.Containers 0
  refine List.Pairwise.imp ?_ h
  intro a b hab heq
  exact before_irrefl a (heq ▸ hab)

/-- The ports of the entries are pairwise distinct exactly when no two distinct
pairs of the pod declare the same nonzero host port. -/
theorem nodup_ports_iff (pod : Pod) :
    ((podEntries pod).map hostPortMapping.offerPort).Nodup ↔
      ∀ i pi j pj hp, hp ≠ 0 → Declares pod i pi hp → Declares pod j pj hp →
        i = j ∧ pi = pj := by
  rw [List.nodup_map_iff_inj_on (nodup_podEntries pod)]
  constructor
  · intro h i pi j pj hp hp0 h1 h2
    have := h ⟨i, pi, toUint64 hp⟩ ((mem_podEntries _ _).mpr ⟨hp, h1, hp0, rfl⟩)
      ⟨j, pj, toUint64 hp⟩ ((mem_podEntries _ _).mpr ⟨hp, h2, hp0, rfl⟩) rfl
    simpa using this
  · intro h x hx y hy hxy
    obtain ⟨hpx, hx1, hx0, hxp⟩ := (mem_podEntries _ _).mp hx
    obtain ⟨hpy, hy1, _, hyp⟩ := (mem_podEntries _ _).mp hy
    have heq : hpx = hpy := by
      obtain ⟨b1, b2⟩ := declares_bounds hx1
      obtain ⟨b3, b4⟩ := declares_bounds hy1
      exact toUint64_inj b1 b2 b3 b4 (by rw [← hxp, ← hyp]; exact hxy)
    have := h _ _ _ _ _ hx0 hx1 (heq ▸ hy1)
    cases x; cases y
    simp only at hxy this
    simp [this.1, this.2, hxy]

/-! ## The walk over the offer -/

theorem mapGet_mapDelete_ne (req : PortMap) {k port : Nat} (h : k ≠ port) :
    mapGet (mapDelete req port) k = mapGet req k := by
  unfold mapGet mapLookup mapDelete
  congr 2
  induction req with
  | nil => rfl
  | cons e rest ih =>
    by_cases he : e.1 = port
    · have hk : ¬ e.1 = k := fun hek => h (hek ▸ he)
      simp only [ne_eq, he, not_true_eq_false, decide_False, Bool.false_eq_true,
        not_false_eq_true, List.filter_cons_of_neg]
      rw [List.find?_cons_of_neg _ (by simpa using (he ▸ hk))]
      simpa [he] using ih
    · rw [List.filter_cons_of_pos (by simpa using he)]
      by_cases hk : e.1 = k
      · simp [List.find?, hk]
      · rw [List.find?_cons_of_neg _ (by simpa using hk),
          List.find?_cons_of_neg _ (by simpa using hk)]
        exact ih

/-- One walk over the keys for the range `[bp, ep]`: the entries under the keys in
the range are moved to the mapping in the order of the walk. -/
theorem matchPorts_eq (bp ep : Nat) (keys : List Nat) (hk : keys.Nodup)
    (mp : List hostPortMapping) (req : PortMap) :
    matchPorts bp ep keys (mp, req) =
      (mp ++ (keys.filter (fun k => bp ≤ k ∧ k ≤ ep)).map (mapGet req),
        req.filter (fun e => ¬ (e.1 ∈ keys ∧ bp ≤ e.1 ∧ e.1 ≤ ep))) := by
  induction keys generalizing mp req with
  | nil => simp [matchPorts]
  | cons port keys ih =>
    rw [List.nodup_cons] at hk
    by_cases hin : bp ≤ port ∧ port ≤ ep
    · simp only [matchPorts, hin, and_self, if_true]
      rw [ih hk.2]
      refine Prod.ext ?_ ?_
      · simp only [List.append_assoc, List.singleton_append]
        rw [List.filter_cons_of_pos (by simpa using hin), List.map_cons]
        congr 2
        apply List.map_congr_left
        intro k hkmem
        have hkk : k ∈ keys := (List.mem_filter.mp hkmem).1
        exact mapGet_mapDelete_ne req (fun heq => hk.1 (heq ▸ hkk))
      · simp only [mapDelete, List.filter_filter]
        apply List.filter_congr
        intro e _
        by_cases he : e.1 = port
        · simp [he, hin]
        · simp [he]
    · simp only [matchPorts, hin, if_false]
      rw [ih hk.2, List.filter_cons_of_neg (by simpa using hin)]
      refine Prod.ext rfl ?_
      apply List.filter_congr
      intro e _
      by_cases he : e.1 = port
      · have : ¬ (bp ≤ e.1 ∧ e.1 ≤ ep) := he ▸ hin
        simp [this]
      · simp [he]

theorem filter_or_perm (es : List hostPortMapping) (a b : hostPortMapping → Bool) :
    (es.filter (fun m => a m || b m)).Perm
      (es.filter a ++ (es.filter (fun m => !a m)).filter b) := by
  induction es with
  | nil => simp
  | cons m rest ih =>
    by_cases ha : a m = true
    · simp only [List.filter_cons, ha, Bool.true_or, if_true, Bool.not_true,
        Bool.false_eq_true, if_false, List.cons_append]
      exact List.Perm.cons _ ih
    · have ha1 : a m = false := by simpa using ha
      by_cases hb : b m = true
      · simp only [List.filter_cons, ha1, hb, Bool.or_true, if_true, Bool.not_false,
          Bool.false_eq_true, if_false]
        exact (List.Perm.cons _ ih).trans List.perm_middle.symm
      · have hb1 : b m = false := by simpa using hb
        simp only [List.filter_cons, ha1, hb1, Bool.or_false, Bool.false_eq_true, if_false,
          Bool.not_false, if_true]
        exact ih

/-- One range of the offer, on a map that holds the entries `es`. -/
theorem matchPorts_toMap (it : MapIter) (n : Nat) (r : Value_Range)
    (mp es : List hostPortMapping) (hnd : (es.map hostPortMapping.offerPort).Nodup) :
    ∃ moved, moved.Perm (es.filter (fun m => decide (r.Covers m.offerPort))) ∧
      matchPorts r.GetBegin r.GetEnd ((it.order n (toMap es)).map Prod.fst) (mp, toMap es) =
        (mp ++ moved, toMap (es.filter (fun m => !decide (r.Covers m.offerPort)))) := by
  have hperm : ((it.order n (toMap es)).map Prod.fst).Perm
      (es.map hostPortMapping.offerPort) := by
    have := (it.perm n (toMap es)).map Prod.fst
    simpa [toMap, Function.comp_def] using this
  have hkeys : ((it.order n (toMap es)).map Prod.fst).Nodup := hperm.nodup_iff.mpr hnd
  generalize (it.order n (toMap es)).map Prod.fst = keys at hperm hkeys
  refine ⟨(keys.filter (fun k => decide (r.GetBegin ≤ k ∧ k ≤ r.GetEnd))).map
    (mapGet (toMap es)), ?_, ?_⟩
  rotate_left
  · rw [matchPorts_eq _ _ _ hkeys]
    refine Prod.ext rfl ?_
    show List.filter _ (toMap es) = _
    unfold toMap
    rw [List.filter_map]
    congr 1
    apply List.filter_congr
    intro m hm
    have hmem : m.offerPort ∈ keys :=
      hperm.mem_iff.mpr (List.mem_map.mpr ⟨m, hm, rfl⟩)
    simp only [Function.comp_apply, hmem, true_and, Value_Range.Covers]
    by_cases hc : r.GetBegin ≤ m.offerPort ∧ m.offerPort ≤ r.GetEnd
    · simp [hc]
    · simp [hc]
  · have h1 := (hperm.filter (fun k => decide (r.GetBegin ≤ k ∧ k ≤ r.GetEnd))).map
      (mapGet (toMap es))
    refine h1.trans ?_
    rw [List.filter_map, List.map_map]
    have : List.map (mapGet (toMap es) ∘ hostPortMapping.offerPort)
        (List.filter ((fun k => decide (r.GetBegin ≤ k ∧ k ≤ r.GetEnd)) ∘
          hostPortMapping.offerPort) es) =
        List.filter (fun m => decide (r.Covers m.offerPort)) es := by
      conv_rhs => rw [← List.map_id (List.filter _ es)]
      apply List.map_congr_left
      intro m hm
      exact mapGet_toMap hnd (List.mem_filter.mp hm).1
    rw [this]

theorem inRanges_append (a b : List Value_Range) (p : Nat) :
    inRanges (a ++ b) p = (inRanges a p || inRanges b p) := by
  simp [inRanges]

theorem nodup_filter_ports {es : List hostPortMapping} (f : hostPortMapping → Bool)
    (hnd : (es.map hostPortMapping.offerPort).Nodup) :
    ((es.filter f).map hostPortMapping.offerPort).Nodup :=
  hnd.sublist ((List.filter_sublist es).map _)

/-- The ranges of one resource, on a map that holds the entries `es`. -/
theorem scanRanges_toMap (it : MapIter) (rs : List Value_Range) (n : Nat)
    (mp es : List hostPortMapping) (hnd : (es.map hostPortMapping.offerPort).Nodup) :
    ∃ moved, moved.Perm (es.filter (fun m => inRanges rs m.offerPort)) ∧
      scanRanges it rs ⟨n, mp, toMap es⟩ =
        ⟨n + rs.length, mp ++ moved,
          toMap (es.filter (fun m => !inRanges rs m.offerPort))⟩ := by
  induction rs generalizing n mp es with
  | nil => exact ⟨[], by simp [inRanges], by simp [scanRanges, inRanges]⟩
  | cons r rest ih =>
    obtain ⟨mv1, hp1, h1⟩ := matchPorts_toMap it n r mp es hnd
    obtain ⟨mv2, hp2, h2⟩ := ih (n + 1) (mp ++ mv1) _
      (nodup_filter_ports (fun m => !decide (r.Covers m.offerPort)) hnd)
    refine ⟨mv1 ++ mv2, ?_, ?_⟩
    · have hor := filter_or_perm es (fun m => decide (r.Covers m.offerPort))
        (fun m => inRanges rest m.offerPort)
      have : (fun m : hostPortMapping => inRanges (r :: rest) m.offerPort) =
          (fun m => decide (r.Covers m.offerPort) || inRanges rest m.offerPort) := by
        funext m; simp [inRanges]
      rw [this]
      exact (hp1.append hp2).trans hor.symm
    · simp only [scanRanges, h1, h2, List.length_cons, List.append_assoc, List.filter_filter]
      congr 1
      · omega
      · congr 1
        apply List.filter_congr
        intro m _
        simp [inRanges, Bool.and_comm]

/-- The resources of an offer whose "ports" resources carry ranges, on a map that
holds the entries `es`: the entries some range covers are moved to the mapping. -/
theorem scanResources_toMap (it : MapIter) (rs : List Resource)
    (hwf : ∀ r ∈ rs, r.GetName = "ports" → r.Ranges.isSome = true) (n : Nat)
    (mp es : List hostPortMapping) (hnd : (es.map hostPortMapping.offerPort).Nodup) :
    ∃ moved k, moved.Perm (es.filter (fun m => inRanges (portRanges rs) m.offerPort)) ∧
      scanResources it rs ⟨n, mp, toMap es⟩ =
        .ret ⟨k, mp ++ moved,
          toMap (es.filter (fun m => !inRanges (portRanges rs) m.offerPort))⟩ := by
  induction rs generalizing n mp es with
  | nil => exact ⟨[], n, by simp [portRanges, inRanges], by simp [scanResources, portRanges, inRanges]⟩
  | cons r rest ih =>
    have hwf1 : ∀ x ∈ rest, x.GetName = "ports" → x.Ranges.isSome = true :=
      fun x hx => hwf x (List.mem_cons_of_mem _ hx)
    by_cases hname : r.GetName = "ports"
    · obtain ⟨ranges, hr⟩ := Option.isSome_iff_exists.mp (hwf r (List.mem_cons_self _ _) hname)
      obtain ⟨mv1, hp1, h1⟩ := scanRanges_toMap it ranges.Range n mp es hnd
      obtain ⟨mv2, k, hp2, h2⟩ := ih hwf1 (n + ranges.Range.length) (mp ++ mv1) _
        (nodup_filter_ports (fun m => !inRanges ranges.Range m.offerPort) hnd)
      refine ⟨mv1 ++ mv2, k, ?_, ?_⟩
      · have hor := filter_or_perm es (fun m => inRanges ranges.Range m.offerPort)
          (fun m => inRanges (portRanges rest) m.offerPort)
        have : (fun m : hostPortMapping => inRanges (portRanges (r :: rest)) m.offerPort) =
            (fun m => inRanges ranges.Range m.offerPort ||
              inRanges (portRanges rest) m.offerPort) := by
          funext m; simp [portRanges, hname, hr, inRanges_append]
        rw [this]
        exact (hp1.append hp2).trans hor.symm
      · simp only [scanResources, hname, if_true, Resource.GetRanges, hr, h1, h2,
          List.append_assoc, List.filter_filter, portRanges, Option.map_some', Option.getD_some]
        congr 3
        apply List.filter_congr
        intro m _
        simp [inRanges_append, Bool.and_comm]
    · obtain ⟨mv, k, hp, h⟩ := ih hwf1 n mp es hnd
      refine ⟨mv, k, ?_, ?_⟩
      · simpa [portRanges, hname] using hp
      · simpa [scanResources, portRanges, hname] using h

/-- A resource named "ports" without a ranges value makes the walk panic. -/
theorem scanResources_fault (it : MapIter) (rs : List Resource)
    (hwf : ¬ ∀ r ∈ rs, r.GetName = "ports" → r.Ranges.isSome = true) (s : MatchState) :
    scanResources it rs s = .fault nilDeref := by
  induction rs generalizing s with
  | nil => simp at hwf
  | cons r rest ih =>
    by_cases hname : r.GetName = "ports"
    · cases hr : r.Ranges with
      | none => simp [scanResources, hname, Resource.GetRanges, hr]
      | some ranges =>
        have hwf1 : ¬ ∀ x ∈ rest, x.GetName = "ports" → x.Ranges.isSome = true := by
          intro h
          apply hwf
          intro x hx
          rcases List.mem_cons.mp hx with rfl | hx
          · intro _; simp [hr]
          · exact h x hx
        simp only [scanResources, hname, if_true, Resource.GetRanges, hr]
        exact ih hwf1 _
    · have hwf1 : ¬ ∀ x ∈ rest, x.GetName = "ports" → x.Ranges.isSome = true := by
        intro h
        apply hwf
        intro x hx
        rcases List.mem_cons.mp hx with rfl | hx
        · intro hn; exact absurd hn hname
        · exact h x hx
      simp only [scanResources, hname, if_false]
      exact ih hwf1 _

theorem inRanges_portRanges (o : Offer) (p : Nat) :
    inRanges (portRanges o.Resources) p = true ↔ o.CoversPort p := by
  unfold Offer.CoversPort
  generalize o.Resources = rs
  induction rs with
  | nil => simp [portRanges, inRanges]
  | cons r rest ih =>
    have hsplit : inRanges (portRanges (r :: rest)) p = true ↔
        (r.GetName = "ports" ∧ ∃ ranges, r.Ranges = some ranges ∧
          ∃ x ∈ ranges.Range, x.Covers p) ∨ inRanges (portRanges rest) p = true := by
      by_cases hname : r.GetName = "ports"
      · cases hr : r.Ranges with
        | none => simp [portRanges, hname, hr]
        | some ranges =>
          simp [portRanges, hname, hr, inRanges_append]
          simp [inRanges]
      · simp [portRanges, hname]
    rw [hsplit, ih]
    simp only [List.mem_cons, exists_eq_or_imp]

/-! ## The three outcomes of `defaultHostPortMapping` -/

/-- Two entries of the pod with one port: the mapper returns the duplicate error
for the first entry whose port is taken, whatever the offer. -/
theorem mapper_dup (it : MapIter) (t : PodTaskData) (pod : Pod) (hpod : t.Pod = some pod)
    (offer : Option Offer)
    (hdup : ¬ ((podEntries pod).map hostPortMapping.offerPort).Nodup) :
    ∃ a m2 post m1, podEntries pod = a ++ m2 :: post ∧
      (a.map hostPortMapping.offerPort).Nodup ∧ m1 ∈ a ∧ m1.offerPort = m2.offerPort ∧
      mapHostPorts it t offer = .ret (none, some (.DuplicateHostPortError m1 m2)) := by
  obtain ⟨a, m2, post, m1, hms, hnd, hmem, hp, hres⟩ :=
    insertAll_dup (podEntries pod) [] (by simp) (by simpa using hdup)
  refine ⟨a, m2, post, m1, hms, by simpa using hnd, by simpa using hmem, hp, ?_⟩
  have hscan : scanContainers pod.Spec.Containers 0 [] =
      .error (.DuplicateHostPortError m1 m2) := by
    rw [scanContainers_eq_insertAll]
    exact hres
  simp only [mapHostPorts, hpod, hscan]

/-- Entries with pairwise distinct ports and an offer whose "ports" resources
carry ranges: the covered entries are moved to the mapping; the mapper returns the
mapping when nothing is left and the allocation error for what is left. -/
theorem mapper_nodup (it : MapIter) (t : PodTaskData) (pod : Pod) (hpod : t.Pod = some pod)
    (o : Offer) (hnd : ((podEntries pod).map hostPortMapping.offerPort).Nodup)
    (hwf : o.PortsHaveRanges) :
    ∃ moved k,
      moved.Perm ((podEntries pod).filter (fun m => inRanges (portRanges o.Resources) m.offerPort)) ∧
      mapHostPorts it t (some o) =
        if ((podEntries pod).filter
            (fun m => !inRanges (portRanges o.Resources) m.offerPort)).length > 0 then
          .ret (none, some (.PortAllocationError pod.Name
            ((it.order k (toMap ((podEntries pod).filter
              (fun m => !inRanges (portRanges o.Resources) m.offerPort)))).map Prod.fst)))
        else .ret (some moved, none) := by
  have hscan : scanContainers pod.Spec.Containers 0 [] = .ok (toMap (podEntries pod)) := by
    rw [scanContainers_eq_insertAll]
    have := insertAll_ok (podEntries pod) [] (by simpa using hnd)
    simpa [podEntries] using this
  obtain ⟨moved, k, hperm, hres⟩ :=
    scanResources_toMap it o.Resources hwf 0 [] (podEntries pod) hnd
  refine ⟨moved, k, hperm, ?_⟩
  simp only [mapHostPorts, hpod, hscan, hres, List.nil_append]
  simp only [toMap, List.length_map]

/-- Entries with pairwise distinct ports and an offer with a resource named
"ports" that has no ranges value: the mapper panics. -/
theorem mapper_fault (it : MapIter) (t : PodTaskData) (pod : Pod) (hpod : t.Pod = some pod)
    (o : Offer) (hnd : ((podEntries pod).map hostPortMapping.offerPort).Nodup)
    (hwf : ¬ o.PortsHaveRanges) :
    mapHostPorts it t (some o) = .fault nilDeref := by
  have hscan : scanContainers pod.Spec.Containers 0 [] = .ok (toMap (podEntries pod)) := by
    rw [scanContainers_eq_insertAll]
    have := insertAll_ok (podEntries pod) [] (by simpa using hnd)
    simpa [podEntries] using this
  simp only [mapHostPorts, hpod, hscan, scanResources_fault it o.Resources hwf]

theorem coversPod_iff (o : Offer) (pod : Pod) :
    o.CoversPod pod ↔
      (podEntries pod).filter (fun m => !inRanges (portRanges o.Resources) m.offerPort) = [] := by
  rw [List.filter_eq_nil_iff]
  constructor
  · intro h m hm
    obtain ⟨hp, hd, h0, hm1⟩ := (mem_podEntries _ _).mp hm
    have := (inRanges_portRanges o m.offerPort).mpr (hm1 ▸ h _ _ _ h0 hd)
    simp [this]
  · intro h i pi hp h0 hd
    have := h ⟨i, pi, toUint64 hp⟩ ((mem_podEntries _ _).mpr ⟨hp, hd, h0, rfl⟩)
    apply (inRanges_portRanges o (toUint64 hp)).mp
    simpa using this

theorem filter_covered_eq_self (o : Offer) (pod : Pod) (h : o.CoversPod pod) :
    (podEntries pod).filter (fun m => inRanges (portRanges o.Resources) m.offerPort) =
      podEntries pod := by
  rw [List.filter_eq_self]
  intro m hm
  obtain ⟨hp, hd, h0, hm1⟩ := (mem_podEntries _ _).mp hm
  exact (inRanges_portRanges o m.offerPort).mpr (hm1 ▸ h _ _ _ h0 hd)

/-- For a `HostPort` that is not negative, the conversion lies in a range exactly
when the `HostPort` does. -/
theorem coversPort_iff_coversInt (o : Offer) {hp : Int} (h0 : 0 ≤ hp)
    (h1 : hp < 9223372036854775808) : o.CoversPort (toUint64 hp) ↔ o.CoversInt hp := by
  have hconv := toUint64_of_nonneg h0 h1
  unfold Offer.CoversPort Offer.CoversInt Value_Range.Covers
  constructor
  · rintro ⟨res, hmem, hname, ranges, hr, r, hrm, hb, he⟩
    exact ⟨res, hmem, hname, ranges, hr, r, hrm, by omega, by omega⟩
  · rintro ⟨res, hmem, hname, ranges, hr, r, hrm, hb, he⟩
    exact ⟨res, hmem, hname, ranges, hr, r, hrm, by omega, by omega⟩

/-- A pod without nonzero `HostPort` has no entries. -/
theorem podEntries_eq_nil {pod : Pod} (hzero : ∀ i pi hp, Declares pod i pi hp → hp = 0) :
    podEntries pod = [] := by
  apply List.eq_nil_iff_forall_not_mem.mpr
  intro m hm
  obtain ⟨hp, hd, h0, _⟩ := (mem_podEntries pod m).mp hm
  exact h0 (hzero _ _ _ hd)

/-- A pod without entries has no nonzero `HostPort`. -/
theorem declares_zero_of_nil {pod : Pod} (hnil : podEntries pod = []) (i pi : Nat) (hp : Int)
    (hd : Declares pod i pi hp) : hp = 0 := by
  by_contra h0
  have := (mem_podEntries pod ⟨i, pi, toUint64 hp⟩).mpr ⟨hp, hd, h0, rfl⟩
  rw [hnil] at this
  cases this

/-! ## The port mapper: claims -/

/-- C1, as stated, fails, in two ways. The pod without containers has no conflict
and nothing to cover, yet on an offer whose "ports" resource has no ranges value
the mapper panics instead of succeeding. And the pod whose only `HostPort` is -1
is mapped on the offer of the ports 0 to 18446744073709551615, although -1 lies in
no range of the offer: the mapper looks for `uint64(-1)`. -/
theorem defaultHostPortMapping_succeeds_iff_as_stated_fails :
    (defaultHostPortMapping MapIter.insertion (podData idlePod) (some rangelessOffer) =
        (podData idlePod, .fault nilDeref) ∧
      idlePod.NoHostPortConflict ∧
      (∀ i pi hp, hp ≠ 0 → Declares idlePod i pi hp → rangelessOffer.CoversInt hp)) ∧
    (defaultHostPortMapping MapIter.insertion (podData negativePod) (some fullRangeOffer) =
        (podData negativePod, .ret (some [⟨0, 0, 18446744073709551615⟩], none)) ∧
      Declares negativePod 0 0 (-1) ∧ ¬ fullRangeOffer.CoversInt (-1)) := by
  refine ⟨⟨by decide, ?_, ?_⟩, by decide, ⟨_, _, rfl, rfl, rfl⟩, ?_⟩
  · intro i pi j pj hp _ h1 _
    obtain ⟨c, p, hc, _⟩ := h1
    simp [idlePod] at hc
  · intro i pi hp _ h1
    obtain ⟨c, p, hc, _⟩ := h1
    simp [idlePod] at hc
  · rintro ⟨resource, hmem, _, ranges, _, r, _, hb, _⟩
    have : (0 : Int) ≤ (r.GetBegin : Int) := Int.ofNat_nonneg _
    omega

/-- C1 (amended): for a task with a non-nil pod, a pod with two distinct pairs on
one nonzero `HostPort` gets a DuplicateHostPortError on every offer; and on every
offer whose resources named "ports" all carry a ranges value the mapper succeeds
exactly when no two distinct pairs declare the same nonzero `HostPort` and the
`uint64` conversion of every nonzero `HostPort` lies in some range of some "ports"
resource, and returns a PortAllocationError when the first holds and the second
fails. For a pod without negative `HostPort` the second condition is that every
nonzero `HostPort` lies in some range. The mapper leaves the task as it is. -/
theorem defaultHostPortMapping_succeeds_iff (it : MapIter) (t : PodTaskData) (pod : Pod)
    (o : Offer) (hpod : t.Pod = some pod) :
    (defaultHostPortMapping it t (some o)).1 = t ∧
    (¬ pod.NoHostPortConflict →
      ∃ m1 m2, (defaultHostPortMapping it t (some o)).2 =
        .ret (none, some (.DuplicateHostPortError m1 m2))) ∧
    (o.PortsHaveRanges →
      ((∃ m, (defaultHostPortMapping it t (some o)).2 = .ret (m, none)) ↔
        (pod.NoHostPortConflict ∧ o.CoversPod pod)) ∧
      (pod.NoHostPortConflict → ¬ o.CoversPod pod →
        ∃ ports, (defaultHostPortMapping it t (some o)).2 =
          .ret (none, some (.PortAllocationError pod.Name ports)))) ∧
    ((∀ i pi hp, Declares pod i pi hp → 0 ≤ hp) →
      (o.CoversPod pod ↔ ∀ i pi hp, hp ≠ 0 → Declares pod i pi hp → o.CoversInt hp)) := by
  refine ⟨rfl, ?_⟩
  rw [← and_assoc]
  refine ⟨?_, fun hnn => ⟨fun h i pi hp h0 hd =>
    (coversPort_iff_coversInt o (hnn _ _ _ hd) (declares_bounds hd).2).mp (h i pi hp h0 hd),
    fun h i pi hp h0 hd =>
    (coversPort_iff_coversInt o (hnn _ _ _ hd) (declares_bounds hd).2).mpr (h i pi hp h0 hd)⟩⟩
  show (¬ pod.NoHostPortConflict →
      ∃ m1 m2, mapHostPorts it t (some o) =
        .ret (none, some (.DuplicateHostPortError m1 m2))) ∧
    (o.PortsHaveRanges →
      ((∃ m, mapHostPorts it t (some o) = .ret (m, none)) ↔
        (pod.NoHostPortConflict ∧ o.CoversPod pod)) ∧
      (pod.NoHostPortConflict → ¬ o.CoversPod pod →
        ∃ ports, mapHostPorts it t (some o) =
          .ret (none, some (.PortAllocationError pod.Name ports))))
  have hdupcase : ¬ pod.NoHostPortConflict →
      ∃ m1 m2, mapHostPorts it t (some o) =
        .ret (none, some (.DuplicateHostPortError m1 m2)) := by
    intro hc
    obtain ⟨_, m2, _, m1, _, _, _, _, hres⟩ :=
      mapper_dup it t pod hpod (some o) (fun h => hc ((nodup_ports_iff pod).mp h))
    exact ⟨m1, m2, hres⟩
  refine ⟨hdupcase, fun hwf => ?_⟩
  have hpae : pod.NoHostPortConflict → ¬ o.CoversPod pod →
      ∃ ports, mapHostPorts it t (some o) =
        .ret (none, some (.PortAllocationError pod.Name ports)) := by
    intro hc hcov
    obtain ⟨moved, k, _, hres⟩ := mapper_nodup it t pod hpod o ((nodup_ports_iff pod).mpr hc) hwf
    have hlen : ((podEntries pod).filter
        (fun m => !inRanges (portRanges o.Resources) m.offerPort)).length > 0 := by
      apply List.length_pos.mpr
      exact fun h => hcov ((coversPod_iff o pod).mpr h)
    rw [if_pos hlen] at hres
    exact ⟨_, hres⟩
  refine ⟨⟨?_, ?_⟩, hpae⟩
  · rintro ⟨m, hm⟩
    by_cases hc : pod.NoHostPortConflict
    · refine ⟨hc, ?_⟩
      by_contra hcov
      obtain ⟨ports, hres⟩ := hpae hc hcov
      rw [hres] at hm
      cases hm
    · obtain ⟨m1, m2, hres⟩ := hdupcase hc
      rw [hres] at hm
      cases hm
  · rintro ⟨hc, hcov⟩
    obtain ⟨moved, k, _, hres⟩ := mapper_nodup it t pod hpod o ((nodup_ports_iff pod).mpr hc) hwf
    have hnil := (coversPod_iff o pod).mp hcov
    rw [hnil] at hres
    exact ⟨some moved, by simpa using hres⟩

/-- C1 (amended), at the pod "web" and offer A: the mapper assigns port 8080. -/
theorem defaultHostPortMapping_succeeds_iff_witness :
    defaultHostPortMapping MapIter.insertion (podData webPod) (some offerA) =
        (podData webPod, .ret (some [⟨0, 0, 8080⟩], none)) ∧
      ((∃ m, (defaultHostPortMapping MapIter.insertion (podData webPod) (some offerA)).2 =
          .ret (m, none)) ↔
        (webPod.NoHostPortConflict ∧ offerA.CoversPod webPod)) :=
  ⟨by decide,
    ((defaultHostPortMapping_succeeds_iff MapIter.insertion (podData webPod) webPod offerA
      rfl).2.2.1 (by decide)).1⟩

/-- The entries of the pod at one (container index, port index) pair. -/
theorem filter_pair_podEntries (pod : Pod) {i pi : Nat} {hp : Int} (h0 : hp ≠ 0)
    (hd : Declares pod i pi hp) :
    (podEntries pod).filter (fun e => decide (e.cindex = i ∧ e.pindex = pi)) =
      [⟨i, pi, toUint64 hp⟩] := by
  have hmem : (⟨i, pi, toUint64 hp⟩ : hostPortMapping) ∈ podEntries pod :=
    (mem_podEntries _ _).mpr ⟨hp, hd, h0, rfl⟩
  have hcongr : (podEntries pod).filter (fun e => decide (e.cindex = i ∧ e.pindex = pi)) =
      (podEntries pod).filter (fun e => e == (⟨i, pi, toUint64 hp⟩ : hostPortMapping)) := by
    apply List.filter_congr
    intro e he
    obtain ⟨hpe, hde, _, hme⟩ := (mem_podEntries _ _).mp he
    by_cases hpair : e.cindex = i ∧ e.pindex = pi
    · have hport : e.offerPort = toUint64 hp := by
        obtain ⟨h1, h2⟩ := hpair
        rw [h1, h2] at hde
        rw [hme, declares_functional hde hd]
      have : e = ⟨i, pi, toUint64 hp⟩ := by
        cases e
        simp only at hpair hport
        simp [hpair.1, hpair.2, hport]
      simp [this]
    · have : ¬ e = ⟨i, pi, toUint64 hp⟩ := by
        intro heq
        apply hpair
        rw [heq]
        exact ⟨rfl, rfl⟩
      simp [hpair, this]
  rw [hcongr, List.filter_beq, List.count_eq_one_of_mem (nodup_podEntries pod) hmem]
  rfl

/-- C2, as stated, fails: the pod whose only `HostPort` is -1 is mapped on the
offer of the ports 0 to 18446744073709551615, and the entry of the pair (0, 0) has
the offerPort 18446744073709551615, which is `uint64(-1)` and not the `HostPort`
-1. -/
theorem defaultHostPortMapping_assignment_as_stated_fails :
    defaultHostPortMapping MapIter.insertion (podData negativePod) (some fullRangeOffer) =
        (podData negativePod, .ret (some [⟨0, 0, 18446744073709551615⟩], none)) ∧
      Declares negativePod 0 0 (-1) ∧
      ¬ ∃ e ∈ [(⟨0, 0, 18446744073709551615⟩ : hostPortMapping)],
          e.cindex = 0 ∧ e.pindex = 0 ∧ (e.offerPort : Int) = -1 := by
  refine ⟨by decide, ⟨_, _, rfl, rfl, rfl⟩, by decide⟩

/-- C2 (amended): for a task with a non-nil pod and an offer on which the default
mapper returns a nil error, the returned assignment has, for every (container
index, port index) pair with a nonzero `HostPort`, exactly one entry at that pair,
and its offerPort is the `uint64` conversion of that `HostPort` (the `HostPort`
itself when it is not negative); every entry comes from such a pair; and no two
entries have the same offerPort. -/
theorem defaultHostPortMapping_assignment (it : MapIter) (t : PodTaskData) (pod : Pod)
    (o : Offer) (r : Option (List hostPortMapping)) (hpod : t.Pod = some pod)
    (hok : (defaultHostPortMapping it t (some o)).2 = .ret (r, none)) :
    ∃ m, r = some m ∧
      (∀ i pi hp, hp ≠ 0 → Declares pod i pi hp →
        m.filter (fun e => decide (e.cindex = i ∧ e.pindex = pi)) = [⟨i, pi, toUint64 hp⟩] ∧
        (0 ≤ hp → (toUint64 hp : Int) = hp)) ∧
      (∀ e ∈ m, ∃ hp, hp ≠ 0 ∧ Declares pod e.cindex e.pindex hp ∧
        e.offerPort = toUint64 hp) ∧
      (m.map hostPortMapping.offerPort).Nodup := by
  replace hok : mapHostPorts it t (some o) = .ret (r, none) := hok
  by_cases hnd : ((podEntries pod).map hostPortMapping.offerPort).Nodup
  swap
  · obtain ⟨_, m2, _, m1, _, _, _, _, hres⟩ := mapper_dup it t pod hpod (some o) hnd
    rw [hres] at hok
    cases hok
  by_cases hwf : o.PortsHaveRanges
  swap
  · rw [mapper_fault it t pod hpod o hnd hwf] at hok
    cases hok
  obtain ⟨moved, k, hperm, hres⟩ := mapper_nodup it t pod hpod o hnd hwf
  rw [hres] at hok
  split at hok
  · cases hok
  · rename_i hlen
    have hnil : (podEntries pod).filter
        (fun m => !inRanges (portRanges o.Resources) m.offerPort) = [] := by
      apply List.eq_nil_of_length_eq_zero
      omega
    have hcov := (coversPod_iff o pod).mpr hnil
    rw [filter_covered_eq_self o pod hcov] at hperm
    have hr : r = some moved := by
      cases hok
      rfl
    refine ⟨moved, hr, ?_, ?_, ?_⟩
    · intro i pi hp h0 hd
      have h1 := hperm.filter (fun e => decide (e.cindex = i ∧ e.pindex = pi))
      rw [filter_pair_podEntries pod h0 hd] at h1
      exact ⟨List.perm_singleton.mp h1, fun hnn =>
        toUint64_of_nonneg hnn (declares_bounds hd).2⟩
    · intro e he
      obtain ⟨hp, h1, h2, h3⟩ := (mem_podEntries pod e).mp (hperm.mem_iff.mp he)
      exact ⟨hp, h2, h1, h3⟩
    · exact (hperm.map hostPortMapping.offerPort).nodup_iff.mpr hnd

/-- C2 (amended), at a pod with three host ports and an offer with two "ports"
resources whose ranges overlap. -/
theorem defaultHostPortMapping_assignment_witness :
    ∃ m, some [(⟨0, 0, 8080⟩ : hostPortMapping), ⟨1, 0, 8081⟩, ⟨0, 2, 9000⟩] = some m ∧
      (∀ i pi hp, hp ≠ 0 → Declares triplePod i pi hp →
        m.filter (fun e => decide (e.cindex = i ∧ e.pindex = pi)) = [⟨i, pi, toUint64 hp⟩] ∧
        (0 ≤ hp → (toUint64 hp : Int) = hp)) ∧
      (∀ e ∈ m, ∃ hp, hp ≠ 0 ∧ Declares triplePod e.cindex e.pindex hp ∧
        e.offerPort = toUint64 hp) ∧
      (m.map hostPortMapping.offerPort).Nodup :=
  defaultHostPortMapping_assignment MapIter.insertion (podData triplePod) triplePod
    overlapOffer _ rfl (by decide)

theorem before_trans {a b c : hostPortMapping} (h : Before a b) (h1 : Before b c) :
    Before a c := by
  unfold Before at *; omega

/-- In a list in declared order, what comes before a member of a front part is in
that front part. -/
theorem mem_front_of_before {a b : List hostPortMapping} {y z : hostPortMapping}
    (hpw : (a ++ b).Pairwise Before) (hy : y ∈ a ++ b) (hz : z ∈ a) (h : Before y z) :
    y ∈ a := by
  rcases List.mem_append.mp hy with hya | hyb
  · exact hya
  · exact absurd h (before_asymm ((List.pairwise_append.mp hpw).2.2 z hz y hyb))

/-- C3, as stated, fails: the two containers of the pod declare the `HostPort` -1,
and the two entries of the error carry the offerPort 18446744073709551615, which
is `uint64(-1)` and not the shared `HostPort` -1. -/
theorem defaultHostPortMapping_duplicate_as_stated_fails :
    Declares negativeClashPod 0 0 (-1) ∧ Declares negativeClashPod 1 0 (-1) ∧
      defaultHostPortMapping MapIter.insertion (podData negativeClashPod) (some offerA) =
        (podData negativeClashPod, .ret (none, some (.DuplicateHostPortError
          ⟨0, 0, 18446744073709551615⟩ ⟨1, 0, 18446744073709551615⟩))) ∧
      ((18446744073709551615 : Nat) : Int) ≠ -1 := by
  refine ⟨⟨_, _, rfl, rfl, rfl⟩, ⟨_, _, rfl, rfl, rfl⟩, by decide, by decide⟩

/-- C3 (amended): for a pod in which two distinct (container index, port index)
pairs declare the same nonzero `HostPort`, and for every offer (nil included), the
default mapper returns no assignment and a DuplicateHostPortError. Its m1 and m2
are pairs of the pod that declare one nonzero `HostPort` and carry its `uint64`
conversion as offerPort (the `HostPort` itself when it is not negative), m1 before
m2 in declared order; m2 is the first pair whose port an earlier pair holds (no
conflicting later pair comes before m2), m1 is the first pair with that port, and
when the pod has only one conflicting pair of entries the error names exactly
those two. -/
theorem defaultHostPortMapping_duplicate (it : MapIter) (t : PodTaskData) (pod : Pod)
    (offer : Option Offer) (i pi j pj : Nat) (hp : Int) (hpod : t.Pod = some pod)
    (hp0 : hp ≠ 0) (hd1 : Declares pod i pi hp) (hd2 : Declares pod j pj hp)
    (hne : ¬ (i = j ∧ pi = pj)) :
    ∃ m1 m2, (defaultHostPortMapping it t offer).2 =
        .ret (none, some (.DuplicateHostPortError m1 m2)) ∧
      (∃ shared : Int, shared ≠ 0 ∧ Declares pod m1.cindex m1.pindex shared ∧
        Declares pod m2.cindex m2.pindex shared ∧
        m1.offerPort = toUint64 shared ∧ m2.offerPort = toUint64 shared ∧
        (0 ≤ shared → (m1.offerPort : Int) = shared ∧ (m2.offerPort : Int) = shared)) ∧
      Before m1 m2 ∧
      (∀ a b : hostPortMapping, ∀ q : Int, q ≠ 0 →
        Declares pod a.cindex a.pindex q → Declares pod b.cindex b.pindex q →
        Before a b → ¬ Before b m2) ∧
      (∀ a : hostPortMapping, ∀ q : Int, toUint64 q = m1.offerPort →
        Declares pod a.cindex a.pindex q → ¬ Before a m1) ∧
      (∀ a b : hostPortMapping, ∀ q : Int, q ≠ 0 →
        Declares pod a.cindex a.pindex q → Declares pod b.cindex b.pindex q →
        a.offerPort = toUint64 q → b.offerPort = toUint64 q → Before a b →
        (∀ c d : hostPortMapping, ∀ q1 : Int, q1 ≠ 0 →
          Declares pod c.cindex c.pindex q1 → Declares pod d.cindex d.pindex q1 →
          Before c d → (c.cindex = a.cindex ∧ c.pindex = a.pindex) ∧
            (d.cindex = b.cindex ∧ d.pindex = b.pindex)) →
        m1 = a ∧ m2 = b) := by
  show ∃ m1 m2, mapHostPorts it t offer =
        .ret (none, some (.DuplicateHostPortError m1 m2)) ∧ _
  have hdup : ¬ ((podEntries pod).map hostPortMapping.offerPort).Nodup :=
    fun h => hne ((nodup_ports_iff pod).mp h i pi j pj hp hp0 hd1 hd2)
  obtain ⟨front, m2, post, m1, hes, hnd, hm1, hport, hres⟩ := mapper_dup it t pod hpod offer hdup
  have hpw : (front ++ m2 :: post).Pairwise Before := by
    rw [← hes]
    exact pairwise_containerEntries pod.Spec.Containers 0
  have hpw1 : ((front ++ [m2]) ++ post).Pairwise Before := by simpa using hpw
  have hm1es : m1 ∈ podEntries pod := by
    rw [hes]
    exact List.mem_append_left _ hm1
  have hm2es : m2 ∈ podEntries pod := by
    rw [hes]
    simp
  obtain ⟨q1, hdm1, h01, hq1⟩ := (mem_podEntries pod m1).mp hm1es
  obtain ⟨q2, hdm2, h02, hq2⟩ := (mem_podEntries pod m2).mp hm2es
  have hq : q1 = q2 := by
    obtain ⟨b1, b2⟩ := declares_bounds hdm1
    obtain ⟨b3, b4⟩ := declares_bounds hdm2
    exact toUint64_inj b1 b2 b3 b4 (by rw [← hq1, ← hq2]; exact hport)
  subst hq
  have hbefore : Before m1 m2 :=
    (List.pairwise_append.mp hpw).2.2 m1 hm1 m2 (List.mem_cons_self _ _)
  have hinj : ∀ x ∈ front, ∀ y ∈ front, x.offerPort = y.offerPort → x = y :=
    (List.nodup_map_iff_inj_on (hnd.of_map _)).mp hnd
  -- whatever comes before `m2` is in the front part
  have hfront : ∀ y, y ∈ podEntries pod → Before y m2 → y ∈ front := by
    intro y hy hb
    have hy1 : y ∈ (front ++ [m2]) ++ post := by
      rw [hes] at hy
      simpa using hy
    have := mem_front_of_before hpw1 hy1 (by simp) hb
    rcases List.mem_append.mp this with h | h
    · exact h
    · rw [List.mem_singleton] at h
      exact absurd (h ▸ hb) (before_irrefl m2)
  -- the entry of the pod at the pair of `a`
  have hentry : ∀ (a : hostPortMapping) (q : Int), q ≠ 0 → Declares pod a.cindex a.pindex q →
      (⟨a.cindex, a.pindex, toUint64 q⟩ : hostPortMapping) ∈ podEntries pod :=
    fun a q hq0 hda => (mem_podEntries pod _).mpr ⟨q, hda, hq0, rfl⟩
  have hfirst : ∀ a b : hostPortMapping, ∀ q : Int, q ≠ 0 →
      Declares pod a.cindex a.pindex q → Declares pod b.cindex b.pindex q →
      Before a b → ¬ Before b m2 := by
    intro a b q hq0 hda hdb hba hbm
    have hbf := hfront _ (hentry b q hq0 hdb) hbm
    have haf := hfront _ (hentry a q hq0 hda) (before_trans (c := m2) hba hbm)
    have := hinj _ haf _ hbf rfl
    have h1 : a.cindex = b.cindex ∧ a.pindex = b.pindex := by
      simpa using this
    unfold Before at hba
    omega
  have hclaim : ∀ a : hostPortMapping, ∀ q : Int, toUint64 q = m1.offerPort →
      Declares pod a.cindex a.pindex q → ¬ Before a m1 := by
    intro a q ha hda hb
    have hq : q = q1 := by
      obtain ⟨b1, b2⟩ := declares_bounds hdm1
      obtain ⟨b3, b4⟩ := declares_bounds hda
      exact toUint64_inj b3 b4 b1 b2 (by rw [ha, hq1])
    subst hq
    have haf := hfront _ (hentry a q h01 hda) (before_trans (c := m2) hb hbefore)
    have := hinj _ haf m1 hm1 ha
    rw [← this] at hb
    unfold Before at hb
    simp only at hb
    omega
  refine ⟨m1, m2, hres, ⟨q1, h01, hdm1, hdm2, hq1, hq2, fun hnn => ?_⟩, hbefore, hfirst,
    hclaim, ?_⟩
  · have := toUint64_of_nonneg hnn (declares_bounds hdm1).2
    rw [hq1, hq2]
    exact ⟨this, this⟩
  · intro a b q hq0 hda hdb hao hbo hab honly
    obtain ⟨⟨h1, h2⟩, h3, h4⟩ := honly m1 m2 q1 h01 hdm1 hdm2 hbefore
    have hqq : q = q1 := by
      rw [← h1, ← h2] at hda
      exact declares_functional hda hdm1
    subst hqq
    constructor
    · cases m1; cases a
      simp only at h1 h2 hq1 hao
      simp [h1, h2, hq1, hao]
    · cases m2; cases b
      simp only at h3 h4 hq2 hbo
      simp [h3, h4, hq2, hbo]

/-- C3 (amended), at the pod whose two containers ask for port 8080, on a nil
offer and on an offer whose "ports" resource has no ranges value. -/
theorem defaultHostPortMapping_duplicate_witness :
    defaultHostPortMapping MapIter.insertion (podData clashPod) none =
        (podData clashPod,
          .ret (none, some (.DuplicateHostPortError ⟨0, 0, 8080⟩ ⟨1, 1, 8080⟩))) ∧
      ∃ m1 m2,
        (defaultHostPortMapping MapIter.reversed (podData clashPod) (some rangelessOffer)).2 =
          .ret (none, some (.DuplicateHostPortError m1 m2)) ∧
        (∃ shared : Int, shared ≠ 0 ∧ Declares clashPod m1.cindex m1.pindex shared ∧
          Declares clashPod m2.cindex m2.pindex shared ∧
          m1.offerPort = toUint64 shared ∧ m2.offerPort = toUint64 shared ∧
          (0 ≤ shared → (m1.offerPort : Int) = shared ∧ (m2.offerPort : Int) = shared)) ∧
        Before m1 m2 ∧
        (∀ a b : hostPortMapping, ∀ q : Int, q ≠ 0 →
          Declares clashPod a.cindex a.pindex q → Declares clashPod b.cindex b.pindex q →
          Before a b → ¬ Before b m2) ∧
        (∀ a : hostPortMapping, ∀ q : Int, toUint64 q = m1.offerPort →
          Declares clashPod a.cindex a.pindex q → ¬ Before a m1) ∧
        (∀ a b : hostPortMapping, ∀ q : Int, q ≠ 0 →
          Declares clashPod a.cindex a.pindex q → Declares clashPod b.cindex b.pindex q →
          a.offerPort = toUint64 q → b.offerPort = toUint64 q → Before a b →
          (∀ c d : hostPortMapping, ∀ q1 : Int, q1 ≠ 0 →
            Declares clashPod c.cindex c.pindex q1 → Declares clashPod d.cindex d.pindex q1 →
            Before c d → (c.cindex = a.cindex ∧ c.pindex = a.pindex) ∧
              (d.cindex = b.cindex ∧ d.pindex = b.pindex)) →
          m1 = a ∧ m2 = b) :=
  ⟨by decide,
    defaultHostPortMapping_duplicate MapIter.reversed (podData clashPod) clashPod
      (some rangelessOffer) 0 0 1 1 8080 rfl (by decide)
      ⟨_, _, rfl, rfl, rfl⟩ ⟨_, _, rfl, rfl, rfl⟩ (by decide)⟩

/-- C4, as stated, fails, in two ways. The pod "web" asks for port 8080 only, the
offer has a resource named "ports" without a ranges value, so 8080 lies in no
range; the mapper panics instead of returning a PortAllocationError. And for the
pod whose only `HostPort` is -1, on offer A, the Ports of the error hold
18446744073709551615, which is `uint64(-1)` and not the uncovered value -1. -/
theorem defaultHostPortMapping_unsatisfied_as_stated_fails :
    (webPod.NoHostPortConflict ∧ Declares webPod 0 0 8080 ∧ ¬ rangelessOffer.CoversInt 8080 ∧
      defaultHostPortMapping MapIter.insertion (podData webPod) (some rangelessOffer) =
        (podData webPod, .fault nilDeref)) ∧
    (negativePod.NoHostPortConflict ∧ Declares negativePod 0 0 (-1) ∧
      ¬ offerA.CoversInt (-1) ∧
      defaultHostPortMapping MapIter.insertion (podData negativePod) (some offerA) =
        (podData negativePod,
          .ret (none, some (.PortAllocationError "negative" [18446744073709551615]))) ∧
      ¬ ∃ p ∈ [(18446744073709551615 : Nat)], (p : Int) = -1) := by
  refine ⟨⟨?_, ⟨_, _, rfl, rfl, rfl⟩, ?_, by decide⟩,
    ?_, ⟨_, _, rfl, rfl, rfl⟩, ?_, by decide, by decide⟩
  · exact (nodup_ports_iff webPod).mp (by decide)
  · rintro ⟨resource, hmem, hname, ranges, hr, _⟩
    simp only [rangelessOffer, List.mem_cons, List.mem_singleton, List.not_mem_nil,
      or_false] at hmem
    rcases hmem with rfl | rfl | rfl
    · revert hname; decide
    · revert hname; decide
    · cases hr
  · exact (nodup_ports_iff negativePod).mp (by decide)
  · rintro ⟨resource, _, _, ranges, _, r, _, hb, _⟩
    have : (0 : Int) ≤ (r.GetBegin : Int) := Int.ofNat_nonneg _
    omega

/-- C4 (amended): for a pod whose nonzero `HostPort`s are pairwise distinct and an
offer whose resources named "ports" all carry a ranges value, when the `uint64`
conversion of some nonzero `HostPort` of the pod lies in no "ports" range the
default mapper returns no assignment and a PortAllocationError whose PodId is the
name of the pod and whose Ports holds the `uint64` conversion of every uncovered
`HostPort` once (the `HostPort` itself when it is not negative), and nothing
else. -/
theorem defaultHostPortMapping_unsatisfied (it : MapIter) (t : PodTaskData) (pod : Pod)
    (o : Offer) (hpod : t.Pod = some pod) (hc : pod.NoHostPortConflict)
    (hwf : o.PortsHaveRanges) (hunc : ¬ o.CoversPod pod) :
    ∃ ports, (defaultHostPortMapping it t (some o)).2 =
        .ret (none, some (.PortAllocationError pod.Name ports)) ∧
      ports.Nodup ∧
      ∀ p, p ∈ ports ↔
        ∃ i pi hp, hp ≠ 0 ∧ Declares pod i pi hp ∧ p = toUint64 hp ∧
          (0 ≤ hp → (p : Int) = hp) ∧ ¬ o.CoversPort p := by
  show ∃ ports, mapHostPorts it t (some o) =
        .ret (none, some (.PortAllocationError pod.Name ports)) ∧ _
  have hnd := (nodup_ports_iff pod).mpr hc
  obtain ⟨moved, k, _, hres⟩ := mapper_nodup it t pod hpod o hnd hwf
  have hlen : ((podEntries pod).filter
      (fun m => !inRanges (portRanges o.Resources) m.offerPort)).length > 0 := by
    apply List.length_pos.mpr
    exact fun h => hunc ((coversPod_iff o pod).mpr h)
  rw [if_pos hlen] at hres
  have hperm : ((it.order k (toMap ((podEntries pod).filter
      (fun m => !inRanges (portRanges o.Resources) m.offerPort)))).map Prod.fst).Perm
      (((podEntries pod).filter
        (fun m => !inRanges (portRanges o.Resources) m.offerPort)).map
          hostPortMapping.offerPort) := by
    have := (it.perm k (toMap ((podEntries pod).filter
      (fun m => !inRanges (portRanges o.Resources) m.offerPort)))).map Prod.fst
    simpa [toMap, Function.comp_def] using this
  refine ⟨_, hres, hperm.nodup_iff.mpr (nodup_filter_ports _ hnd), ?_⟩
  intro p
  rw [hperm.mem_iff, List.mem_map]
  constructor
  · rintro ⟨m, hm, rfl⟩
    obtain ⟨hmes, hnot⟩ := List.mem_filter.mp hm
    obtain ⟨hp, hd, h0, hmp⟩ := (mem_podEntries pod m).mp hmes
    refine ⟨_, _, hp, h0, hd, hmp, fun hnn => ?_, ?_⟩
    · rw [hmp]
      exact toUint64_of_nonneg hnn (declares_bounds hd).2
    · intro hcov
      rw [(inRanges_portRanges o m.offerPort).mpr hcov] at hnot
      simp at hnot
  · rintro ⟨i, pi, hp, h0, hd, rfl, _, hcov⟩
    refine ⟨⟨i, pi, toUint64 hp⟩,
      List.mem_filter.mpr ⟨(mem_podEntries pod _).mpr ⟨hp, hd, h0, rfl⟩, ?_⟩, rfl⟩
    have : ¬ inRanges (portRanges o.Resources) (toUint64 hp) = true :=
      fun h => hcov ((inRanges_portRanges o _).mp h)
    simpa using this

/-- C4 (amended), at the pod "web" and offer B, and at the pod with three host
ports and offer A, which covers all of them but 9000. -/
theorem defaultHostPortMapping_unsatisfied_witness :
    defaultHostPortMapping MapIter.insertion (podData webPod) (some offerB) =
        (podData webPod, .ret (none, some (.PortAllocationError "web" [8080]))) ∧
      ∃ ports,
        (defaultHostPortMapping MapIter.reversed (podData triplePod) (some offerA)).2 =
          .ret (none, some (.PortAllocationError triplePod.Name ports)) ∧
        ports.Nodup ∧
        ∀ p, p ∈ ports ↔
          ∃ i pi hp, hp ≠ 0 ∧ Declares triplePod i pi hp ∧ p = toUint64 hp ∧
            (0 ≤ hp → (p : Int) = hp) ∧ ¬ offerA.CoversPort p :=
  ⟨by decide,
    defaultHostPortMapping_unsatisfied MapIter.reversed (podData triplePod) triplePod offerA rfl
      ((nodup_ports_iff triplePod).mp (by decide)) (by decide)
      (fun h => by
        have := (coversPod_iff offerA triplePod).mp h
        revert this
        decide)⟩

/-- C5, as stated, fails: the only port of the pod is private, the offer has a
resource named "ports" without a ranges value, and the mapper panics instead of
returning the empty assignment. -/
theorem defaultHostPortMapping_no_host_ports_fails_rangeless :
    (∀ i pi hp, Declares privatePod i pi hp → hp = 0) ∧
      defaultHostPortMapping MapIter.insertion (podData privatePod) (some rangelessOffer) =
        (podData privatePod, .fault nilDeref) ∧
      (defaultHostPortMapping MapIter.insertion (podData privatePod) (some rangelessOffer)).2 ≠
        .ret (some [], none) := by
  exact ⟨declares_zero_of_nil (by decide), by decide, by decide⟩

/-- C5 (amended): for a pod in which every declared port has host port zero (a
pod without containers or ports included) and every offer whose resources named
"ports" all carry a ranges value (an offer without "ports" resource or with empty
port ranges included), the default mapper succeeds with an empty assignment, and
leaves the task as it is. -/
theorem defaultHostPortMapping_no_host_ports (it : MapIter) (t : PodTaskData) (pod : Pod)
    (o : Offer) (hpod : t.Pod = some pod) (hzero : ∀ i pi hp, Declares pod i pi hp → hp = 0)
    (hwf : o.PortsHaveRanges) :
    defaultHostPortMapping it t (some o) = (t, .ret (some [], none)) := by
  have hes : podEntries pod = [] := podEntries_eq_nil hzero
  obtain ⟨moved, k, hperm, hres⟩ := mapper_nodup it t pod hpod o (by simp [hes]) hwf
  rw [hes] at hperm hres
  have hmoved : moved = [] := by simpa using hperm
  show (t, mapHostPorts it t (some o)) = (t, .ret (some [], none))
  rw [hres, hmoved]
  rfl

/-- C5 (amended), at the pod with one private port and an offer without
resources, and at the pod without containers and an offer with an empty list of
port ranges. -/
theorem defaultHostPortMapping_no_host_ports_witness :
    defaultHostPortMapping MapIter.insertion (podData privatePod) (some {}) =
        (podData privatePod, .ret (some [], none)) ∧
      defaultHostPortMapping MapIter.reversed (podData idlePod)
        (some { Resources := [portsResource []] }) = (podData idlePod, .ret (some [], none)) :=
  ⟨defaultHostPortMapping_no_host_ports MapIter.insertion (podData privatePod) privatePod {} rfl
      (declares_zero_of_nil (by decide)) (by decide),
    defaultHostPortMapping_no_host_ports MapIter.reversed (podData idlePod) idlePod
      { Resources := [portsResource []] } rfl
      (declares_zero_of_nil (by decide)) (by decide)⟩

/-! ## `AcceptOffer` -/

/-- For a value that is not NaN, "not below" is "at least". -/
theorem Float64.not_lt_iff_le {q : Float64} (c : ℚ) (h : q ≠ .nan) :
    ¬ q < .finite c ↔ Float64.finite c ≤ q := by
  cases q with
  | finite a => exact (not_lt : ¬ a < c ↔ c ≤ a)
  | nan => exact absurd rfl h
  | posInf => exact ⟨fun _ => trivial, fun _ h1 => h1⟩
  | negInf => exact ⟨fun h1 => absurd trivial h1, fun h1 => absurd h1 id⟩

theorem Float64.not_le_of_lt {q : Float64} {c : ℚ} (h : q < .finite c) :
    ¬ Float64.finite c ≤ q := by
  cases q with
  | finite a => exact fun h1 => absurd (show a < c from h) (not_lt.mpr (show c ≤ a from h1))
  | nan => exact id
  | posInf => exact absurd h id
  | negInf => exact id

theorem lastValue_eq_getLast (name : String) (rs : List Resource) (d : Float64) :
    (match (rs.filter (fun r => r.GetName = name)).getLast? with
      | none => d
      | some r => r.scalarValue) = lastValue name rs d := by
  induction rs generalizing d with
  | nil => rfl
  | cons r rest ih =>
    by_cases hn : r.GetName = name
    · rw [List.filter_cons_of_pos (by simpa using hn), List.getLast?_cons]
      simp only [lastValue, hn, if_true]
      rw [← ih]
      cases (List.filter (fun r => decide (r.GetName = name)) rest).getLast? with
      | none => rfl
      | some x => rfl
    · rw [List.filter_cons_of_neg (by simpa using hn)]
      simp only [lastValue, hn, if_false]
      exact ih d

theorem quantity_eq_lastValue (o : Offer) (name : String) :
    o.quantity name = lastValue name o.Resources 0 :=
  lastValue_eq_getLast name o.Resources 0

theorem derefScalarValue_of_isSome {r : Resource}
    (h : (r.Scalar.bind (fun s => s.Value)).isSome = true) :
    derefScalarValue r = .ret r.scalarValue := by
  unfold derefScalarValue Resource.GetScalar Resource.scalarValue
  cases hs : r.Scalar with
  | none => simp [hs] at h
  | some scalar =>
    cases hv : scalar.Value with
    | none => simp [hs, hv] at h
    | some v => simp [hv]

/-- On resources whose "cpus" and "mem" entries carry scalar values, the loop of
`AcceptOffer` leaves in `cpus` and `mem` the value of the last entry of each name. -/
theorem scanScalars_eq (rs : List Resource)
    (hwf : ∀ r ∈ rs, r.GetName = "cpus" ∨ r.GetName = "mem" →
      (r.Scalar.bind (fun s => s.Value)).isSome = true) (cpus mem : Float64) :
    scanScalars rs (cpus, mem) = .ret (lastValue "cpus" rs cpus, lastValue "mem" rs mem) := by
  induction rs generalizing cpus mem with
  | nil => rfl
  | cons r rest ih =>
    have hwf1 : ∀ x ∈ rest, x.GetName = "cpus" ∨ x.GetName = "mem" →
        (x.Scalar.bind (fun s => s.Value)).isSome = true :=
      fun x hx => hwf x (List.mem_cons_of_mem _ hx)
    have hr := hwf r (List.mem_cons_self _ _)
    by_cases hc : r.GetName = "cpus"
    · have hm : ¬ r.GetName = "mem" := by rw [hc]; decide
      simp only [scanScalars, lastValue, hc, hm, if_true, if_false,
        derefScalarValue_of_isSome (hr (Or.inl hc))]
      exact ih hwf1 _ _
    · by_cases hm : r.GetName = "mem"
      · simp only [scanScalars, lastValue, hc, hm, if_true, if_false,
          derefScalarValue_of_isSome (hr (Or.inr hm))]
        exact ih hwf1 _ _
      · simp only [scanScalars, lastValue, hc, hm, if_false]
        exact ih hwf1 _ _

/-- The call of the default mapper leaves the task as it is. -/
theorem callMapper_default (it : MapIter) (t : PodTask) (offer : Option Offer)
    (hit : t.mapper = some (defaultHostPortMapping it)) :
    t.callMapper offer = (t, mapHostPorts it t.toPodTaskData offer) := by
  obtain ⟨data, mapper⟩ := t
  simp only at hit
  subst hit
  rfl

/-- The result of `AcceptOffer` on an offer whose "cpus" and "mem" entries carry
scalar values, when the mapper returns. -/
theorem AcceptOffer_of_mapper (t t1 : PodTask) (o : Offer) (hwf : o.ScalarsHaveValues)
    (m : Option (List hostPortMapping)) (err : Option MapError)
    (hmap : t.callMapper (some o) = (t1, .ret (m, err))) :
    t.AcceptOffer (some o) =
      (t1, .ret (decide (err = none ∧ ¬ o.quantity "cpus" < containerCpus ∧
        ¬ o.quantity "mem" < containerMem))) := by
  simp only [PodTask.AcceptOffer, scanScalars_eq o.Resources hwf, hmap,
    quantity_eq_lastValue]
  cases err with
  | some e => simp
  | none =>
    by_cases h : lastValue "cpus" o.Resources 0 < containerCpus ∨
        lastValue "mem" o.Resources 0 < containerMem
    · have h1 : ¬ (¬ lastValue "cpus" o.Resources 0 < containerCpus ∧
          ¬ lastValue "mem" o.Resources 0 < containerMem) := by
        rintro ⟨h2, h3⟩
        rcases h with h | h
        · exact h2 h
        · exact h3 h
      simp only [if_pos h]
      simp only [true_and]
      rw [decide_eq_false h1]
    · have h1 : ¬ lastValue "cpus" o.Resources 0 < containerCpus ∧
          ¬ lastValue "mem" o.Resources 0 < containerMem :=
        ⟨fun h2 => h (Or.inl h2), fun h2 => h (Or.inr h2)⟩
      simp only [if_neg h]
      simp only [true_and]
      rw [decide_eq_true h1]

/-- When the mapper panics, so does `AcceptOffer`, if the loop over the scalars
has not done so before. -/
theorem AcceptOffer_not_true_of_fault (t : PodTask) (o : Offer) (msg : String)
    (hmap : (t.callMapper (some o)).2 = .fault msg) :
    (t.AcceptOffer (some o)).2 ≠ .ret true := by
  simp only [PodTask.AcceptOffer]
  cases scanScalars o.Resources (0, 0) with
  | fault _ => simp
  | ret s =>
    rcases hc : t.callMapper (some o) with ⟨t1, r⟩
    rw [hc] at hmap
    simp only at hmap
    subst hmap
    simp

/-- C6, as stated, fails, in two ways. On the first offer the mapper succeeds, the
last "cpus" entry is 1 and the "mem" entry 128, yet `AcceptOffer` does not return
true: the first "cpus" entry has no scalar value and the loop over the resources
panics. On the second offer the "cpus" value is NaN, which is not at least 0.25,
yet `AcceptOffer` returns true: NaN is not below 0.25 either. -/
theorem AcceptOffer_true_iff_as_stated_fails :
    ((∃ m, ((podTask webPod).callMapper (some valuelessOffer)).2 = .ret (m, none)) ∧
      containerCpus ≤ valuelessOffer.quantity "cpus" ∧
      containerMem ≤ valuelessOffer.quantity "mem" ∧
      ((podTask webPod).AcceptOffer (some valuelessOffer)).2 = .fault nilDeref ∧
      ((podTask webPod).AcceptOffer (some valuelessOffer)).2 ≠ .ret true) ∧
    (((podTask webPod).AcceptOffer (some nanOffer)).2 = .ret true ∧
      nanOffer.quantity "cpus" = .nan ∧
      ¬ containerCpus ≤ nanOffer.quantity "cpus") := by
  have hc : valuelessOffer.quantity "cpus" = .finite 1 := by rfl
  have hm : valuelessOffer.quantity "mem" = .finite 128 := by rfl
  have hn : nanOffer.quantity "cpus" = .nan := by rfl
  refine ⟨⟨⟨some [⟨0, 0, 8080⟩], by rfl⟩, ?_, ?_, by rfl, ?_⟩, ?_, hn, ?_⟩
  · rw [hc]
    show ((1 : ℚ) / 4) ≤ 1
    norm_num
  · rw [hm]
    show (64 : ℚ) ≤ 128
    norm_num
  · have : ((podTask webPod).AcceptOffer (some valuelessOffer)).2 = .fault nilDeref := by rfl
    rw [this]
    exact fun h => Outcome.noConfusion h
  · have hmap : (podTask webPod).callMapper (some nanOffer) =
        (podTask webPod, .ret (some [⟨0, 0, 8080⟩], none)) := by rfl
    have hwf : nanOffer.ScalarsHaveValues := by decide
    rw [AcceptOffer_of_mapper _ _ _ hwf _ _ hmap]
    have hmem : nanOffer.quantity "mem" = .finite 128 := by rfl
    have h1 : ¬ nanOffer.quantity "cpus" < containerCpus := by rw [hn]; exact id
    have h2 : ¬ nanOffer.quantity "mem" < containerMem := by
      rw [hmem]
      show ¬ ((128 : ℚ) < 64)
      norm_num
    simp only [true_and, h1, h2, not_false_eq_true, and_self, decide_True]
  · rw [hn]
    exact id

/-- C6 (amended): for every task and every offer, nil or not, in which every
resource named "cpus" or "mem" carries a scalar value, `AcceptOffer` returns true
exactly when the offer is non-nil, the mapper of the task succeeds on it, the last
"cpus" value is not below 0.25 and the last "mem" value not below 64, an unlisted
name counting as zero; for values that are not NaN this is: at least 0.25 and at
least 64. A nil offer yields false. An offer whose "cpus" quantity is below 0.25
never yields true, and yields false whenever the mapper returns. -/
theorem AcceptOffer_true_iff (t : PodTask) (offer : Option Offer)
    (hwf : ∀ o, offer = some o → o.ScalarsHaveValues) :
    ((t.AcceptOffer offer).2 = .ret true ↔
      ∃ o, offer = some o ∧ (∃ m, (t.callMapper (some o)).2 = .ret (m, none)) ∧
        ¬ o.quantity "cpus" < containerCpus ∧ ¬ o.quantity "mem" < containerMem) ∧
    (∀ o, offer = some o → o.quantity "cpus" ≠ .nan → o.quantity "mem" ≠ .nan →
      ((t.AcceptOffer offer).2 = .ret true ↔
        (∃ m, (t.callMapper (some o)).2 = .ret (m, none)) ∧
          containerCpus ≤ o.quantity "cpus" ∧ containerMem ≤ o.quantity "mem")) ∧
    t.AcceptOffer none = (t, .ret false) ∧
    (∀ o, offer = some o → o.quantity "cpus" < containerCpus →
      (t.AcceptOffer offer).2 ≠ .ret true ∧
      ((∃ r, (t.callMapper (some o)).2 = .ret r) → (t.AcceptOffer offer).2 = .ret false)) := by
  have hiff : (t.AcceptOffer offer).2 = .ret true ↔
      ∃ o, offer = some o ∧ (∃ m, (t.callMapper (some o)).2 = .ret (m, none)) ∧
        ¬ o.quantity "cpus" < containerCpus ∧ ¬ o.quantity "mem" < containerMem := by
    cases offer with
    | none => simp [PodTask.AcceptOffer]
    | some o =>
      have hwf1 := hwf o rfl
      rcases hmap : t.callMapper (some o) with ⟨t1, res⟩
      cases res with
      | fault msg =>
        constructor
        · intro h
          exact absurd h (AcceptOffer_not_true_of_fault t o msg (by rw [hmap]))
        · rintro ⟨o1, ho1, ⟨m, hm⟩, _⟩
          cases ho1
          rw [hmap] at hm
          cases hm
      | ret r =>
        obtain ⟨m, err⟩ := r
        rw [AcceptOffer_of_mapper t t1 o hwf1 m err hmap]
        constructor
        · intro h
          have h1 : err = none ∧ ¬ o.quantity "cpus" < containerCpus ∧
              ¬ o.quantity "mem" < containerMem := by simpa using h
          exact ⟨o, rfl, ⟨m, by rw [hmap, h1.1]⟩, h1.2⟩
        · rintro ⟨o1, ho1, ⟨m1, hm1⟩, hq⟩
          cases ho1
          have herr : err = none := by
            rw [hmap] at hm1
            cases hm1
            rfl
          have : err = none ∧ ¬ o.quantity "cpus" < containerCpus ∧
              ¬ o.quantity "mem" < containerMem := ⟨herr, hq⟩
          simp only [this, not_false_eq_true, and_self, decide_True]
  refine ⟨hiff, ?_, rfl, ?_⟩
  · intro o ho hc hm
    rw [hiff]
    constructor
    · rintro ⟨o1, ho1, hmap, h1, h2⟩
      rw [ho] at ho1
      cases ho1
      exact ⟨hmap, (Float64.not_lt_iff_le _ hc).mp h1, (Float64.not_lt_iff_le _ hm).mp h2⟩
    · rintro ⟨hmap, h1, h2⟩
      exact ⟨o, ho, hmap, (Float64.not_lt_iff_le _ hc).mpr h1,
        (Float64.not_lt_iff_le _ hm).mpr h2⟩
  · intro o ho hlow
    have hnot : (t.AcceptOffer offer).2 ≠ .ret true := by
      intro h
      obtain ⟨o1, ho1, _, hq, _⟩ := hiff.mp h
      rw [ho] at ho1
      cases ho1
      exact hq hlow
    refine ⟨hnot, ?_⟩
    rintro ⟨⟨m, err⟩, hr⟩
    subst ho
    rcases hmap : t.callMapper (some o) with ⟨t1, res⟩
    rw [hmap] at hr
    simp only at hr
    subst hr
    rw [AcceptOffer_of_mapper t t1 o (hwf o rfl) m err hmap]
    have : ¬ (err = none ∧ ¬ o.quantity "cpus" < containerCpus ∧
        ¬ o.quantity "mem" < containerMem) := fun h => h.2.1 hlow
    simp only [this, decide_False]

/-- C6 (amended), at the pod "web": offer A (one cpu, 128 MB, ports 8000 to 8100)
is accepted. -/
theorem AcceptOffer_true_iff_witness :
    ((podTask webPod).AcceptOffer (some offerA)).2 = .ret true :=
  (AcceptOffer_true_iff (podTask webPod) (some offerA)
    (fun o ho => by cases ho; decide)).1.mpr
    ⟨offerA, rfl, ⟨some [⟨0, 0, 8080⟩], by rfl⟩,
      by
        rw [show offerA.quantity "cpus" = .finite 1 by rfl]
        show ¬ ((1 : ℚ) < 1 / 4)
        norm_num,
      by
        rw [show offerA.quantity "mem" = .finite 128 by rfl]
        show ¬ ((128 : ℚ) < 64)
        norm_num⟩

/-! ### Several entries of one name -/

/-- A later "cpus" entry overwrites the local `cpus`: its value before the loop
does not matter. -/
theorem scanScalars_overwrite_cpus (rs : List Resource)
    (h : rs.any (fun x => decide (x.GetName = "cpus")) = true) (c1 c2 mem : Float64) :
    scanScalars rs (c1, mem) = scanScalars rs (c2, mem) := by
  induction rs generalizing mem with
  | nil => simp at h
  | cons r rest ih =>
    by_cases hc : r.GetName = "cpus"
    · simp only [scanScalars, hc, if_true]
    · have hrest : rest.any (fun x => decide (x.GetName = "cpus")) = true := by
        simpa [hc] using h
      simp only [scanScalars, hc, if_false]
      split
      · rfl
      · exact ih hrest _

/-- A later "mem" entry overwrites the local `mem`. -/
theorem scanScalars_overwrite_mem (rs : List Resource)
    (h : rs.any (fun x => decide (x.GetName = "mem")) = true) (cpus m1 m2 : Float64) :
    scanScalars rs (cpus, m1) = scanScalars rs (cpus, m2) := by
  induction rs generalizing cpus with
  | nil => simp at h
  | cons r rest ih =>
    by_cases hm : r.GetName = "mem"
    · simp only [scanScalars, hm, if_true]
    · have hrest : rest.any (fun x => decide (x.GetName = "mem")) = true := by
        simpa [hm] using h
      simp only [scanScalars, hm, if_false]
      split
      · rfl
      · exact ih hrest _

/-- The loop of `AcceptOffer` gives the same result without the earlier
occurrences of "cpus" (or of "mem"), when these carry scalar values. -/
theorem scanScalars_dropEarlier (name : String) (hname : name = "cpus" ∨ name = "mem")
    (rs : List Resource)
    (hval : ∀ r ∈ rs, r.GetName = name → (r.Scalar.bind (fun s => s.Value)).isSome = true)
    (s : Float64 × Float64) :
    scanScalars (dropEarlier name rs) s = scanScalars rs s := by
  induction rs generalizing s with
  | nil => rfl
  | cons r rest ih =>
    have hval1 : ∀ x ∈ rest, x.GetName = name →
        (x.Scalar.bind (fun s => s.Value)).isSome = true :=
      fun x hx => hval x (List.mem_cons_of_mem _ hx)
    obtain ⟨cpus, mem⟩ := s
    by_cases hdrop : r.GetName = name ∧ rest.any (fun x => decide (x.GetName = name)) = true
    · have hderef := derefScalarValue_of_isSome (hval r (List.mem_cons_self _ _) hdrop.1)
      simp only [dropEarlier, hdrop, and_self, if_true]
      rw [ih hval1]
      rcases hname with hn | hn
      · subst hn
        have hm : ¬ r.GetName = "mem" := by rw [hdrop.1]; decide
        simp only [scanScalars, hdrop.1, hm, if_true, if_false, hderef]
        exact scanScalars_overwrite_cpus rest hdrop.2 _ _ _
      · subst hn
        have hc : ¬ r.GetName = "cpus" := by rw [hdrop.1]; decide
        simp only [scanScalars, hdrop.1, hc, if_true, if_false, hderef]
        exact scanScalars_overwrite_mem rest hdrop.2 _ _ _
    · simp only [dropEarlier, hdrop, if_false, scanScalars]
      split
      · rfl
      · split
        · rfl
        · exact ih hval1 _

/-- The default mapper does not read the resources named "cpus" or "mem". -/
theorem scanResources_dropEarlier (it : MapIter) (name : String) (hname : name ≠ "ports")
    (rs : List Resource) (s : MatchState) :
    scanResources it (dropEarlier name rs) s = scanResources it rs s := by
  induction rs generalizing s with
  | nil => rfl
  | cons r rest ih =>
    by_cases hdrop : r.GetName = name ∧ rest.any (fun x => decide (x.GetName = name)) = true
    · have hp : ¬ r.GetName = "ports" := by rw [hdrop.1]; exact hname
      simp only [dropEarlier, hdrop, and_self, if_true]
      rw [scanResources, if_neg hp]
      exact ih s
    · simp only [dropEarlier, hdrop, if_false, scanResources]
      split
      · split
        · rfl
        · exact ih _
      · exact ih s

theorem mapHostPorts_dropEarlier (it : MapIter) (name : String)
    (hname : name ≠ "ports") (t : PodTaskData) (o : Offer) :
    mapHostPorts it t (some (o.dropEarlier name)) = mapHostPorts it t (some o) := by
  simp only [mapHostPorts, Offer.dropEarlier, scanResources_dropEarlier it name hname]

theorem AcceptOffer_congr (t : PodTask) (o1 o2 : Offer)
    (hs : scanScalars o1.Resources (0, 0) = scanScalars o2.Resources (0, 0))
    (hmap : t.callMapper (some o1) = t.callMapper (some o2)) :
    t.AcceptOffer (some o1) = t.AcceptOffer (some o2) := by
  simp only [PodTask.AcceptOffer, hs, hmap]

/-- The task "web" with the default mapper on an offer with 128 MB, ports 8000 to
8100 and two "cpus" entries: the second entry decides. -/
theorem AcceptOffer_twoCpus (c1 c2 : ℚ) :
    ((podTask webPod).AcceptOffer (some (twoCpus c1 c2))).2 =
      .ret (decide ((1 : ℚ) / 4 ≤ c2)) := by
  have hmap : (podTask webPod).callMapper (some (twoCpus c1 c2)) =
      (podTask webPod, .ret (some [⟨0, 0, 8080⟩], none)) := by rfl
  have hwf : (twoCpus c1 c2).ScalarsHaveValues := by
    intro r hr _
    simp only [twoCpus, List.mem_cons, List.mem_singleton, List.not_mem_nil, or_false] at hr
    rcases hr with rfl | rfl | rfl | rfl <;> simp [ScalarResource] at *
    simp [portsResource, Resource.GetName] at *
  rw [AcceptOffer_of_mapper _ _ _ hwf _ _ hmap]
  have hq : (twoCpus c1 c2).quantity "cpus" = .finite c2 := by
    simp [quantity_eq_lastValue, twoCpus, lastValue, ScalarResource, Resource.GetName,
      Resource.scalarValue, portsResource]
  have hm : (twoCpus c1 c2).quantity "mem" = .finite 128 := by
    simp [quantity_eq_lastValue, twoCpus, lastValue, ScalarResource, Resource.GetName,
      Resource.scalarValue, portsResource]
    rfl
  rw [hq, hm]
  have h2 : ¬ (Float64.finite 128 < containerMem) := by
    show ¬ ((128 : ℚ) < 64)
    norm_num
  have h1 : (¬ Float64.finite c2 < containerCpus) ↔ (1 : ℚ) / 4 ≤ c2 := by
    show ¬ (c2 < 1 / 4) ↔ _
    exact not_lt
  simp only [true_and, h2, not_false_eq_true, and_true, h1]

/-- C7, as stated, fails. For a task whose mapper reads the list of resources: the
offer lists "cpus" twice with value 1; the mapper refuses its four resources, so
`AcceptOffer` returns false, and accepts the three resources left when the
earlier "cpus" entry is removed, so `AcceptOffer` returns true. And for a task
with the default mapper when the earlier "cpus" entry has no scalar value:
`AcceptOffer` panics on the offer and returns true without that entry. -/
theorem AcceptOffer_last_occurrence_as_stated_fails :
    (((pickyTask webPod).AcceptOffer (some (twoCpus 1 1))).2 = .ret false ∧
      ((pickyTask webPod).AcceptOffer (some ((twoCpus 1 1).dropEarlier "cpus"))).2 =
        .ret true) ∧
    (((podTask webPod).AcceptOffer (some valuelessOffer)).2 = .fault nilDeref ∧
      ((podTask webPod).AcceptOffer (some (valuelessOffer.dropEarlier "cpus"))).2 =
        .ret true) := by
  have h1 : ¬ (Float64.finite 128 < containerMem) := by
    show ¬ ((128 : ℚ) < 64)
    norm_num
  have h2 : ¬ (Float64.finite 1 < containerCpus) := by
    show ¬ ((1 : ℚ) < 1 / 4)
    norm_num
  refine ⟨⟨?_, ?_⟩, ⟨by rfl, ?_⟩⟩
  · have hmap : (pickyTask webPod).callMapper (some (twoCpus 1 1)) =
        (pickyTask webPod, .ret (none, some (.other "too many resources"))) := by rfl
    have hwf : (twoCpus 1 1).ScalarsHaveValues := by decide
    rw [AcceptOffer_of_mapper _ _ _ hwf _ _ hmap]
    simp
  · have hmap : (pickyTask webPod).callMapper (some ((twoCpus 1 1).dropEarlier "cpus")) =
        (pickyTask webPod, .ret (some [], none)) := by rfl
    have hwf : ((twoCpus 1 1).dropEarlier "cpus").ScalarsHaveValues := by decide
    rw [AcceptOffer_of_mapper _ _ _ hwf _ _ hmap]
    have hq : ((twoCpus 1 1).dropEarlier "cpus").quantity "cpus" = .finite 1 := by rfl
    have hm : ((twoCpus 1 1).dropEarlier "cpus").quantity "mem" = .finite 128 := by rfl
    rw [hq, hm]
    simp only [true_and, h1, h2, not_false_eq_true, and_self, decide_True]
  · have hmap : (podTask webPod).callMapper (some (valuelessOffer.dropEarlier "cpus")) =
        (podTask webPod, .ret (some [⟨0, 0, 8080⟩], none)) := by rfl
    have hwf : (valuelessOffer.dropEarlier "cpus").ScalarsHaveValues := by decide
    rw [AcceptOffer_of_mapper _ _ _ hwf _ _ hmap]
    have hq : (valuelessOffer.dropEarlier "cpus").quantity "cpus" = .finite 1 := by rfl
    have hm : (valuelessOffer.dropEarlier "cpus").quantity "mem" = .finite 128 := by rfl
    rw [hq, hm]
    simp only [true_and, h1, h2, not_false_eq_true, and_self, decide_True]

/-- C7 (amended): when an offer lists "cpus" (or "mem") more than once, every
occurrence with a scalar value, `AcceptOffer` gives the same result on the offer
without the earlier occurrences of that name, for a task whose mapper does the
same on both offers, and so for every task with the default mapper. With a mapper
that succeeds and sufficient memory the result is whether the last "cpus" value
is not below 0.25 (at least 0.25, for a value that is not NaN): for the pod "web",
128 MB and ports 8000 to 8100, CPU 1.0 then 0.1 is rejected, 0.1 then 1.0
accepted, 0.2 then 0.2 rejected. -/
theorem AcceptOffer_last_occurrence (t : PodTask) (o : Offer) (name : String)
    (hname : name = "cpus" ∨ name = "mem")
    (hval : ∀ r ∈ o.Resources, r.GetName = name →
      (r.Scalar.bind (fun s => s.Value)).isSome = true) :
    (t.callMapper (some (o.dropEarlier name)) = t.callMapper (some o) →
      t.AcceptOffer (some (o.dropEarlier name)) = t.AcceptOffer (some o)) ∧
    (∀ it, t.mapper = some (defaultHostPortMapping it) →
      t.AcceptOffer (some (o.dropEarlier name)) = t.AcceptOffer (some o)) ∧
    (∀ m, (t.callMapper (some o)).2 = .ret (m, none) → o.ScalarsHaveValues →
      containerMem ≤ o.quantity "mem" →
      (t.AcceptOffer (some o)).2 = .ret (decide (¬ o.quantity "cpus" < containerCpus)) ∧
      (o.quantity "cpus" ≠ .nan →
        (t.AcceptOffer (some o)).2 = .ret (decide (containerCpus ≤ o.quantity "cpus")))) ∧
    ((podTask webPod).AcceptOffer (some (twoCpus 1 (1 / 10)))).2 = .ret false ∧
    ((podTask webPod).AcceptOffer (some (twoCpus (1 / 10) 1))).2 = .ret true ∧
    ((podTask webPod).AcceptOffer (some (twoCpus (1 / 5) (1 / 5)))).2 = .ret false := by
  have hgen : t.callMapper (some (o.dropEarlier name)) = t.callMapper (some o) →
      t.AcceptOffer (some (o.dropEarlier name)) = t.AcceptOffer (some o) := fun hmap =>
    AcceptOffer_congr t _ _ (scanScalars_dropEarlier name hname o.Resources hval _) hmap
  refine ⟨hgen, ?_, ?_, ?_, ?_, ?_⟩
  · intro it hit
    apply hgen
    have hports : name ≠ "ports" := by
      rcases hname with h | h <;> rw [h] <;> decide
    rw [callMapper_default it t _ hit, callMapper_default it t _ hit,
      mapHostPorts_dropEarlier it name hports]
  · intro m hmap hwf hmem
    rcases hc : t.callMapper (some o) with ⟨t1, res⟩
    rw [hc] at hmap
    simp only at hmap
    subst hmap
    rw [AcceptOffer_of_mapper t t1 o hwf _ _ hc]
    have hm1 : ¬ o.quantity "mem" < containerMem := fun h => Float64.not_le_of_lt h hmem
    have hfirst : (decide (none = (none : Option MapError) ∧
        ¬ o.quantity "cpus" < containerCpus ∧ ¬ o.quantity "mem" < containerMem)) =
        decide (¬ o.quantity "cpus" < containerCpus) := by
      simp only [true_and, hm1, not_false_eq_true, and_true]
    refine ⟨by rw [hfirst], fun hnan => ?_⟩
    rw [hfirst]
    show Outcome.ret _ = Outcome.ret _
    congr 1
    exact decide_eq_decide.mpr (Float64.not_lt_iff_le (1 / 4) hnan)
  · rw [AcceptOffer_twoCpus]
    have : ¬ ((1 : ℚ) / 4 ≤ 1 / 10) := by norm_num
    rw [decide_eq_false this]
  · rw [AcceptOffer_twoCpus]
    have : ((1 : ℚ) / 4 ≤ 1) := by norm_num
    rw [decide_eq_true this]
  · rw [AcceptOffer_twoCpus]
    have : ¬ ((1 : ℚ) / 4 ≤ 1 / 5) := by norm_num
    rw [decide_eq_false this]

/-- C7 (amended), at the pod "web" with the default mapper and the offer that
lists CPU 1.0 then 0.1: the result is that of the offer that lists 0.1 only. -/
theorem AcceptOffer_last_occurrence_witness :
    (podTask webPod).AcceptOffer (some ((twoCpus 1 (1 / 10)).dropEarlier "cpus")) =
      (podTask webPod).AcceptOffer (some (twoCpus 1 (1 / 10))) ∧
    (twoCpus 1 (1 / 10)).dropEarlier "cpus" =
      { Resources := [ScalarResource "mem" 128, ScalarResource "cpus" (.finite (1 / 10)),
          portsResource [(8000, 8100)]] } :=
  ⟨(AcceptOffer_last_occurrence (podTask webPod) (twoCpus 1 (1 / 10)) "cpus" (Or.inl rfl)
      (by decide)).2.1 MapIter.insertion rfl,
    rfl⟩

/-! ## `FillFromDetails` and `ClearTaskInfo` -/

theorem ClearTaskInfo_eq (t : PodTask) (pod : Pod) (taskInfo : TaskInfo)
    (hpod : t.Pod = some pod) (hti : t.TaskInfo = some taskInfo) :
    t.ClearTaskInfo =
      ({ t with
          Offer := none
          TaskInfo := some { taskInfo with
            TaskId := none, SlaveId := none, Resources := none, Data := none }
          ports := none }, .ret ()) := by
  simp only [PodTask.ClearTaskInfo, hpod, hti]

/-- The binding fields `FillFromDetails` writes before it calls the mapper are
among those `ClearTaskInfo` resets. -/
theorem ClearTaskInfo_fillTask (t : PodTask) (pod : Pod) (taskInfo : TaskInfo) (d : Offer)
    (hpod : t.Pod = some pod) (hti : t.TaskInfo = some taskInfo) :
    (fillTask t d taskInfo).ClearTaskInfo = t.ClearTaskInfo := by
  rw [ClearTaskInfo_eq t pod taskInfo hpod hti,
    ClearTaskInfo_eq (fillTask t d taskInfo) pod (fillTaskInfo t.ID d taskInfo) hpod rfl]
  rfl

/-- The default mapper reads the pod of the task only. -/
theorem mapHostPorts_congr (it : MapIter) (t1 t2 : PodTaskData) (offer : Option Offer)
    (h : t1.Pod = t2.Pod) : mapHostPorts it t1 offer = mapHostPorts it t2 offer := by
  simp only [mapHostPorts, h]

/-- The default mapper reads the pod of the task only, and writes nothing: the
fields that `FillFromDetails` writes before the call do not change its result, and
the task is left as it is handed. -/
theorem callMapper_fillTask_default (it : MapIter) (t : PodTask) (d : Offer)
    (taskInfo : TaskInfo) (offer : Option Offer)
    (hmapper : t.mapper = some (defaultHostPortMapping it)) :
    (fillTask t d taskInfo).callMapper offer =
      (fillTask t d taskInfo, mapHostPorts it t.toPodTaskData offer) := by
  have h1 : (fillTask t d taskInfo).mapper = some (defaultHostPortMapping it) := hmapper
  rw [callMapper_default it _ offer h1]
  rw [mapHostPorts_congr it (fillTask t d taskInfo).toPodTaskData t.toPodTaskData offer rfl]

/-- When the mapper returns an error and leaves a pod and a `TaskInfo` in the task,
`FillFromDetails` returns the error and leaves the task as `ClearTaskInfo` makes
it. -/
theorem FillFromDetails_of_error (rangeResource : String → List Nat → Option Resource)
    (t t2 : PodTask) (pod pod2 : Pod) (taskInfo taskInfo2 : TaskInfo) (d : Offer)
    (m : Option (List hostPortMapping)) (e : MapError)
    (hpod : t.Pod = some pod) (hti : t.TaskInfo = some taskInfo)
    (herr : (fillTask t d taskInfo).callMapper (some d) = (t2, .ret (m, some e)))
    (hpod2 : t2.Pod = some pod2) (hti2 : t2.TaskInfo = some taskInfo2) :
    t.FillFromDetails rangeResource (some d) = (t2.ClearTaskInfo.1, .ret (some e)) := by
  simp only [PodTask.FillFromDetails, hpod, hti, herr]
  rw [ClearTaskInfo_eq t2 pod2 taskInfo2 hpod2 hti2]

/-- When the mapper succeeds and leaves the `TaskInfo` as it is handed,
`FillFromDetails` returns nil and keeps the task of the mapper, with the ports of
the mapping and the ports resource of the helper. -/
theorem FillFromDetails_of_ok (rangeResource : String → List Nat → Option Resource)
    (t t2 : PodTask) (pod : Pod) (taskInfo : TaskInfo) (d : Offer)
    (m : Option (List hostPortMapping))
    (hpod : t.Pod = some pod) (hti : t.TaskInfo = some taskInfo)
    (hok : (fillTask t d taskInfo).callMapper (some d) = (t2, .ret (m, none)))
    (hti2 : t2.TaskInfo = some (fillTaskInfo t.ID d taskInfo)) :
    t.FillFromDetails rangeResource (some d) =
      ({ t2 with
          ports := m
          TaskInfo := some { fillTaskInfo t.ID d taskInfo with
            Resources := some (ScalarResource "cpus" containerCpus ::
              ScalarResource "mem" containerMem ::
              (rangeResource "ports"
                ((m.getD []).map hostPortMapping.offerPort)).toList) } },
        .ret none) := by
  cases hrr : rangeResource "ports" ((m.getD []).map hostPortMapping.offerPort) with
  | none =>
    simp only [PodTask.FillFromDetails, hpod, hti, hok, hrr]
    obtain ⟨⟨id, p, ti, off, la, de, key, ct, lt, bt, po⟩, mp⟩ := t2
    simp only at hti2
    subst hti2
    rfl
  | some portsRes =>
    simp only [PodTask.FillFromDetails, hpod, hti, hok, hrr, hti2]
    rfl

/-- C8, as stated, fails, in four ways. With a nil `TaskInfo`: the default mapper
returns a DuplicateHostPortError for the pod, yet the write of line 55 panics.
With a mapper that reads the task descriptor: it returns an error for the task as
it is before the call, whose `TaskId` is nil, and none for the task it is handed,
whose `TaskId` line 55 has set; `FillFromDetails` returns nil and
`hasAcceptedOffer()` is true. With a mapper that sets `TaskInfo` to nil and returns
an error: `ClearTaskInfo` panics at line 62 and no error is returned. With a
mapper that marks the task launched and returns an error: `FillFromDetails` returns
the error, and the task is launched, which the task `ClearTaskInfo` makes of the
task before the call is not. -/
theorem FillFromDetails_error_as_stated_fails :
    ((bareTask clashPod).Pod = some clashPod ∧
      ((bareTask clashPod).callMapper (some offerA)).2 =
        .ret (none, some (.DuplicateHostPortError ⟨0, 0, 8080⟩ ⟨1, 1, 8080⟩)) ∧
      ((bareTask clashPod).FillFromDetails sampleRangeResource (some offerA)).2 =
        .fault nilDeref) ∧
    (((taskIdTask webPod false).callMapper (some offerA)).2 =
        .ret (none, some (.other "refused")) ∧
      ((taskIdTask webPod false).FillFromDetails sampleRangeResource (some offerA)).2 =
        .ret none ∧
      ((taskIdTask webPod false).FillFromDetails sampleRangeResource
        (some offerA)).1.hasAcceptedOffer = true) ∧
    (((mapperTask webPod (strippingMapper true)).callMapper (some offerA)).2 =
        .ret (none, some (.other "refused")) ∧
      ((mapperTask webPod (strippingMapper true)).FillFromDetails sampleRangeResource
        (some offerA)).2 = .fault nilDeref) ∧
    (((mapperTask webPod launchingMapper).callMapper (some offerA)).2 =
        .ret (none, some (.other "refused")) ∧
      ((mapperTask webPod launchingMapper).FillFromDetails sampleRangeResource
        (some offerA)).2 = .ret (some (.other "refused")) ∧
      ((mapperTask webPod launchingMapper).FillFromDetails sampleRangeResource
        (some offerA)).1.launched = true ∧
      (mapperTask webPod launchingMapper).ClearTaskInfo.1.launched = false) := by
  refine ⟨⟨rfl, by rfl, by rfl⟩, ⟨by rfl, by rfl, by rfl⟩, ⟨by rfl, by rfl⟩,
    ⟨by rfl, by rfl, by rfl, by rfl⟩⟩

/-- C8 (amended): for every task with a non-nil pod and a non-nil `TaskInfo` and
every non-nil details for which the mapper, called as `FillFromDetails` calls it,
returns an error `e` and leaves a pod and a `TaskInfo` in the task,
`FillFromDetails` returns exactly `e`, and afterwards `Offer` is nil,
`TaskInfo.TaskId`, `SlaveId`, `Resources` and `Data` are nil and `ports` is nil,
so that `hasAcceptedOffer()` is false and `GetOfferId()` is "": the task is the
one `ClearTaskInfo` makes of the task as the mapper leaves it, which is the one
`ClearTaskInfo` makes of the task before the call when the mapper has written
nothing, or only what `ClearTaskInfo` resets. -/
theorem FillFromDetails_error (rangeResource : String → List Nat → Option Resource)
    (t t2 : PodTask) (pod pod2 : Pod) (taskInfo taskInfo2 : TaskInfo) (d : Offer)
    (m : Option (List hostPortMapping)) (e : MapError)
    (hpod : t.Pod = some pod) (hti : t.TaskInfo = some taskInfo)
    (herr : (fillTask t d taskInfo).callMapper (some d) = (t2, .ret (m, some e)))
    (hpod2 : t2.Pod = some pod2) (hti2 : t2.TaskInfo = some taskInfo2) :
    ∃ t1, t.FillFromDetails rangeResource (some d) = (t1, .ret (some e)) ∧
      t1.Offer = none ∧
      (∃ taskInfo1, t1.TaskInfo = some taskInfo1 ∧ taskInfo1.TaskId = none ∧
        taskInfo1.SlaveId = none ∧ taskInfo1.Resources = none ∧ taskInfo1.Data = none) ∧
      t1.ports = none ∧ t1.hasAcceptedOffer = false ∧ t1.GetOfferId = .ret "" ∧
      t2.ClearTaskInfo = (t1, .ret ()) ∧
      (t2.ClearTaskInfo = (fillTask t d taskInfo).ClearTaskInfo →
        t.ClearTaskInfo = (t1, .ret ())) := by
  have hfill := FillFromDetails_of_error rangeResource t t2 pod pod2 taskInfo taskInfo2 d m e
    hpod hti herr hpod2 hti2
  have hclear := ClearTaskInfo_fillTask t pod taskInfo d hpod hti
  rw [← hclear]
  rw [ClearTaskInfo_eq t2 pod2 taskInfo2 hpod2 hti2] at hfill ⊢
  exact ⟨_, hfill, rfl, ⟨_, rfl, rfl, rfl, rfl, rfl⟩, rfl, rfl, rfl, rfl, fun h => h.symm⟩

/-- C8 (amended), at the pod whose two containers ask for port 8080, with the
default mapper, and at the pod "web" with a mapper that marks the task launched
and returns an error. -/
theorem FillFromDetails_error_witness :
    (∃ t1, (podTask clashPod).FillFromDetails sampleRangeResource (some offerA) =
        (t1, .ret (some (.DuplicateHostPortError ⟨0, 0, 8080⟩ ⟨1, 1, 8080⟩))) ∧
      t1.Offer = none ∧
      (∃ taskInfo1, t1.TaskInfo = some taskInfo1 ∧ taskInfo1.TaskId = none ∧
        taskInfo1.SlaveId = none ∧ taskInfo1.Resources = none ∧ taskInfo1.Data = none) ∧
      t1.ports = none ∧ t1.hasAcceptedOffer = false ∧ t1.GetOfferId = .ret "" ∧
      (podTask clashPod).ClearTaskInfo = (t1, .ret ())) ∧
    (∃ t1, (mapperTask webPod launchingMapper).FillFromDetails sampleRangeResource
        (some offerA) = (t1, .ret (some (.other "refused"))) ∧
      t1.Offer = none ∧ t1.ports = none ∧ t1.hasAcceptedOffer = false ∧
      t1.GetOfferId = .ret "") := by
  constructor
  · obtain ⟨t1, h1, h2, h3, h4, h5, h6, _, h8⟩ :=
      FillFromDetails_error sampleRangeResource (podTask clashPod)
        (fillTask (podTask clashPod) offerA { Name := some "PodTask" }) clashPod clashPod
        { Name := some "PodTask" } (fillTaskInfo "task-1" offerA { Name := some "PodTask" })
        offerA none _ rfl rfl (by rfl) rfl rfl
    exact ⟨t1, h1, h2, h3, h4, h5, h6, h8 rfl⟩
  · obtain ⟨t1, h1, h2, _, h4, h5, h6, _, _⟩ :=
      FillFromDetails_error sampleRangeResource (mapperTask webPod launchingMapper)
        { fillTask (mapperTask webPod launchingMapper) offerA { Name := some "PodTask" } with
          launched := true } webPod webPod
        { Name := some "PodTask" } (fillTaskInfo "task-1" offerA { Name := some "PodTask" })
        offerA none (.other "refused") rfl rfl (by rfl) rfl rfl
    exact ⟨t1, h1, h2, h4, h5, h6⟩

/-- C9, as stated, fails, in four ways. With a nil `TaskInfo`: the default mapper
succeeds with the assignment of port 8080, yet the write of line 55 panics, the
task being left as it was. With a mapper that reads the task descriptor: it
succeeds for the task as it is before the call, whose `TaskId` is nil, and
returns an error for the task it is handed, whose `TaskId` line 55 has set;
`FillFromDetails` returns that error and `hasAcceptedOffer()` is false. With a
mapper that clears `TaskInfo.TaskId` and succeeds: `FillFromDetails` returns nil
and `hasAcceptedOffer()` is false. With a mapper that sets `TaskInfo` to nil and
succeeds with port 8080: the append of line 71 panics. -/
theorem FillFromDetails_success_as_stated_fails :
    ((bareTask webPod).Pod = some webPod ∧
      ((bareTask webPod).callMapper (some offerA)).2 = .ret (some [⟨0, 0, 8080⟩], none) ∧
      ((bareTask webPod).FillFromDetails sampleRangeResource (some offerA)).2 =
        .fault nilDeref ∧
      ((bareTask webPod).FillFromDetails sampleRangeResource (some offerA)).1.hasAcceptedOffer =
        false) ∧
    (((taskIdTask webPod true).callMapper (some offerA)).2 = .ret (some [], none) ∧
      ((taskIdTask webPod true).FillFromDetails sampleRangeResource (some offerA)).2 =
        .ret (some (.other "refused")) ∧
      ((taskIdTask webPod true).FillFromDetails sampleRangeResource
        (some offerA)).1.hasAcceptedOffer = false) ∧
    (((mapperTask webPod unbindingMapper).callMapper (some offerA)).2 =
        .ret (some [], none) ∧
      ((mapperTask webPod unbindingMapper).FillFromDetails sampleRangeResource
        (some offerA)).2 = .ret none ∧
      ((mapperTask webPod unbindingMapper).FillFromDetails sampleRangeResource
        (some offerA)).1.hasAcceptedOffer = false) ∧
    (((mapperTask webPod (strippingMapper false)).callMapper (some offerA)).2 =
        .ret (some [⟨0, 0, 8080⟩], none) ∧
      ((mapperTask webPod (strippingMapper false)).FillFromDetails sampleRangeResource
        (some offerA)).2 = .fault nilDeref) := by
  refine ⟨⟨rfl, by rfl, by rfl, by rfl⟩, ⟨by rfl, by rfl, by rfl⟩,
    ⟨by rfl, by rfl, by rfl⟩, ⟨by rfl, by rfl⟩⟩

/-- C9 (amended): for every task with a non-nil pod and a non-nil `TaskInfo` and
every non-nil details on which the mapper, called as `FillFromDetails` calls it,
succeeds with assignment `m` and leaves `TaskInfo` and `Offer` of the task as it
is handed them, `FillFromDetails` returns nil and afterwards `hasAcceptedOffer()`
is true, `TaskInfo.TaskId` is the identifier made of the ID of the task,
`TaskInfo.SlaveId` is the slave id of the details, `ports` is `m`,
`TaskInfo.Resources` is the scalar resource cpus = 0.25, then the scalar resource
mem = 64, then the ports resource if the helper makes one, and `Offer` is as it
was before the call. -/
theorem FillFromDetails_success (rangeResource : String → List Nat → Option Resource)
    (t t2 : PodTask) (pod : Pod) (taskInfo : TaskInfo) (d : Offer)
    (m : Option (List hostPortMapping))
    (hpod : t.Pod = some pod) (hti : t.TaskInfo = some taskInfo)
    (hok : (fillTask t d taskInfo).callMapper (some d) = (t2, .ret (m, none)))
    (hti2 : t2.TaskInfo = (fillTask t d taskInfo).TaskInfo)
    (hoffer2 : t2.Offer = (fillTask t d taskInfo).Offer) :
    ∃ t1, t.FillFromDetails rangeResource (some d) = (t1, .ret none) ∧
      t1.hasAcceptedOffer = true ∧
      (∃ taskInfo1, t1.TaskInfo = some taskInfo1 ∧
        taskInfo1.TaskId = some { Value := some t.ID } ∧
        taskInfo1.SlaveId = d.GetSlaveId ∧
        taskInfo1.Resources = some
          (ScalarResource "cpus" (.finite (1 / 4)) :: ScalarResource "mem" 64 ::
            (rangeResource "ports"
              ((m.getD []).map hostPortMapping.offerPort)).toList)) ∧
      t1.ports = m ∧ t1.Offer = t.Offer := by
  exact ⟨_, FillFromDetails_of_ok rangeResource t t2 pod taskInfo d m hpod hti hok hti2, rfl,
    ⟨_, rfl, rfl, rfl, rfl⟩, rfl, hoffer2⟩

/-- C9 (amended), at the pod "web" and offer A, a task that holds an offer. -/
theorem FillFromDetails_success_witness :
    ∃ t1, ({ podTask webPod with Offer := some { Details := some offerA } } :
          PodTask).FillFromDetails sampleRangeResource (some offerA) = (t1, .ret none) ∧
      t1.hasAcceptedOffer = true ∧
      (∃ taskInfo1, t1.TaskInfo = some taskInfo1 ∧
        taskInfo1.TaskId = some { Value := some "task-1" } ∧
        taskInfo1.SlaveId = offerA.GetSlaveId ∧
        taskInfo1.Resources = some
          (ScalarResource "cpus" (.finite (1 / 4)) :: ScalarResource "mem" 64 ::
            (sampleRangeResource "ports"
              (((some [(⟨0, 0, 8080⟩ : hostPortMapping)]).getD []).map
                hostPortMapping.offerPort)).toList)) ∧
      t1.ports = some [⟨0, 0, 8080⟩] ∧ t1.Offer = some { Details := some offerA } :=
  FillFromDetails_success sampleRangeResource
    { podTask webPod with Offer := some { Details := some offerA } }
    (fillTask { podTask webPod with Offer := some { Details := some offerA } } offerA
      { Name := some "PodTask" }) webPod
    { Name := some "PodTask" } offerA (some [⟨0, 0, 8080⟩]) rfl rfl (by rfl) rfl rfl

/-- The round trip of C10, for a mapper call that leaves the task as it is
handed. -/
theorem FillFromDetails_ClearTaskInfo_of_call
    (rangeResource : String → List Nat → Option Resource)
    (t : PodTask) (pod : Pod) (taskInfo : TaskInfo) (d : Offer)
    (hpod : t.Pod = some pod) (hti : t.TaskInfo = some taskInfo)
    (hclear : t.ClearTaskInfo = (t, .ret ()))
    (hcall : ((fillTask t d taskInfo).callMapper (some d)).1 = fillTask t d taskInfo) :
    (t.FillFromDetails rangeResource (some d)).1.ClearTaskInfo = (t, .ret ()) ∧
      (∀ r, ((fillTask t d taskInfo).callMapper (some d)).2 = .ret r →
        ∃ e, (t.FillFromDetails rangeResource (some d)).2 = .ret e) := by
  have hfilled : (fillTask t d taskInfo).ClearTaskInfo = (t, .ret ()) := by
    rw [ClearTaskInfo_fillTask t pod taskInfo d hpod hti, hclear]
  rcases hmap : (fillTask t d taskInfo).callMapper (some d) with ⟨t2, res⟩
  rw [hmap] at hcall
  simp only at hcall
  subst hcall
  constructor
  · cases res with
    | fault msg =>
      simp only [PodTask.FillFromDetails, hpod, hti, hmap]
      exact hfilled
    | ret r =>
      obtain ⟨m, err⟩ := r
      cases err with
      | some e =>
        rw [FillFromDetails_of_error rangeResource t _ pod pod taskInfo _ d m e hpod hti hmap
          hpod rfl, hfilled]
        exact hclear
      | none =>
        rw [FillFromDetails_of_ok rangeResource t _ pod taskInfo d m hpod hti hmap rfl,
          ← hfilled]
        simp only [PodTask.ClearTaskInfo, fillTask, hpod]
  · intro r hr
    simp only at hr
    subst hr
    obtain ⟨m, err⟩ := r
    cases err with
    | some e =>
      exact ⟨some e, by
        rw [FillFromDetails_of_error rangeResource t _ pod pod taskInfo _ d m e hpod hti hmap
          hpod rfl]⟩
    | none =>
      exact ⟨none, by
        rw [FillFromDetails_of_ok rangeResource t _ pod taskInfo d m hpod hti hmap rfl]⟩

/-- C10: for a task in the unbound state the constructor leaves (a pod, a
`TaskInfo` whose `TaskId`, `SlaveId`, `Resources` and `Data` are nil, no offer, no
ports, the default mapper) and every non-nil details, `FillFromDetails` followed
by `ClearTaskInfo` gives back the task, equal in every field, with
`hasAcceptedOffer()` false and `GetOfferId()` empty, whatever `FillFromDetails`
produced; and `FillFromDetails` returns whenever the mapper does. The same holds
with any other mapper, or none, whose call leaves the task as it is handed. -/
theorem FillFromDetails_then_ClearTaskInfo
    (rangeResource : String → List Nat → Option Resource)
    (t : PodTask) (pod : Pod) (taskInfo : TaskInfo) (d : Offer)
    (hpod : t.Pod = some pod) (hti : t.TaskInfo = some taskInfo) (hoffer : t.Offer = none)
    (hid : taskInfo.TaskId = none) (hslave : taskInfo.SlaveId = none)
    (hres : taskInfo.Resources = none) (hdata : taskInfo.Data = none)
    (hports : t.ports = none) :
    t.hasAcceptedOffer = false ∧ t.GetOfferId = .ret "" ∧
    ((∃ it, t.mapper = some (defaultHostPortMapping it)) →
      (t.FillFromDetails rangeResource (some d)).1.ClearTaskInfo = (t, .ret ()) ∧
      (∀ r, ((fillTask t d taskInfo).callMapper (some d)).2 = .ret r →
        ∃ e, (t.FillFromDetails rangeResource (some d)).2 = .ret e)) ∧
    (((fillTask t d taskInfo).callMapper (some d)).1 = fillTask t d taskInfo →
      (t.FillFromDetails rangeResource (some d)).1.ClearTaskInfo = (t, .ret ()) ∧
      (∀ r, ((fillTask t d taskInfo).callMapper (some d)).2 = .ret r →
        ∃ e, (t.FillFromDetails rangeResource (some d)).2 = .ret e)) := by
  have hclear : t.ClearTaskInfo = (t, .ret ()) := by
    rw [ClearTaskInfo_eq t pod taskInfo hpod hti]
    obtain ⟨⟨id, p, ti, off, la, de, key, ct, lt, bt, po⟩, mp⟩ := t
    obtain ⟨nm, tid, sid, rs, ex, da⟩ := taskInfo
    simp only at hpod hti hoffer hid hslave hres hdata hports
    subst hti hoffer hid hslave hres hdata hports
    rfl
  have hacc : t.hasAcceptedOffer = false := by
    simp [PodTask.hasAcceptedOffer, hti, hid]
  have hgoi : t.GetOfferId = .ret "" := by
    simp [PodTask.GetOfferId, hoffer]
  refine ⟨hacc, hgoi, ?_, ?_⟩
  · rintro ⟨it, hit⟩
    exact FillFromDetails_ClearTaskInfo_of_call rangeResource t pod taskInfo d hpod hti hclear
      (by rw [callMapper_fillTask_default it t d taskInfo _ hit])
  · exact FillFromDetails_ClearTaskInfo_of_call rangeResource t pod taskInfo d hpod hti hclear

/-- C10, at the pod "web": a bind that succeeds (offer A) and one that fails
(offer B), each followed by `ClearTaskInfo`. -/
theorem FillFromDetails_then_ClearTaskInfo_witness :
    (((podTask webPod).FillFromDetails sampleRangeResource (some offerA)).2 = .ret none ∧
      ((podTask webPod).FillFromDetails sampleRangeResource (some offerA)).1.ClearTaskInfo =
        (podTask webPod, .ret ())) ∧
    (((podTask webPod).FillFromDetails sampleRangeResource (some offerB)).2 =
        .ret (some (.PortAllocationError "web" [8080])) ∧
      ((podTask webPod).FillFromDetails sampleRangeResource (some offerB)).1.ClearTaskInfo =
        (podTask webPod, .ret ())) :=
  ⟨⟨by rfl,
      ((FillFromDetails_then_ClearTaskInfo sampleRangeResource (podTask webPod) webPod
        { Name := some "PodTask" } offerA rfl rfl rfl rfl rfl rfl rfl rfl).2.2.1
          ⟨MapIter.insertion, rfl⟩).1⟩,
    ⟨by rfl,
      ((FillFromDetails_then_ClearTaskInfo sampleRangeResource (podTask webPod) webPod
        { Name := some "PodTask" } offerB rfl rfl rfl rfl rfl rfl rfl rfl).2.2.1
          ⟨MapIter.insertion, rfl⟩).1⟩⟩

/-! ## The task: further claims -/

/-- C11: for a task that uses the default mapper and every offer, nil or not,
`AcceptOffer` leaves the task as it was, in every field, whatever it produces
(true, false, or the panic of a call it makes). -/
theorem AcceptOffer_no_mutation (it : MapIter) (t : PodTask) (offer : Option Offer)
    (hmapper : t.mapper = some (defaultHostPortMapping it)) :
    (t.AcceptOffer offer).1 = t ∧
      ((t.AcceptOffer offer).2 = .ret true → (t.AcceptOffer offer).1 = t) ∧
      ((t.AcceptOffer offer).2 = .ret false → (t.AcceptOffer offer).1 = t) := by
  have h : (t.AcceptOffer offer).1 = t := by
    unfold PodTask.AcceptOffer
    cases offer with
    | none => rfl
    | some o =>
      simp only [callMapper_default it t _ hmapper]
      cases scanScalars o.Resources (0, 0) with
      | fault msg => rfl
      | ret s =>
        obtain ⟨cpus, mem⟩ := s
        simp only
        cases mapHostPorts it t.toPodTaskData (some o) with
        | fault msg => rfl
        | ret r =>
          obtain ⟨m, err⟩ := r
          cases err with
          | some e => rfl
          | none =>
            simp only
            split <;> rfl
  exact ⟨h, fun _ => h, fun _ => h⟩

/-- C11, at a task that holds an offer and is launched: offer A is accepted,
offer B and a nil offer are not, and the task is as before each time. -/
theorem AcceptOffer_no_mutation_witness :
    (boundTask.AcceptOffer (some offerA)).1 = boundTask ∧
      (boundTask.AcceptOffer (some offerB)).1 = boundTask ∧
      (boundTask.AcceptOffer none).1 = boundTask :=
  ⟨(AcceptOffer_no_mutation MapIter.insertion boundTask (some offerA) rfl).1,
    (AcceptOffer_no_mutation MapIter.insertion boundTask (some offerB) rfl).1,
    (AcceptOffer_no_mutation MapIter.insertion boundTask none rfl).1⟩

/-- C13, as stated, fails. A task with a nil pod that holds an accepted offer:
the log statement of line 80 panics and nothing is cleared, `GetOfferId()` is
still the id of the offer and `hasAcceptedOffer()` is still true. A task with a
pod and a nil `TaskInfo`: line 82 panics after `Offer` is cleared, and `ports` is
left as it was. -/
theorem ClearTaskInfo_unbound_as_stated_fails :
    (podlessTask.ClearTaskInfo = (podlessTask, .fault nilDeref) ∧
      podlessTask.ClearTaskInfo.1.GetOfferId = .ret "offer-1" ∧
      podlessTask.ClearTaskInfo.1.hasAcceptedOffer = true) ∧
    (descriptorlessTask.ClearTaskInfo.2 = .fault nilDeref ∧
      descriptorlessTask.ClearTaskInfo.1.Offer = none ∧
      descriptorlessTask.ClearTaskInfo.1.ports = some [⟨0, 0, 8080⟩]) := by
  refine ⟨⟨rfl, by decide, by decide⟩, ⟨rfl, rfl, rfl⟩⟩

/-- C13 (amended): from every state of a task with a non-nil pod and a non-nil
`TaskInfo` (unbound, holding an accepted offer, launched or marked deleted),
`ClearTaskInfo` returns and afterwards the task is unbound: `Offer` is nil and
`GetOfferId()` is "", `TaskInfo.TaskId` and `TaskInfo.SlaveId` are nil and
`hasAcceptedOffer()` is false, `TaskInfo.Resources` and `TaskInfo.Data` are nil,
and `ports` is nil. -/
theorem ClearTaskInfo_unbound (t : PodTask) (pod : Pod) (taskInfo : TaskInfo)
    (hpod : t.Pod = some pod) (hti : t.TaskInfo = some taskInfo) :
    ∃ t1, t.ClearTaskInfo = (t1, .ret ()) ∧
      t1.Offer = none ∧ t1.GetOfferId = .ret "" ∧
      (∃ taskInfo1, t1.TaskInfo = some taskInfo1 ∧ taskInfo1.TaskId = none ∧
        taskInfo1.SlaveId = none ∧ taskInfo1.Resources = none ∧ taskInfo1.Data = none) ∧
      t1.hasAcceptedOffer = false ∧ t1.ports = none := by
  rw [ClearTaskInfo_eq t pod taskInfo hpod hti]
  exact ⟨_, rfl, rfl, rfl, ⟨_, rfl, rfl, rfl, rfl, rfl⟩, rfl, rfl⟩

/-- C13 (amended), at a task that holds an accepted offer and is launched and
marked deleted. -/
theorem ClearTaskInfo_unbound_witness :
    boundTask.hasAcceptedOffer = true ∧ boundTask.GetOfferId = .ret "offer-1" ∧
    ∃ t1, boundTask.ClearTaskInfo = (t1, .ret ()) ∧
      t1.Offer = none ∧ t1.GetOfferId = .ret "" ∧
      (∃ taskInfo1, t1.TaskInfo = some taskInfo1 ∧ taskInfo1.TaskId = none ∧
        taskInfo1.SlaveId = none ∧ taskInfo1.Resources = none ∧ taskInfo1.Data = none) ∧
      t1.hasAcceptedOffer = false ∧ t1.ports = none :=
  ⟨by decide, by decide, ClearTaskInfo_unbound boundTask webPod _ rfl rfl⟩

/-- C16: for every task, `FillFromDetails` with nil details panics with the
message of line 50, returns no error value, and leaves every field of the task
as it was. -/
theorem FillFromDetails_nil_details
    (rangeResource : String → List Nat → Option Resource) (t : PodTask) :
    t.FillFromDetails rangeResource none = (t, .fault "offer details are nil") ∧
      (∀ e, (t.FillFromDetails rangeResource none).2 ≠ .ret e) := by
  refine ⟨rfl, ?_⟩
  intro e h
  cases h

/-- C20: for every task, `ClearTaskInfo` leaves `ID`, `Pod`, the presence and the
`Name` and `Executor` of `TaskInfo`, `podKey`, `mapper`, `launched`, `deleted`,
`createTime`, `launchTime` and `bindTime` as they were, and a second
`ClearTaskInfo` changes nothing more and produces what the first did. -/
theorem ClearTaskInfo_frame (t : PodTask) :
    t.ClearTaskInfo.1.ID = t.ID ∧ t.ClearTaskInfo.1.Pod = t.Pod ∧
      t.ClearTaskInfo.1.TaskInfo.isSome = t.TaskInfo.isSome ∧
      t.ClearTaskInfo.1.TaskInfo.bind (fun ti => ti.Executor) =
        t.TaskInfo.bind (fun ti => ti.Executor) ∧
      t.ClearTaskInfo.1.TaskInfo.bind (fun ti => ti.Name) =
        t.TaskInfo.bind (fun ti => ti.Name) ∧
      t.ClearTaskInfo.1.podKey = t.podKey ∧ t.ClearTaskInfo.1.mapper = t.mapper ∧
      t.ClearTaskInfo.1.launched = t.launched ∧ t.ClearTaskInfo.1.deleted = t.deleted ∧
      t.ClearTaskInfo.1.createTime = t.createTime ∧
      t.ClearTaskInfo.1.launchTime = t.launchTime ∧
      t.ClearTaskInfo.1.bindTime = t.bindTime ∧
      t.ClearTaskInfo.1.ClearTaskInfo = t.ClearTaskInfo := by
  cases hpod : t.Pod with
  | none =>
    have h : t.ClearTaskInfo = (t, .fault nilDeref) := by
      simp only [PodTask.ClearTaskInfo, hpod]
    rw [h]
    exact ⟨rfl, hpod, rfl, rfl, rfl, rfl, rfl, rfl, rfl, rfl, rfl, rfl, h⟩
  | some pod =>
    cases hti : t.TaskInfo with
    | none =>
      have h : t.ClearTaskInfo = ({ t with Offer := none }, .fault nilDeref) := by
        simp only [PodTask.ClearTaskInfo, hpod, hti]
      have h1 : ({ t with Offer := none } : PodTask).ClearTaskInfo =
          ({ t with Offer := none }, .fault nilDeref) := by
        simp only [PodTask.ClearTaskInfo, hpod, hti]
      rw [h]
      exact ⟨rfl, hpod, by rw [← hti], by rw [← hti], by rw [← hti], rfl, rfl, rfl, rfl, rfl,
        rfl, rfl, h1⟩
    | some taskInfo =>
      rw [ClearTaskInfo_eq t pod taskInfo hpod hti]
      refine ⟨rfl, hpod, rfl, rfl, rfl, rfl, rfl, rfl, rfl, rfl, rfl, rfl, ?_⟩
      simp only [PodTask.ClearTaskInfo, hpod]

/-! ## The port mapper: order of iteration and faults -/

/-- The duplicate error is found before the offer and the map are walked: it is
the same for every offer and every iteration order. -/
theorem mapper_dup_uniform (t : PodTaskData) (pod : Pod) (hpod : t.Pod = some pod)
    (hdup : ¬ ((podEntries pod).map hostPortMapping.offerPort).Nodup) :
    ∃ m1 m2, ∀ (it : MapIter) (offer : Option Offer),
      mapHostPorts it t offer =
        .ret (none, some (.DuplicateHostPortError m1 m2)) := by
  obtain ⟨_, m2, _, m1, _, _, _, _, hres⟩ :=
    insertAll_dup (podEntries pod) [] (by simp) (by simpa using hdup)
  refine ⟨m1, m2, fun it offer => ?_⟩
  have hscan : scanContainers pod.Spec.Containers 0 [] =
      .error (.DuplicateHostPortError m1 m2) := by
    rw [scanContainers_eq_insertAll]
    exact hres
  simp only [mapHostPorts, hpod, hscan]

theorem inRanges_perm {a b : List Value_Range} (h : a.Perm b) (p : Nat) :
    inRanges a p = inRanges b p := by
  rw [Bool.eq_iff_iff]
  simp only [inRanges, List.any_eq_true]
  constructor
  · rintro ⟨r, hr, hc⟩
    exact ⟨r, h.mem_iff.mp hr, hc⟩
  · rintro ⟨r, hr, hc⟩
    exact ⟨r, h.mem_iff.mpr hr, hc⟩

/-- The result of the default mapper on two offers with the same ranges in any
order, under two iteration orders: two assignments with the same entries, or one
duplicate error, or two allocation errors with the same ports. -/
theorem mapper_order_independent (it1 it2 : MapIter) (t : PodTaskData) (pod : Pod)
    (o1 o2 : Offer) (hpod : t.Pod = some pod)
    (hwf1 : o1.PortsHaveRanges) (hwf2 : o2.PortsHaveRanges)
    (hperm : (portRanges o1.Resources).Perm (portRanges o2.Resources)) :
    (∃ m1 m2, mapHostPorts it1 t (some o1) = .ret (some m1, none) ∧
        mapHostPorts it2 t (some o2) = .ret (some m2, none) ∧ m1.Perm m2) ∨
    (∃ a b, mapHostPorts it1 t (some o1) =
          .ret (none, some (.DuplicateHostPortError a b)) ∧
        mapHostPorts it2 t (some o2) =
          .ret (none, some (.DuplicateHostPortError a b))) ∨
    (∃ ps1 ps2, mapHostPorts it1 t (some o1) =
          .ret (none, some (.PortAllocationError pod.Name ps1)) ∧
        mapHostPorts it2 t (some o2) =
          .ret (none, some (.PortAllocationError pod.Name ps2)) ∧ ps1.Perm ps2) := by
  by_cases hnd : ((podEntries pod).map hostPortMapping.offerPort).Nodup
  swap
  · obtain ⟨a, b, h⟩ := mapper_dup_uniform t pod hpod hnd
    exact Or.inr (Or.inl ⟨a, b, h it1 _, h it2 _⟩)
  obtain ⟨mv1, k1, hp1, hr1⟩ := mapper_nodup it1 t pod hpod o1 hnd hwf1
  obtain ⟨mv2, k2, hp2, hr2⟩ := mapper_nodup it2 t pod hpod o2 hnd hwf2
  have hfun : (fun m : hostPortMapping => inRanges (portRanges o2.Resources) m.offerPort) =
      (fun m => inRanges (portRanges o1.Resources) m.offerPort) := by
    funext m
    exact (inRanges_perm hperm m.offerPort).symm
  have hfun1 : (fun m : hostPortMapping => !inRanges (portRanges o2.Resources) m.offerPort) =
      (fun m => !inRanges (portRanges o1.Resources) m.offerPort) := by
    funext m
    rw [inRanges_perm hperm m.offerPort]
  rw [hfun] at hp2
  rw [hfun1] at hr2
  by_cases hlen : ((podEntries pod).filter
      (fun m => !inRanges (portRanges o1.Resources) m.offerPort)).length > 0
  · rw [if_pos hlen] at hr1 hr2
    refine Or.inr (Or.inr ⟨_, _, hr1, hr2, ?_⟩)
    exact ((it1.perm k1 _).map Prod.fst).trans ((it2.perm k2 _).map Prod.fst).symm
  · rw [if_neg hlen] at hr1 hr2
    exact Or.inl ⟨mv1, mv2, hr1, hr2, hp1.trans hp2.symm⟩

/-- The outcomes of the default mapper on two offers with the same ranges, under
two iteration orders, for every task: the same up to the order of the entries. -/
theorem mapper_same_outcome (it1 it2 : MapIter) (t : PodTaskData) (o1 o2 : Offer)
    (hsame : o1.SameRanges o2) :
    SameOutcome (mapHostPorts it1 t (some o1)) (mapHostPorts it2 t (some o2)) := by
  cases hpod : t.Pod with
  | none =>
    refine Or.inr (Or.inr (Or.inr ⟨"task.Pod is nil", ?_, ?_⟩)) <;>
      simp only [mapHostPorts, hpod]
  | some pod =>
    by_cases hnd : ((podEntries pod).map hostPortMapping.offerPort).Nodup
    swap
    · obtain ⟨a, b, h⟩ := mapper_dup_uniform t pod hpod hnd
      exact Or.inr (Or.inl ⟨a, b, h it1 _, h it2 _⟩)
    by_cases hwf1 : o1.PortsHaveRanges
    · rcases mapper_order_independent it1 it2 t pod o1 o2 hpod hwf1 (hsame.2.mp hwf1)
        hsame.1 with ⟨m1, m2, h1, h2, hp⟩ | ⟨a, b, h1, h2⟩ | ⟨ps1, ps2, h1, h2, hp⟩
      · exact Or.inl ⟨m1, m2, h1, h2, hp⟩
      · exact Or.inr (Or.inl ⟨a, b, h1, h2⟩)
      · exact Or.inr (Or.inr (Or.inl ⟨_, ps1, ps2, h1, h2, hp⟩))
    · have hwf2 : ¬ o2.PortsHaveRanges := fun h => hwf1 (hsame.2.mpr h)
      exact Or.inr (Or.inr (Or.inr ⟨nilDeref, mapper_fault it1 t pod hpod o1 hnd hwf1,
        mapper_fault it2 t pod hpod o2 hnd hwf2⟩))

/-- Without an offer the default mapper does not walk its map. -/
theorem mapHostPorts_nil_offer (it1 it2 : MapIter) (t : PodTaskData) :
    mapHostPorts it1 t none = mapHostPorts it2 t none := by
  cases hpod : t.Pod with
  | none => simp only [mapHostPorts, hpod]
  | some pod =>
    cases hscan : scanContainers pod.Spec.Containers 0 [] with
    | error e => simp only [mapHostPorts, hpod, hscan]
    | ok req => simp only [mapHostPorts, hpod, hscan]

/-- Whether the default mapper succeeds does not depend on the iteration order. -/
theorem mapper_success_independent (it1 it2 : MapIter) (t : PodTaskData) (o : Offer)
    (m : Option (List hostPortMapping))
    (h : mapHostPorts it1 t (some o) = .ret (m, none)) :
    ∃ m2, mapHostPorts it2 t (some o) = .ret (m2, none) := by
  rcases mapper_same_outcome it1 it2 t o o ⟨List.Perm.refl _, Iff.rfl⟩ with
    ⟨_, m2, _, h2, _⟩ | ⟨a, b, h1, _⟩ | ⟨_, ps1, _, h1, _⟩ | ⟨msg, h1, _⟩
  · exact ⟨some m2, h2⟩
  · rw [h1] at h
    cases h
  · rw [h1] at h
    cases h
  · rw [h1] at h
    cases h

/-- With a non-nil pod and ranges in every resource named "ports", the default
mapper returns. -/
theorem mapper_returns (it : MapIter) (t : PodTaskData) (pod : Pod) (o : Offer)
    (hpod : t.Pod = some pod) (hwf : o.PortsHaveRanges) :
    ∃ r, mapHostPorts it t (some o) = .ret r := by
  rcases mapper_order_independent it it t pod o o hpod hwf hwf (List.Perm.refl _) with
    ⟨m1, _, h1, _⟩ | ⟨a, b, h1, _⟩ | ⟨ps1, _, h1, _⟩
  · exact ⟨_, h1⟩
  · exact ⟨_, h1⟩
  · exact ⟨_, h1⟩

/-- C12, as stated, fails: on an offer whose resource named "ports" has no ranges
value, and for a task with a nil pod, the mapper panics, with the same message
under every iteration order; the two calls neither both succeed nor both return
an error, which are the two outcomes the statement allows. -/
theorem defaultHostPortMapping_order_as_stated_fails :
    (defaultHostPortMapping MapIter.insertion (podData webPod) (some rangelessOffer) =
        (podData webPod, .fault nilDeref) ∧
      defaultHostPortMapping MapIter.reversed (podData webPod) (some rangelessOffer) =
        (podData webPod, .fault nilDeref)) ∧
    ((defaultHostPortMapping MapIter.insertion podlessTask.toPodTaskData (some offerA)).2 =
        .fault "task.Pod is nil" ∧
      (defaultHostPortMapping MapIter.reversed podlessTask.toPodTaskData (some offerA)).2 =
        .fault "task.Pod is nil") ∧
    ¬ ((∃ r, (defaultHostPortMapping MapIter.insertion (podData webPod)
          (some rangelessOffer)).2 = .ret r) ∨
       (∃ r, (defaultHostPortMapping MapIter.reversed (podData webPod)
          (some rangelessOffer)).2 = .ret r)) := by
  have h1 : (defaultHostPortMapping MapIter.insertion (podData webPod)
      (some rangelessOffer)).2 = .fault nilDeref := by decide
  have h2 : (defaultHostPortMapping MapIter.reversed (podData webPod)
      (some rangelessOffer)).2 = .fault nilDeref := by decide
  refine ⟨⟨by decide, by decide⟩, ⟨rfl, rfl⟩, ?_⟩
  rintro (⟨r, h⟩ | ⟨r, h⟩)
  · rw [h1] at h
    cases h
  · rw [h2] at h
    cases h

/-- C12 (amended): for every task and every offer, nil or not, the outcome of the
default mapper does not depend on the order in which the map of required ports is
walked nor on the order in which the ranges are listed: for two iteration orders,
on one offer or on two offers with the same ranges in any order, either both
calls succeed with assignments that have the same entries, or both return the
same DuplicateHostPortError, or both return a PortAllocationError for the same pod
with the same ports, or both panic with the same message; and neither call writes
to the task. -/
theorem defaultHostPortMapping_order_independent (it1 it2 : MapIter) (t : PodTaskData) :
    (∀ offer : Option Offer,
      SameOutcome (defaultHostPortMapping it1 t offer).2 (defaultHostPortMapping it2 t offer).2 ∧
      (defaultHostPortMapping it1 t offer).1 = t ∧
      (defaultHostPortMapping it2 t offer).1 = t) ∧
    (∀ o1 o2 : Offer, o1.SameRanges o2 →
      SameOutcome (defaultHostPortMapping it1 t (some o1)).2
        (defaultHostPortMapping it2 t (some o2)).2) ∧
    (∀ r1 r2, SameOutcome r1 r2 →
      ((∃ m1 m2, r1 = .ret (some m1, none) ∧ r2 = .ret (some m2, none) ∧
          ∀ e, e ∈ m1 ↔ e ∈ m2) ∨
        (∃ e1 e2, r1 = .ret (none, some e1) ∧ r2 = .ret (none, some e2)) ∨
        (∃ msg, r1 = .fault msg ∧ r2 = .fault msg))) := by
  refine ⟨fun offer => ⟨?_, rfl, rfl⟩, fun o1 o2 hsame => mapper_same_outcome it1 it2 t o1 o2 hsame,
    ?_⟩
  · cases offer with
    | some o => exact mapper_same_outcome it1 it2 t o o ⟨List.Perm.refl _, Iff.rfl⟩
    | none =>
      show SameOutcome (mapHostPorts it1 t none) (mapHostPorts it2 t none)
      rw [mapHostPorts_nil_offer it1 it2 t]
      cases hpod : t.Pod with
      | none =>
        refine Or.inr (Or.inr (Or.inr ⟨"task.Pod is nil", ?_, ?_⟩)) <;>
          simp only [mapHostPorts, hpod]
      | some pod =>
        cases hscan : scanContainers pod.Spec.Containers 0 [] with
        | error e =>
          have hres : mapHostPorts it2 t none = .ret (none, some e) := by
            simp only [mapHostPorts, hpod, hscan]
          rw [hres]
          by_cases hnd : ((podEntries pod).map hostPortMapping.offerPort).Nodup
          · rw [scanContainers_eq_insertAll] at hscan
            have hok : insertAll (containerEntries pod.Spec.Containers 0) [] = _ :=
              insertAll_ok (podEntries pod) [] (by simpa using hnd)
            rw [hok] at hscan
            cases hscan
          · obtain ⟨a, b, h⟩ := mapper_dup_uniform t pod hpod hnd
            have := h it2 none
            rw [hres] at this
            exact Or.inr (Or.inl ⟨a, b, this, this⟩)
        | ok req =>
          refine Or.inr (Or.inr (Or.inr ⟨nilDeref, ?_, ?_⟩)) <;>
            simp only [mapHostPorts, hpod, hscan]
  · rintro r1 r2 (⟨m1, m2, h1, h2, hp⟩ | ⟨a, b, h1, h2⟩ | ⟨id, ps1, ps2, h1, h2, _⟩ |
      ⟨msg, h1, h2⟩)
    · exact Or.inl ⟨m1, m2, h1, h2, fun e => hp.mem_iff⟩
    · exact Or.inr (Or.inl ⟨_, _, h1, h2⟩)
    · exact Or.inr (Or.inl ⟨_, _, h1, h2⟩)
    · exact Or.inr (Or.inr ⟨msg, h1, h2⟩)

/-- C12 (amended), at the pod with three host ports: the map walked in insertion
order on one offer and against it on the offer with the ranges in another order;
the two assignments list the same entries in different orders. And at the offer
without ranges value, where both calls panic. -/
theorem defaultHostPortMapping_order_independent_witness :
    (defaultHostPortMapping MapIter.insertion (podData triplePod) (some overlapOffer) =
        (podData triplePod, .ret (some [⟨0, 0, 8080⟩, ⟨1, 0, 8081⟩, ⟨0, 2, 9000⟩], none)) ∧
      defaultHostPortMapping MapIter.reversed (podData triplePod) (some swappedOffer) =
        (podData triplePod, .ret (some [⟨1, 0, 8081⟩, ⟨0, 2, 9000⟩, ⟨0, 0, 8080⟩], none))) ∧
    overlapOffer.SameRanges swappedOffer ∧
    SameOutcome (defaultHostPortMapping MapIter.insertion (podData triplePod)
        (some overlapOffer)).2
      (defaultHostPortMapping MapIter.reversed (podData triplePod) (some swappedOffer)).2 ∧
    SameOutcome (defaultHostPortMapping MapIter.insertion (podData webPod)
        (some rangelessOffer)).2
      (defaultHostPortMapping MapIter.reversed (podData webPod) (some rangelessOffer)).2 :=
  ⟨⟨by decide, by decide⟩, ⟨by decide, by decide⟩,
    (defaultHostPortMapping_order_independent MapIter.insertion MapIter.reversed
      (podData triplePod)).2.1 overlapOffer swappedOffer ⟨by decide, by decide⟩,
    ((defaultHostPortMapping_order_independent MapIter.insertion MapIter.reversed
      (podData webPod)).1 (some rangelessOffer)).1⟩

/-- C17, as stated, fails. The default mapper panics on an offer whose resource
named "ports" has no ranges value; `AcceptOffer` panics on an offer whose resource
named "cpus" has no scalar value, and, with the default mapper, on the offer
without ranges; and `AcceptOffer` panics when the mapper of the task does. -/
theorem mapper_and_AcceptOffer_no_fault_as_stated_fails :
    defaultHostPortMapping MapIter.insertion (podData webPod) (some rangelessOffer) =
        (podData webPod, .fault nilDeref) ∧
      ((podTask webPod).AcceptOffer (some valuelessOffer)).2 = .fault nilDeref ∧
      ((podTask webPod).AcceptOffer (some rangelessOffer)).2 = .fault nilDeref ∧
      ((faultyTask webPod).AcceptOffer (some offerA)).2 = .fault "unsupported" := by
  refine ⟨by decide, by rfl, by rfl, by rfl⟩

/-- C17 (amended): for every task with a non-nil pod and every non-nil offer in
which every resource named "ports" carries a ranges value, the default mapper
returns (an assignment or an error value) and does not panic; and when moreover
every resource named "cpus" or "mem" carries a scalar value and the task uses the
default mapper, `AcceptOffer` returns true or false and does not panic. -/
theorem mapper_and_AcceptOffer_no_fault (it : MapIter) (t : PodTask) (pod : Pod) (o : Offer)
    (hpod : t.Pod = some pod) (hranges : o.PortsHaveRanges) :
    (∃ r, defaultHostPortMapping it t.toPodTaskData (some o) = (t.toPodTaskData, .ret r)) ∧
    (o.ScalarsHaveValues → t.mapper = some (defaultHostPortMapping it) →
      ∃ b, (t.AcceptOffer (some o)).2 = .ret b) := by
  obtain ⟨⟨m, err⟩, hr⟩ := mapper_returns it t.toPodTaskData pod o hpod hranges
  refine ⟨⟨(m, err), ?_⟩, fun hscalars hmapper => ?_⟩
  · show (t.toPodTaskData, mapHostPorts it t.toPodTaskData (some o)) = _
    rw [hr]
  · have hcall : t.callMapper (some o) = (t, .ret (m, err)) := by
      rw [callMapper_default it t _ hmapper, hr]
    rw [AcceptOffer_of_mapper t t o hscalars m err hcall]
    exact ⟨_, rfl⟩

/-- C17 (amended), at the pod "web": offer B, whose ports do not fit, gives an
error value from the mapper and false from `AcceptOffer`. -/
theorem mapper_and_AcceptOffer_no_fault_witness :
    ((podTask webPod).AcceptOffer (some offerB)).2 = .ret false ∧
    (∃ r, defaultHostPortMapping MapIter.insertion (podTask webPod).toPodTaskData
        (some offerB) = ((podTask webPod).toPodTaskData, .ret r)) ∧
    ∃ b, ((podTask webPod).AcceptOffer (some offerB)).2 = .ret b :=
  ⟨by rfl,
    (mapper_and_AcceptOffer_no_fault MapIter.insertion (podTask webPod) webPod offerB rfl (by decide)).1,
    (mapper_and_AcceptOffer_no_fault MapIter.insertion (podTask webPod) webPod offerB rfl (by decide)).2
      (by decide) rfl⟩

/-! ## The probe and the bind -/

/-- When `AcceptOffer` returns true, the mapper of the task has succeeded on the
offer. -/
theorem AcceptOffer_true_mapper (t : PodTask) (o : Offer)
    (h : (t.AcceptOffer (some o)).2 = .ret true) :
    ∃ m, (t.callMapper (some o)).2 = .ret (m, none) := by
  unfold PodTask.AcceptOffer at h
  simp only at h
  cases hs : scanScalars o.Resources (0, 0) with
  | fault msg =>
    rw [hs] at h
    cases h
  | ret s =>
    obtain ⟨cpus, mem⟩ := s
    rw [hs] at h
    simp only at h
    rcases hm : t.callMapper (some o) with ⟨t1, res⟩
    cases res with
    | fault msg =>
      rw [hm] at h
      cases h
    | ret r =>
      obtain ⟨m, err⟩ := r
      cases err with
      | some e =>
        rw [hm] at h
        cases h
      | none => exact ⟨m, rfl⟩

/-- The offer A has enough of "cpus" and "mem". -/
theorem offerA_sufficient :
    ¬ offerA.quantity "cpus" < containerCpus ∧ ¬ offerA.quantity "mem" < containerMem := by
  have hq : offerA.quantity "cpus" = .finite 1 := by rfl
  have hm : offerA.quantity "mem" = .finite 128 := by rfl
  rw [hq, hm]
  constructor
  · show ¬ ((1 : ℚ) < 1 / 4)
    norm_num
  · show ¬ ((128 : ℚ) < 64)
    norm_num

/-- The task "web" without `TaskInfo` accepts offer A. -/
theorem bareTask_accepts_offerA :
    ((bareTask webPod).AcceptOffer (some offerA)).2 = .ret true := by
  have hmap : (bareTask webPod).callMapper (some offerA) =
      (bareTask webPod, .ret (some [⟨0, 0, 8080⟩], none)) := by rfl
  rw [AcceptOffer_of_mapper _ _ _ (by decide) _ _ hmap]
  rw [decide_eq_true (⟨rfl, offerA_sufficient⟩ : _ ∧ _)]

/-- C18, as stated, fails: the task has a non-nil pod and the default mapper and
`AcceptOffer` returns true on offer A, yet `FillFromDetails` on the same offer
does not return nil: the `TaskInfo` of the task is nil and line 55 panics. -/
theorem AcceptOffer_sound_as_stated_fails :
    (bareTask webPod).Pod = some webPod ∧
      (bareTask webPod).mapper = some (defaultHostPortMapping MapIter.insertion) ∧
      ((bareTask webPod).AcceptOffer (some offerA)).2 = .ret true ∧
      ((bareTask webPod).FillFromDetails sampleRangeResource (some offerA)).2 =
        .fault nilDeref :=
  ⟨rfl, rfl, bareTask_accepts_offerA, by rfl⟩

/-- C18 (amended): for every task with a non-nil pod and a non-nil `TaskInfo`
that uses the default mapper, and every offer, if `AcceptOffer` returns true then
`FillFromDetails` on the same task and offer returns nil and leaves
`hasAcceptedOffer()` true, although it writes `TaskInfo` fields before it calls
the mapper, and also when the second call walks its map in another order. -/
theorem AcceptOffer_sound (rangeResource : String → List Nat → Option Resource)
    (it : MapIter) (t : PodTask) (pod : Pod) (taskInfo : TaskInfo) (offer : Option Offer)
    (hpod : t.Pod = some pod) (hti : t.TaskInfo = some taskInfo)
    (hmapper : t.mapper = some (defaultHostPortMapping it))
    (hacc : (t.AcceptOffer offer).2 = .ret true) :
    (∃ t1, t.FillFromDetails rangeResource offer = (t1, .ret none) ∧
      t1.hasAcceptedOffer = true) ∧
    (∀ it2, ∃ t1, ({ t with mapper := some (defaultHostPortMapping it2) } :
        PodTask).FillFromDetails rangeResource offer = (t1, .ret none) ∧
      t1.hasAcceptedOffer = true) := by
  cases offer with
  | none => cases hacc
  | some o =>
    obtain ⟨m, hm⟩ := AcceptOffer_true_mapper t o hacc
    have hm1 : mapHostPorts it t.toPodTaskData (some o) = .ret (m, none) := by
      rw [callMapper_default it t _ hmapper] at hm
      exact hm
    have hgen : ∀ it2, ∃ t1, ({ t with mapper := some (defaultHostPortMapping it2) } :
        PodTask).FillFromDetails rangeResource (some o) = (t1, .ret none) ∧
        t1.hasAcceptedOffer = true := by
      intro it2
      obtain ⟨m2, hm2⟩ := mapper_success_independent it it2 t.toPodTaskData o m hm1
      have hcall : (fillTask { t with mapper := some (defaultHostPortMapping it2) } o
          taskInfo).callMapper (some o) =
          (fillTask { t with mapper := some (defaultHostPortMapping it2) } o taskInfo,
            .ret (m2, none)) := by
        rw [callMapper_fillTask_default it2 _ o taskInfo (some o) rfl]
        exact congrArg _ hm2
      exact ⟨_, FillFromDetails_of_ok rangeResource _ _ pod taskInfo o m2 hpod hti hcall rfl,
        rfl⟩
    refine ⟨?_, hgen⟩
    have hcall : (fillTask t o taskInfo).callMapper (some o) =
        (fillTask t o taskInfo, .ret (m, none)) := by
      rw [callMapper_fillTask_default it t o taskInfo (some o) hmapper, hm1]
    exact ⟨_, FillFromDetails_of_ok rangeResource t _ pod taskInfo o m hpod hti hcall rfl, rfl⟩

/-- The task "web" accepts offer A. -/
theorem podTask_accepts_offerA :
    ((podTask webPod).AcceptOffer (some offerA)).2 = .ret true := by
  have hmap : (podTask webPod).callMapper (some offerA) =
      (podTask webPod, .ret (some [⟨0, 0, 8080⟩], none)) := by rfl
  rw [AcceptOffer_of_mapper _ _ _ (by decide) _ _ hmap]
  rw [decide_eq_true (⟨rfl, offerA_sufficient⟩ : _ ∧ _)]

/-- C18 (amended), at the pod "web" and offer A. -/
theorem AcceptOffer_sound_witness :
    ((podTask webPod).AcceptOffer (some offerA)).2 = .ret true ∧
    (∃ t1, (podTask webPod).FillFromDetails sampleRangeResource (some offerA) =
        (t1, .ret none) ∧ t1.hasAcceptedOffer = true) :=
  ⟨podTask_accepts_offerA,
    (AcceptOffer_sound sampleRangeResource MapIter.insertion (podTask webPod) webPod
      { Name := some "PodTask" } (some offerA) rfl rfl rfl podTask_accepts_offerA).1⟩

/-- The task "web" does not accept offer C, which lists a tenth of a cpu. -/
theorem podTask_rejects_offerC :
    ((podTask webPod).AcceptOffer (some offerC)).2 = .ret false := by
  have hmap : (podTask webPod).callMapper (some offerC) =
      (podTask webPod, .ret (some [⟨0, 0, 8080⟩], none)) := by rfl
  rw [AcceptOffer_of_mapper _ _ _ (by decide) _ _ hmap]
  have hq : offerC.quantity "cpus" = .finite (1 / 10) := by rfl
  rw [hq]
  have h2 : Float64.finite (1 / 10) < containerCpus := by
    show ((1 : ℚ) / 10 < 1 / 4)
    norm_num
  have : ¬ ((none : Option MapError) = none ∧ ¬ Float64.finite (1 / 10) < containerCpus ∧
      ¬ offerC.quantity "mem" < containerMem) := fun h => h.2.1 h2
  rw [decide_eq_false this]

/-- `FillFromDetails` returns nil exactly when the call of the mapper succeeds and
line 71 finds a `TaskInfo` to append to, or has nothing to append. -/
theorem FillFromDetails_nil_iff_call (rangeResource : String → List Nat → Option Resource)
    (t : PodTask) (pod : Pod) (taskInfo : TaskInfo) (d : Offer)
    (hpod : t.Pod = some pod) (hti : t.TaskInfo = some taskInfo) :
    (t.FillFromDetails rangeResource (some d)).2 = .ret none ↔
      ∃ t2 m, (fillTask t d taskInfo).callMapper (some d) = (t2, .ret (m, none)) ∧
        (t2.TaskInfo ≠ none ∨
          rangeResource "ports" ((m.getD []).map hostPortMapping.offerPort) = none) := by
  rcases hm : (fillTask t d taskInfo).callMapper (some d) with ⟨t2, res⟩
  cases res with
  | fault msg =>
    simp only [PodTask.FillFromDetails, hpod, hti, hm]
    constructor
    · intro h
      cases h
    · rintro ⟨_, _, h, _⟩
      cases h
  | ret r =>
    obtain ⟨m, err⟩ := r
    cases err with
    | some e =>
      simp only [PodTask.FillFromDetails, hpod, hti, hm]
      constructor
      · intro h
        cases hc : t2.ClearTaskInfo with
        | mk t3 res3 =>
          rw [hc] at h
          cases res3 <;> cases h
      · rintro ⟨_, _, h, _⟩
        cases h
    | none =>
      simp only [PodTask.FillFromDetails, hpod, hti, hm]
      cases hrr : rangeResource "ports" ((m.getD []).map hostPortMapping.offerPort) with
      | none =>
        simp only
        exact ⟨fun _ => ⟨t2, m, rfl, Or.inr hrr⟩, fun _ => trivial⟩
      | some portsRes =>
        cases hti2 : t2.TaskInfo with
        | none =>
          simp only [hti2]
          constructor
          · intro h
            cases h
          · rintro ⟨t3, m3, h, hor⟩
            cases h
            rcases hor with h1 | h1
            · exact absurd hti2 h1
            · rw [hrr] at h1
              cases h1
        | some taskInfo2 =>
          simp only [hti2]
          refine ⟨fun _ => ⟨t2, m, rfl, Or.inl ?_⟩, fun _ => trivial⟩
          rw [hti2]
          exact fun h => Option.noConfusion h

/-- C19, as stated, fails, in three ways. With a nil `TaskInfo`: the default
mapper succeeds on the task and offer A, yet `FillFromDetails` panics at line 55
and does not return nil. With a mapper that reads the task descriptor: it
succeeds on the task as it is before the call, and `FillFromDetails` returns the
error it gives for the task it is handed. With a mapper that sets `TaskInfo` to
nil and succeeds with port 8080: the append of line 71 panics. -/
theorem FillFromDetails_nil_iff_as_stated_fails :
    ((bareTask webPod).Pod = some webPod ∧
      ((bareTask webPod).callMapper (some offerA)).2 = .ret (some [⟨0, 0, 8080⟩], none) ∧
      ((bareTask webPod).FillFromDetails sampleRangeResource (some offerA)).2 =
        .fault nilDeref) ∧
    (((taskIdTask webPod true).callMapper (some offerA)).2 = .ret (some [], none) ∧
      ((taskIdTask webPod true).FillFromDetails sampleRangeResource (some offerA)).2 =
        .ret (some (.other "refused"))) ∧
    (((mapperTask webPod (strippingMapper false)).callMapper (some offerA)).2 =
        .ret (some [⟨0, 0, 8080⟩], none) ∧
      ((fillTask (mapperTask webPod (strippingMapper false)) offerA
          { Name := some "PodTask" }).callMapper (some offerA)).2 =
        .ret (some [⟨0, 0, 8080⟩], none) ∧
      ((mapperTask webPod (strippingMapper false)).FillFromDetails sampleRangeResource
        (some offerA)).2 = .fault nilDeref) := by
  refine ⟨⟨rfl, by rfl, by rfl⟩, ⟨by rfl, by rfl⟩, ⟨by rfl, by rfl, by rfl⟩⟩

/-- C19 (amended): `FillFromDetails` does not check resource sufficiency: for
every task with a non-nil pod and a non-nil `TaskInfo` and every non-nil details
it returns nil exactly when the mapper, called on the task as `FillFromDetails`
hands it over, succeeds and either leaves a `TaskInfo` in the task or maps ports
for which the helper makes no resource; so, for a mapper that leaves a `TaskInfo`
in the task, exactly when it succeeds, and for a task with the default mapper
exactly when the mapper succeeds on the task and the details, whatever the "cpus"
and "mem" values of the offer. For the pod "web" and offer C (ports 8000 to 8100,
a tenth of a cpu) `AcceptOffer` returns false, yet `FillFromDetails` returns nil
and leaves `hasAcceptedOffer()` true. -/
theorem FillFromDetails_nil_iff (rangeResource : String → List Nat → Option Resource)
    (t : PodTask) (pod : Pod) (taskInfo : TaskInfo) (d : Offer)
    (hpod : t.Pod = some pod) (hti : t.TaskInfo = some taskInfo) :
    ((t.FillFromDetails rangeResource (some d)).2 = .ret none ↔
      ∃ t2 m, (fillTask t d taskInfo).callMapper (some d) = (t2, .ret (m, none)) ∧
        (t2.TaskInfo ≠ none ∨
          rangeResource "ports" ((m.getD []).map hostPortMapping.offerPort) = none)) ∧
    (((fillTask t d taskInfo).callMapper (some d)).1.TaskInfo ≠ none →
      ((t.FillFromDetails rangeResource (some d)).2 = .ret none ↔
        ∃ m, ((fillTask t d taskInfo).callMapper (some d)).2 = .ret (m, none))) ∧
    (∀ it, t.mapper = some (defaultHostPortMapping it) →
      ((t.FillFromDetails rangeResource (some d)).2 = .ret none ↔
        ∃ m, (t.callMapper (some d)).2 = .ret (m, none))) ∧
    (((podTask webPod).AcceptOffer (some offerC)).2 = .ret false ∧
      ((podTask webPod).FillFromDetails rangeResource (some offerC)).2 = .ret none ∧
      ((podTask webPod).FillFromDetails rangeResource
        (some offerC)).1.hasAcceptedOffer = true) := by
  have hiff := FillFromDetails_nil_iff_call rangeResource t pod taskInfo d hpod hti
  have hkeep : ((fillTask t d taskInfo).callMapper (some d)).1.TaskInfo ≠ none →
      ((t.FillFromDetails rangeResource (some d)).2 = .ret none ↔
        ∃ m, ((fillTask t d taskInfo).callMapper (some d)).2 = .ret (m, none)) := by
    intro hne
    rw [hiff]
    rcases hm : (fillTask t d taskInfo).callMapper (some d) with ⟨t2, res⟩
    rw [hm] at hne
    constructor
    · rintro ⟨t3, m, h, _⟩
      cases h
      exact ⟨m, rfl⟩
    · rintro ⟨m, h⟩
      simp only at h
      subst h
      exact ⟨t2, m, rfl, Or.inl hne⟩
  refine ⟨hiff, hkeep, ?_, podTask_rejects_offerC, ?_⟩
  · intro it hmapper
    have hcall := callMapper_fillTask_default it t d taskInfo (some d) hmapper
    rw [hkeep (by rw [hcall]; show (some _ : Option TaskInfo) ≠ none; exact fun h => by cases h),
      hcall, callMapper_default it t _ hmapper]
  · have hcall : (fillTask (podTask webPod) offerC { Name := some "PodTask" }).callMapper
        (some offerC) = (fillTask (podTask webPod) offerC { Name := some "PodTask" },
          .ret (some [⟨0, 0, 8080⟩], none)) := by rfl
    rw [FillFromDetails_of_ok rangeResource (podTask webPod) _ webPod
      { Name := some "PodTask" } offerC _ rfl rfl hcall rfl]
    exact ⟨rfl, rfl⟩

/-- C19 (amended), at the pod "web": offer B, on which the mapper fails, and
offer C, on which it succeeds. -/
theorem FillFromDetails_nil_iff_witness :
    (((podTask webPod).FillFromDetails sampleRangeResource (some offerB)).2 = .ret none ↔
      ∃ m, ((podTask webPod).callMapper (some offerB)).2 = .ret (m, none)) ∧
    ((podTask webPod).FillFromDetails sampleRangeResource (some offerC)).2 = .ret none :=
  ⟨(FillFromDetails_nil_iff sampleRangeResource (podTask webPod) webPod
      { Name := some "PodTask" } offerB rfl rfl).2.2.1 MapIter.insertion rfl,
    ((FillFromDetails_nil_iff sampleRangeResource (podTask webPod) webPod
      { Name := some "PodTask" } offerC rfl rfl).2.2.1 MapIter.insertion rfl).mpr
      ⟨some [⟨0, 0, 8080⟩], by rfl⟩⟩

/-! ## `newPodTask` and `dup` -/

/-- What `newPodTask` returns for a pod, an executor and a key. -/
theorem newPodTask_of_key (env : Env) (ctx : Context) (p : Pod) (e : ExecutorInfo)
    (key : String) (hkey : env.makePodKey ctx p.Name = .ok key) :
    newPodTask env ctx (some p) (some e) =
      .ret (some
        { ID := env.uuid
          Pod := some p
          TaskInfo := some { Name := some "PodTask", Executor := some e }
          podKey := key
          createTime := env.now
          mapper := some (defaultHostPortMapping env.it) }, none) := by
  simp only [newPodTask, hkey, newTaskInfo]

/-- C14: `newPodTask` returns an error and no task for a nil pod, and for a pod
with a nil executor; for a pod and an executor whose key `makePodKey` derives it
returns, without error, a task with that pod, that executor in `TaskInfo`, the
default mapper, and unbound: `hasAcceptedOffer()` false, `Offer` nil and
`GetOfferId()` "", `ports` nil, `launched` and `deleted` false. -/
theorem newPodTask_spec (env : Env) (ctx : Context) :
    (∀ executor, newPodTask env ctx none executor =
      .ret (none, some "illegal argument: pod was nil")) ∧
    (∀ p, newPodTask env ctx (some p) none =
      .ret (none, some "illegal argument: executor was nil")) ∧
    (∀ p e key, env.makePodKey ctx p.Name = .ok key →
      ∃ t, newPodTask env ctx (some p) (some e) = .ret (some t, none) ∧
        t.Pod = some p ∧
        (∃ taskInfo, t.TaskInfo = some taskInfo ∧ taskInfo.Executor = some e ∧
          taskInfo.TaskId = none ∧ taskInfo.SlaveId = none ∧
          taskInfo.Resources = none ∧ taskInfo.Data = none) ∧
        t.mapper = some (defaultHostPortMapping env.it) ∧
        t.hasAcceptedOffer = false ∧ t.Offer = none ∧ t.GetOfferId = .ret "" ∧
        t.ports = none ∧ t.launched = false ∧ t.deleted = false ∧
        t.podKey = key ∧ t.createTime = env.now ∧ t.ID = env.uuid) := by
  refine ⟨fun _ => rfl, fun _ => rfl, ?_⟩
  intro p e key hkey
  exact ⟨_, newPodTask_of_key env ctx p e key hkey, rfl, ⟨_, rfl, rfl, rfl, rfl, rfl, rfl⟩,
    rfl, rfl, rfl, rfl, rfl, rfl, rfl, rfl, rfl, rfl⟩

/-- C14, at the pod "web" and an executor, in the default context. -/
theorem newPodTask_spec_witness :
    ∃ t, newPodTask sampleEnv NewDefaultContext (some webPod) (some sampleExecutor) =
        .ret (some t, none) ∧
      t.Pod = some webPod ∧
      (∃ taskInfo, t.TaskInfo = some taskInfo ∧ taskInfo.Executor = some sampleExecutor ∧
        taskInfo.TaskId = none ∧ taskInfo.SlaveId = none ∧
        taskInfo.Resources = none ∧ taskInfo.Data = none) ∧
      t.mapper = some (defaultHostPortMapping sampleEnv.it) ∧
      t.hasAcceptedOffer = false ∧ t.Offer = none ∧ t.GetOfferId = .ret "" ∧
      t.ports = none ∧ t.launched = false ∧ t.deleted = false ∧
      t.podKey = "/pods/default/web" ∧ t.createTime = sampleEnv.now ∧
      t.ID = sampleEnv.uuid :=
  (newPodTask_spec sampleEnv NewDefaultContext).2.2 webPod sampleExecutor
    "/pods/default/web" rfl

/-- C15: for every task with a non-nil pod, in any state, when `dup` succeeds the
task it returns has the pod and the executor of the task, and is otherwise what
`newPodTask` makes of them: `hasAcceptedOffer()` false, `Offer` nil, `ports` and
`TaskInfo.Resources` nil, `launched` and `deleted` false; and the task itself is
as before the call. -/
theorem dup_spec (env : Env) (t : PodTask) (pod : Pod) (t1 : PodTask)
    (hpod : t.Pod = some pod) (hok : (t.dup env).2 = .ret (some t1, none)) :
    (t.dup env).1 = t ∧ t1.Pod = t.Pod ∧
      (∃ taskInfo taskInfo1, t.TaskInfo = some taskInfo ∧ t1.TaskInfo = some taskInfo1 ∧
        taskInfo1.Executor = taskInfo.Executor ∧ taskInfo1.Resources = none ∧
        taskInfo1.TaskId = none ∧ taskInfo1.SlaveId = none ∧ taskInfo1.Data = none) ∧
      t1.hasAcceptedOffer = false ∧ t1.Offer = none ∧ t1.ports = none ∧
      t1.launched = false ∧ t1.deleted = false ∧
      newPodTask env (WithNamespace NewDefaultContext pod.Namespace) t.Pod
        (t.TaskInfo.bind (fun ti => ti.Executor)) = .ret (some t1, none) := by
  cases hti : t.TaskInfo with
  | none =>
    simp only [PodTask.dup, hpod, hti] at hok
    cases hok
  | some taskInfo =>
    have hdup : t.dup env =
        (t, newPodTask env (WithNamespace NewDefaultContext pod.Namespace) (some pod)
          taskInfo.Executor) := by
      simp only [PodTask.dup, hpod, hti]
    rw [hdup] at hok ⊢
    simp only at hok
    cases hexec : taskInfo.Executor with
    | none =>
      rw [hexec] at hok
      cases hok
    | some e =>
      rw [hexec] at hok
      cases hkey : env.makePodKey (WithNamespace NewDefaultContext pod.Namespace) pod.Name with
      | error err =>
        simp only [newPodTask, hkey] at hok
        cases hok
      | ok key =>
        have hnew := newPodTask_of_key env _ pod e key hkey
        rw [hnew] at hok
        cases hok
        refine ⟨rfl, hpod.symm, ⟨taskInfo, _, rfl, rfl, hexec.symm, rfl, rfl, rfl, rfl⟩,
          rfl, rfl, rfl, rfl, rfl, ?_⟩
        simp only [hpod, Option.bind, hexec]
        exact hnew

/-- C15, at a task that holds an accepted offer and is launched and marked
deleted. -/
theorem dup_spec_witness :
    ∃ t1, (boundTask.dup sampleEnv).2 = .ret (some t1, none) ∧
      (boundTask.dup sampleEnv).1 = boundTask ∧ t1.Pod = boundTask.Pod ∧
      (∃ taskInfo taskInfo1, boundTask.TaskInfo = some taskInfo ∧
        t1.TaskInfo = some taskInfo1 ∧
        taskInfo1.Executor = taskInfo.Executor ∧ taskInfo1.Resources = none ∧
        taskInfo1.TaskId = none ∧ taskInfo1.SlaveId = none ∧ taskInfo1.Data = none) ∧
      t1.hasAcceptedOffer = false ∧ t1.Offer = none ∧ t1.ports = none ∧
      t1.launched = false ∧ t1.deleted = false ∧
      newPodTask sampleEnv (WithNamespace NewDefaultContext webPod.Namespace) boundTask.Pod
        (boundTask.TaskInfo.bind (fun ti => ti.Executor)) = .ret (some t1, none) :=
  ⟨_, rfl, dup_spec sampleEnv boundTask webPod _ rfl rfl⟩

end Scheduler
